import Mathlib

/-!
# go-env: tag-driven parsing of environment variables into structs

A shallow embedding of `src/env.go` (package `env`) and a verification of the
statements its specification makes about it.

Modelling conventions.

* A Go `string` is a Lean `String`, i.e. valid UTF-8 text.  Its byte view
  (`len(s)`, `s[i]`, `[]byte(s)`) is obtained through `goBytes`, its code point
  view (`[]rune(s)`) through `goRunes`.  A raw value that is not well-formed
  UTF-8 is not a `String`: where this matters the string is given by its bytes
  and the conversions are `runesOfBytes` and `bytesOfRunes`, which agree with
  `goRunes` and `goBytes` on well-formed UTF-8.
* A Go `error` is its message (`err.Error()`), a `String`.
* `reflect` is replaced by an explicit description of the target: a struct is a
  list of `SField`s, each carrying its `env` tag, its declared type and its
  current value.  All fields are exported (settable).  Declared types range
  over `GoType`: the predeclared types, `time.Duration`, `time.Time`,
  `*regexp.Regexp`, slices and pointers of these; user-declared struct types
  appear as `SField.nested`.
* `os.Getenv` is a function `Environ` from names to values, the empty string
  standing for an unset variable.
* Mutation of the target is explicit state passing: `parseEnv` returns the
  fields as they are after the call together with the error, if any.
* `strconv.ParseFloat`, `time.ParseDuration`, `time.Parse`, `regexp.Compile`
  and the Unicode printability table used by `strconv.Quote` are parameters
  (`StdLib`); every general theorem holds for all of them.
-/

namespace GoEnv

/-! ## Go strings -/

/-- UTF-8 encoding of one code point, as a list of byte values. -/
def utf8EncodeChar (c : Char) : List Nat :=
  let n := c.toNat
  if n < 0x80 then [n]
  else if n < 0x800 then [0xC0 + n / 0x40, 0x80 + n % 0x40]
  else if n < 0x10000 then [0xE0 + n / 0x1000, 0x80 + n / 0x40 % 0x40, 0x80 + n % 0x40]
  else [0xF0 + n / 0x40000, 0x80 + n / 0x1000 % 0x40, 0x80 + n / 0x40 % 0x40, 0x80 + n % 0x40]

/-- Bytes of a list of code points. -/
def bytesOf : List Char → List Nat
  | [] => []
  | c :: cs => utf8EncodeChar c ++ bytesOf cs

/-- Go `[]byte(s)`: the bytes of the string. -/
def goBytes (s : String) : List Nat := bytesOf s.data

/-- Go `len(s)`: the length of the string in bytes. -/
def len (s : String) : Nat := (goBytes s).length

/-- Go `s[0]` (only used where `len(s) = 1` has been checked). -/
def byteAt0 (s : String) : Nat := (goBytes s).headD 0

/-- Go `[]rune(s)` for a string that is well-formed UTF-8: its code points. -/
def goRunes (s : String) : List Nat := s.data.map Char.toNat

/-- Go `string(rs)` for a slice of runes that are valid code points. -/
def stringOfRunes (rs : List Nat) : String := String.mk (rs.map Char.ofNat)

/-- Decoding of one UTF-8 sequence at the head of a byte list: the code point
and the remaining bytes (`utf8.DecodeRune` on well-formed input). -/
def utf8DecodeHead : List Nat → Option (Nat × List Nat)
  | [] => none
  | b0 :: rest =>
    if b0 < 0x80 then some (b0, rest)
    else if b0 < 0xE0 then
      match rest with
      | b1 :: r => some ((b0 - 0xC0) * 0x40 + (b1 - 0x80), r)
      | _ => none
    else if b0 < 0xF0 then
      match rest with
      | b1 :: b2 :: r => some ((b0 - 0xE0) * 0x1000 + (b1 - 0x80) * 0x40 + (b2 - 0x80), r)
      | _ => none
    else
      match rest with
      | b1 :: b2 :: b3 :: r =>
        some ((b0 - 0xF0) * 0x40000 + (b1 - 0x80) * 0x1000 + (b2 - 0x80) * 0x40 + (b3 - 0x80), r)
      | _ => none

/-- Decoding of a byte list into code points, bounded by the number of bytes. -/
def utf8Decode : Nat → List Nat → List Char
  | 0, _ => []
  | fuel + 1, bs =>
    match utf8DecodeHead bs with
    | none => []
    | some (n, rest) => Char.ofNat n :: utf8Decode fuel rest

/-- Go `string(bs)` for a byte slice holding well-formed UTF-8. -/
def stringOfBytes (bs : List Nat) : String := String.mk (utf8Decode bs.length bs)

/-- Go `strings.HasPrefix(s, p)`. -/
def HasPrefix (s p : String) : Bool := p.data.isPrefixOf s.data

/-- First occurrence of a non-empty `sep` in `s` (`strings.Index`) together with
the slicing done around it: the text before it and the text after it. -/
def cut (sep : List Char) : List Char → Option (List Char × List Char)
  | [] => none
  | c :: cs =>
    if sep.isPrefixOf (c :: cs) then some ([], (c :: cs).drop sep.length)
    else (cut sep cs).map (fun p => (c :: p.1, p.2))

/-- The loop of `strings.genSplit` for a non-empty separator: at most `n` cuts. -/
def splitLoop (sep : List Char) : Nat → List Char → List (List Char)
  | 0, s => [s]
  | n + 1, s =>
    match cut sep s with
    | none => [s]
    | some (a, b) => a :: splitLoop sep n b

/-- Go `strings.Split(s, sep)`.  With an empty separator the string is exploded
into its UTF-8 sequences; otherwise it is cut at every occurrence of `sep`
(there are at most `len(s)` of them). -/
def Split (s sep : String) : List String :=
  if sep.data.isEmpty then s.data.map (fun c => String.mk [c])
  else (splitLoop sep.data s.data.length s.data).map String.mk

/-- Go `strings.SplitN(s, sep, 2)` for a non-empty separator: one cut at most. -/
def SplitN2 (s sep : String) : List String :=
  (splitLoop sep.data 1 s.data).map String.mk

deriving instance DecidableEq for Except

/-! ## The standard-library functions the package calls -/

/-- A `time.Time` as returned by `time.Parse`: an instant and a zone offset. -/
structure TimeVal where
  unixNano : Int
  zoneOffset : Int
  deriving DecidableEq, Repr

/-- The library functions that are not modelled: each returns its result or the
text of its error. -/
structure StdLib where
  /-- Text of `strconv.ParseFloat(s, bitSize)`: the bits of the float64 result. -/
  parseFloat : String → Nat → Except String Nat
  /-- Text of `time.ParseDuration(s)`: nanoseconds. -/
  parseDuration : String → Except String Int
  /-- Text of `time.Parse(time.RFC3339, s)`. -/
  parseTime : String → Except String TimeVal
  /-- Text of `regexp.Compile(s)`: the error, if the expression does not compile. -/
  regexpCompile : String → Except String Unit
  /-- Table of `unicode.IsPrint` for code points above U+00FF. -/
  isPrintTable : Nat → Bool

/-- Go `strconv.IsPrint`. -/
def IsPrint (lib : StdLib) (r : Nat) : Bool :=
  if r ≤ 0xFF then
    if 0x20 ≤ r ∧ r < 0x7F then true
    else if 0xA1 ≤ r then r != 0xAD
    else false
  else lib.isPrintTable r

/-- One digit of `lowerhex`. -/
def lowerhex (n : Nat) : Char := "0123456789abcdef".data.getD n '0'

/-- The hexadecimal digits written by the loops `for s := k; s >= 0; s -= 4`. -/
def hexDigits (r : Nat) : Nat → List Char
  | 0 => []
  | k + 1 => lowerhex (r / 16 ^ k % 16) :: hexDigits r k

/-- Go `strconv.appendEscapedRune` with the double quote, neither ASCII-only
nor graphic-only. -/
def escapeRune (lib : StdLib) (c : Char) : List Char :=
  let r := c.toNat
  if c = '"' ∨ c = '\\' then ['\\', c]
  else if IsPrint lib r then [c]
  else if r = 7 then ['\\', 'a']
  else if r = 8 then ['\\', 'b']
  else if r = 12 then ['\\', 'f']
  else if r = 10 then ['\\', 'n']
  else if r = 13 then ['\\', 'r']
  else if r = 9 then ['\\', 't']
  else if r = 11 then ['\\', 'v']
  else if r < 0x20 ∨ r = 0x7F then ['\\', 'x', lowerhex (r / 16), lowerhex (r % 16)]
  else if r < 0x10000 then '\\' :: 'u' :: hexDigits r 4
  else '\\' :: 'U' :: hexDigits r 8

/-- Escaped text of a list of code points. -/
def escapeAll (lib : StdLib) : List Char → List Char
  | [] => []
  | c :: cs => escapeRune lib c ++ escapeAll lib cs

/-- Go `strconv.Quote(s)`. -/
def Quote (lib : StdLib) (s : String) : String :=
  String.mk ('"' :: escapeAll lib s.data ++ ['"'])

/-- The two errors a `strconv.NumError` wraps here. -/
inductive NumErr where
  | ErrSyntax
  | ErrRange
  deriving DecidableEq, Repr

/-- Text of `strconv.ErrSyntax` and `strconv.ErrRange`. -/
def NumErr.text : NumErr → String
  | .ErrSyntax => "invalid syntax"
  | .ErrRange => "value out of range"

/-- Text of `(*strconv.NumError).Error()`. -/
def numError (lib : StdLib) (fn s : String) (e : NumErr) : String :=
  "strconv." ++ fn ++ ": parsing " ++ Quote lib s ++ ": " ++ e.text

/-- The digit loop of `strconv.ParseUint` in base 10 over the bytes of the
string: `n` is the `uint64` accumulator, `maxVal` is `1<<bitSize - 1`. -/
def parseUintLoop (maxVal : Nat) : List Nat → Nat → Except NumErr Nat
  | [], n => .ok n
  | c :: cs, n =>
    if 48 ≤ c ∧ c ≤ 57 then
      if n ≥ (2 ^ 64 - 1) / 10 + 1 then .error .ErrRange
      else
        let n10 := n * 10 % 2 ^ 64
        let n1 := (n10 + (c - 48)) % 2 ^ 64
        if n1 < n10 ∨ n1 > maxVal then .error .ErrRange
        else parseUintLoop maxVal cs n1
    else .error .ErrSyntax

/-- Body of `strconv.ParseUint(s, 10, bitSize)` on the bytes of `s`. -/
def parseUintBytes (bs : List Nat) (bitSize : Nat) : Except NumErr Nat :=
  if bs.isEmpty then .error .ErrSyntax
  else parseUintLoop (2 ^ bitSize - 1) bs 0

/-- Go `strconv.ParseUint(s, 10, bitSize)`. -/
def ParseUint (lib : StdLib) (s : String) (bitSize : Nat) : Except String Nat :=
  match parseUintBytes (goBytes s) bitSize with
  | .ok n => .ok n
  | .error e => .error (numError lib "ParseUint" s e)

/-- Go `strconv.ParseInt(s, 10, bitSize)`. -/
def ParseInt (lib : StdLib) (s : String) (bitSize : Nat) : Except String Int :=
  let bs := goBytes s
  if bs.isEmpty then .error (numError lib "ParseInt" s .ErrSyntax)
  else
    let neg := bs.headD 0 == 45
    let rest := if bs.headD 0 == 43 ∨ bs.headD 0 == 45 then bs.tail else bs
    match parseUintBytes rest bitSize with
    | .error .ErrSyntax => .error (numError lib "ParseInt" s .ErrSyntax)
    | r =>
      let un := match r with
        | .ok n => n
        | .error _ => 2 ^ bitSize - 1
      let cutoff := 2 ^ (bitSize - 1)
      if !neg ∧ un ≥ cutoff then .error (numError lib "ParseInt" s .ErrRange)
      else if neg ∧ un > cutoff then .error (numError lib "ParseInt" s .ErrRange)
      else .ok (if neg then -(un : Int) else (un : Int))

/-- Go `strconv.ParseBool(str)`. -/
def ParseBool (lib : StdLib) (str : String) : Except String Bool :=
  if str = "1" ∨ str = "t" ∨ str = "T" ∨ str = "true" ∨ str = "TRUE" ∨ str = "True" then .ok true
  else if str = "0" ∨ str = "f" ∨ str = "F" ∨ str = "false" ∨ str = "FALSE" ∨ str = "False" then
    .ok false
  else .error (numError lib "ParseBool" str .ErrSyntax)

/-! ## Types and values seen through `reflect` -/

/-- Go `reflect.Kind`. -/
inductive Kind where
  | Invalid | Bool | Int | Int8 | Int16 | Int32 | Int64
  | Uint | Uint8 | Uint16 | Uint32 | Uint64 | Uintptr
  | Float32 | Float64 | Complex64 | Complex128
  | Array | Chan | Func | Interface | Map | Ptr | Slice | String | Struct | UnsafePointer
  deriving DecidableEq, Repr

/-- Declared types of fields.  `byte` is `uint8` and `rune` is `int32`, as in Go. -/
inductive GoType where
  | bool | string
  | int | int8 | int16 | int32 | int64
  | uint | uint8 | uint16 | uint32 | uint64 | uintptr
  | float32 | float64 | complex64 | complex128
  /-- Type `time.Duration`. -/
  | duration
  /-- Type `time.Time`. -/
  | time
  /-- Type `*regexp.Regexp`. -/
  | regexp
  /-- Type `interface{}`. -/
  | iface
  | slice (elem : GoType)
  | ptr (elem : GoType)
  deriving DecidableEq, Repr

/-- Go `reflect.Type.Kind()`. -/
def GoType.kind : GoType → Kind
  | .bool => .Bool | .string => .String
  | .int => .Int | .int8 => .Int8 | .int16 => .Int16 | .int32 => .Int32 | .int64 => .Int64
  | .uint => .Uint | .uint8 => .Uint8 | .uint16 => .Uint16 | .uint32 => .Uint32
  | .uint64 => .Uint64 | .uintptr => .Uintptr
  | .float32 => .Float32 | .float64 => .Float64
  | .complex64 => .Complex64 | .complex128 => .Complex128
  | .duration => .Int64 | .time => .Struct | .regexp => .Ptr | .iface => .Interface
  | .slice _ => .Slice | .ptr _ => .Ptr

/-- Go `reflect.Type.String()`. -/
def GoType.typeString : GoType → String
  | .bool => "bool" | .string => "string"
  | .int => "int" | .int8 => "int8" | .int16 => "int16" | .int32 => "int32" | .int64 => "int64"
  | .uint => "uint" | .uint8 => "uint8" | .uint16 => "uint16" | .uint32 => "uint32"
  | .uint64 => "uint64" | .uintptr => "uintptr"
  | .float32 => "float32" | .float64 => "float64"
  | .complex64 => "complex64" | .complex128 => "complex128"
  | .duration => "time.Duration" | .time => "time.Time" | .regexp => "*regexp.Regexp"
  | .iface => "interface {}"
  | .slice e => "[]" ++ e.typeString | .ptr e => "*" ++ e.typeString

/-- Values held by fields.  Integer values are kept as mathematical integers;
the converters only ever store values that fit the declared width. -/
inductive Value where
  | bool (b : Bool)
  | string (s : String)
  | int (i : Int)
  | uint (n : Nat)
  | float (bits : Nat)
  | duration (ns : Int)
  | time (t : TimeVal)
  | regexp (expr : String)
  | bools (xs : List Bool)
  | strings (xs : List String)
  | ints (xs : List Int)
  | uints (xs : List Nat)
  | floats (xs : List Nat)
  | durations (xs : List Int)
  | times (xs : List TimeVal)
  | regexps (xs : List String)
  /-- Any other value (nil, values of types the package has no converter for). -/
  | other (code : Nat)
  deriving DecidableEq, Repr

/-- A field of the target struct: `plain` for a field whose declared type is a
`GoType`, `nested` for a field whose type is a struct declared by the caller
(named or embedded), given with its own fields. -/
inductive SField where
  | plain (tag : String) (ty : GoType) (val : Value)
  | nested (tag : String) (fields : List SField)

/-- Go `os.Getenv`: the value of a variable, empty when it is unset. -/
abbrev Environ := String → String

/-- State of the target after a call, with the returned error (`none` is `nil`). -/
structure Outcome where
  fields : List SField
  err : Option String

/-! ## Package `env` -/

/-- Constant `DefaultSeparator`. -/
def DefaultSeparator : String := ","

/-- Constant `constAliasTypeByte`. -/
def constAliasTypeByte : String := "byte"

/-- Constant `constAliasTypeRune`. -/
def constAliasTypeRune : String := "rune"

/-- Function `asParseError`. -/
def asParseError (envVariableName err : String) : String :=
  envVariableName ++ ": " ++ err

/-- Function `namedOptionValue`. -/
def namedOptionValue (val : String) : String :=
  match SplitN2 val "=" with
  | [_, v] => v
  | _ => ""

/-- The loops `for idx, d := range data` of `parseSlice`: every part is
converted in order, the first failure is returned wrapped by `asParseError`. -/
def parseElems {α : Type} (envVariableName : String) (conv : String → Except String α) :
    List String → Except String (List α)
  | [] => .ok []
  | d :: ds =>
    match conv d with
    | .error e => .error (asParseError envVariableName e)
    | .ok p =>
      match parseElems envVariableName conv ds with
      | .error e => .error e
      | .ok ps => .ok (p :: ps)

/-- Function `parseSlice`: the new value of the field, or the error. -/
def parseSlice (lib : StdLib) (ty : GoType) (envVariableName value separator aliasType : String) :
    Except String Value :=
  let data := Split value separator
  match ty with
  | .slice .uint =>
    (parseElems envVariableName (fun d => ParseUint lib d 32) data).map Value.uints
  | .slice .uint8 =>
    if aliasType = constAliasTypeByte then
      if data.length > 1 then
        .error (asParseError envVariableName "byte slice cannot have multiple values")
      else .ok (.uints (goBytes (data.headD "")))
    else (parseElems envVariableName (fun d => ParseUint lib d 8) data).map Value.uints
  | .slice .uint16 =>
    (parseElems envVariableName (fun d => ParseUint lib d 16) data).map Value.uints
  | .slice .uint32 =>
    (parseElems envVariableName (fun d => ParseUint lib d 32) data).map Value.uints
  | .slice .uint64 =>
    (parseElems envVariableName (fun d => ParseUint lib d 64) data).map Value.uints
  | .slice .int =>
    (parseElems envVariableName (fun d => ParseInt lib d 32) data).map Value.ints
  | .slice .int8 =>
    (parseElems envVariableName (fun d => ParseInt lib d 8) data).map Value.ints
  | .slice .int16 =>
    (parseElems envVariableName (fun d => ParseInt lib d 16) data).map Value.ints
  | .slice .int32 =>
    if aliasType = constAliasTypeRune then
      if data.length > 1 then
        .error (asParseError envVariableName "rune slice cannot have multiple values")
      else .ok (.ints ((goRunes (data.headD "")).map Int.ofNat))
    else (parseElems envVariableName (fun d => ParseInt lib d 32) data).map Value.ints
  | .slice .duration =>
    (parseElems envVariableName lib.parseDuration data).map Value.durations
  | .slice .time =>
    (parseElems envVariableName lib.parseTime data).map Value.times
  | .slice .regexp =>
    (parseElems envVariableName (fun d => (lib.regexpCompile d).map (fun _ => d)) data).map
      Value.regexps
  | .slice .int64 =>
    (parseElems envVariableName (fun d => ParseInt lib d 64) data).map Value.ints
  | .slice .string => .ok (.strings data)
  | .slice .bool =>
    (parseElems envVariableName (ParseBool lib) data).map Value.bools
  | .slice .float32 =>
    (parseElems envVariableName (fun d => lib.parseFloat d 32) data).map Value.floats
  | .slice .float64 =>
    (parseElems envVariableName (fun d => lib.parseFloat d 64) data).map Value.floats
  | _ => .error "Unrecognized slice type"

/-- The inner `switch field.Kind()` of `parseSingle` choosing `bitSize`. -/
def bitSizeOf : Kind → Nat
  | .Uint8 | .Int8 => 8
  | .Uint16 | .Int16 => 16
  | .Uint | .Uint32 | .Int | .Int32 | .Float32 => 32
  | .Uint64 | .Int64 | .Float64 => 64
  | _ => 0

/-- Function `parseSingle`, for a field whose type prints as `typeString` and
has kind `kind`: the new value of the field, or the error. -/
def parseSingle (lib : StdLib) (typeString : String) (kind : Kind)
    (envVariableName value aliasType : String) : Except String Value :=
  if typeString = "time.Duration" then
    match lib.parseDuration value with
    | .error e => .error (asParseError envVariableName e)
    | .ok v => .ok (.duration v)
  else if typeString = "time.Time" then
    match lib.parseTime value with
    | .error e => .error (asParseError envVariableName e)
    | .ok v => .ok (.time v)
  else if typeString = "*regexp.Regexp" then
    match lib.regexpCompile value with
    | .error e => .error (asParseError envVariableName e)
    | .ok _ => .ok (.regexp value)
  else if kind = .Uint8 ∧ aliasType = constAliasTypeByte then
    if len value ≠ 1 then
      .error (asParseError envVariableName "byte must be a single character value")
    else .ok (.uint (byteAt0 value))
  else if kind = .Int32 ∧ aliasType = constAliasTypeRune then
    if len value ≠ 1 then
      .error (asParseError envVariableName "rune must be a single character value")
    else .ok (.int (Int.ofNat (byteAt0 value)))
  else
    match kind with
    | .String => .ok (.string value)
    | .Bool =>
      match ParseBool lib value with
      | .error e => .error (asParseError envVariableName e)
      | .ok b => .ok (.bool b)
    | .Uint | .Uint8 | .Uint16 | .Uint32 | .Uint64 =>
      match ParseUint lib value (bitSizeOf kind) with
      | .error e => .error (asParseError envVariableName e)
      | .ok n => .ok (.uint n)
    | .Int | .Int8 | .Int16 | .Int32 | .Int64 =>
      match ParseInt lib value (bitSizeOf kind) with
      | .error e => .error (asParseError envVariableName e)
      | .ok i => .ok (.int i)
    | .Float32 | .Float64 =>
      match lib.parseFloat value (bitSizeOf kind) with
      | .error e => .error (asParseError envVariableName e)
      | .ok x => .ok (.float x)
    | _ => .error "Unrecognized type"

/-- The variables of one iteration of the field loop of `parseEnv` once the
tag has been split: `envVariableName`, `value`, `separator`, `aliasType`. -/
structure Options where
  envVariableName : String
  value : String
  separator : String
  aliasType : String
  deriving DecidableEq, Repr

/-- One iteration of `for _, tagValue := range tags[1:]` in `parseEnv`. -/
def applyOption (o : Options) (tagValue : String) : Except String Options :=
  if tagValue = "required" then
    if o.value = "" then
      .error (asParseError o.envVariableName "value is required but was empty")
    else .ok o
  else if o.value = "" ∧ HasPrefix tagValue "default" then
    .ok { o with value := namedOptionValue tagValue }
  else if HasPrefix tagValue "type" then
    let aliasType := namedOptionValue tagValue
    if aliasType ≠ constAliasTypeRune ∧ aliasType ≠ constAliasTypeByte then
      .error (asParseError o.envVariableName
        ("invalid type \"" ++ tagValue ++ "\", valid options are: \"" ++
          constAliasTypeByte ++ "\", \"" ++ constAliasTypeRune ++ "\""))
    else .ok { o with aliasType := aliasType }
  else if HasPrefix tagValue "separator" then
    let tmp := namedOptionValue tagValue
    if tmp ≠ "" then .ok { o with separator := tmp } else .ok o
  else .error (asParseError o.envVariableName ("unknown option " ++ tagValue))

/-- The loop `for _, tagValue := range tags[1:]` of `parseEnv`. -/
def applyOptions : Options → List String → Except String Options
  | o, [] => .ok o
  | o, t :: ts =>
    match applyOption o t with
    | .error e => .error e
    | .ok o1 => applyOptions o1 ts

/-- First half of the body of the field loop of `parseEnv`, for a non-empty
tag: split the tag, read the variable, run the options. -/
def parseTag (env : Environ) (tagValue : String) : Except String Options :=
  match Split tagValue "," with
  | [] => .error "env variable name cannot be empty"
  | envVariableName :: opts =>
    if len envVariableName = 0 then .error "env variable name cannot be empty"
    else applyOptions ⟨envVariableName, env envVariableName, DefaultSeparator, ""⟩ opts

/-- Second half of the body of the field loop of `parseEnv`: the
`switch field.Kind()` that calls `parseSlice` or `parseSingle`. -/
def convert (lib : StdLib) (ty : GoType) (o : Options) : Except String Value :=
  match ty.kind with
  | .Slice => parseSlice lib ty o.envVariableName o.value o.separator o.aliasType
  | _ => parseSingle lib ty.typeString ty.kind o.envVariableName o.value o.aliasType

/-- Body of the field loop of `parseEnv` for a field with a non-empty tag and
declared type `ty`: the value assigned to the field, or the error returned. -/
def resolveField (lib : StdLib) (env : Environ) (tagValue : String) (ty : GoType) :
    Except String Value :=
  match parseTag env tagValue with
  | .error e => .error e
  | .ok o => convert lib ty o

/-- Stand-in for the `String()` of a struct type declared by the caller; it is
none of the three names `parseSingle` compares with. -/
def userStructTypeString : String := "struct"

mutual
/-- One iteration of the field loop of `parseEnv`: the field afterwards and the
error that ends the loop, if any.  An untagged `time.Time` field has kind
struct; the recursive call on it finds three untagged fields of kinds uint64,
int64 and pointer and returns nil, so the field is left as it is. -/
def parseFieldAt (lib : StdLib) (env : Environ) : SField → SField × Option String
  | .plain tag ty val =>
    if tag = "" then (.plain tag ty val, none)
    else
      match resolveField lib env tag ty with
      | .ok v => (.plain tag ty v, none)
      | .error e => (.plain tag ty val, some e)
  | .nested tag fields =>
    if tag = "" then
      let r := parseEnv lib env fields
      (.nested tag r.fields, r.err)
    else
      match parseTag env tag with
      | .error e => (.nested tag fields, some e)
      | .ok o =>
        match parseSingle lib userStructTypeString .Struct o.envVariableName o.value
            o.aliasType with
        | .ok _ => (.nested tag fields, none)
        | .error e => (.nested tag fields, some e)
/-- Function `parseEnv`: the fields after the call and the returned error. -/
def parseEnv (lib : StdLib) (env : Environ) : List SField → Outcome
  | [] => ⟨[], none⟩
  | f :: rest =>
    match parseFieldAt lib env f with
    | (f1, some e) => ⟨f1 :: rest, some e⟩
    | (f1, none) =>
      let r := parseEnv lib env rest
      ⟨f1 :: r.fields, r.err⟩
end

/-- The argument `v interface{}` of `Parse`, as `reflect` classifies it. -/
inductive Target where
  /-- A value whose kind is not `reflect.Ptr`. -/
  | notPointer
  /-- A pointer whose element is not of kind `reflect.Struct`. -/
  | pointerToOther
  /-- A pointer to a struct with the given fields. -/
  | pointerToStruct (fields : List SField)

/-- What a call of `Parse` leaves behind: the target and the returned error. -/
structure ParseResult where
  target : Target
  err : Option String

/-- Function `Parse`. -/
def Parse (lib : StdLib) (env : Environ) : Target → ParseResult
  | .notPointer => ⟨.notPointer, some "Expected a pointer value"⟩
  | .pointerToOther => ⟨.pointerToOther, some "Expected a struct pointer"⟩
  | .pointerToStruct fields =>
    let r := parseEnv lib env fields
    ⟨.pointerToStruct r.fields, r.err⟩

/-! ## Notions used to state the properties -/

/-- The tag made of the given tokens: they are joined by commas. -/
def tagOf : List String → String
  | [] => ""
  | [t] => t
  | t :: ts => t ++ "," ++ tagOf ts

/-- A token holds no comma, so that it is one token of its tag. -/
def commaFree (t : String) : Prop := ',' ∉ t.data

instance (t : String) : Decidable (commaFree t) := by
  unfold commaFree; infer_instance

/-- An environment in which one variable is set and all others are unset. -/
def envOf (name value : String) : Environ := fun n => if n = name then value else ""

/-- The environment with no variable set. -/
def emptyEnv : Environ := fun _ => ""

/-- A library whose unmodelled converters reject every input and whose
printability table is empty.  It serves to evaluate the embedding on inputs
that reach none of them. -/
def rejectingLib : StdLib where
  parseFloat := fun _ _ => .error "unavailable"
  parseDuration := fun _ => .error "unavailable"
  parseTime := fun _ => .error "unavailable"
  regexpCompile := fun _ => .error "unavailable"
  isPrintTable := fun _ => false

/-- The tag of a field. -/
def SField.tag : SField → String
  | .plain tag _ _ => tag
  | .nested tag _ => tag

/-- An option that `parseEnv` accepts on an empty value and that leaves the
value empty: a `type` option whose literal is `byte` or `rune`, a `separator`
option, or a `default` option whose literal is empty. -/
def neutralOption (t : String) : Prop :=
  (HasPrefix t "type" = true ∧ (namedOptionValue t = "byte" ∨ namedOptionValue t = "rune")) ∨
  HasPrefix t "separator" = true ∨
  (HasPrefix t "default" = true ∧ namedOptionValue t = "")

instance (t : String) : Decidable (neutralOption t) := by
  unfold neutralOption; infer_instance

/-- A token the options loop of `parseEnv` has a branch for: `required`, or a
token that begins with `default`, `type` or `separator`. -/
def recognizedOption (t : String) : Prop :=
  t = "required" ∨ HasPrefix t "default" = true ∨ HasPrefix t "type" = true ∨
    HasPrefix t "separator" = true

instance (t : String) : Decidable (recognizedOption t) := by
  unfold recognizedOption; infer_instance

/-- Shape of the errors `parseEnv` can return: one of three fixed texts, or a
text built by `asParseError`. -/
def ErrShape (e : String) : Prop :=
  e = "env variable name cannot be empty" ∨ e = "Unrecognized type" ∨
  e = "Unrecognized slice type" ∨ ∃ name msg, e = asParseError name msg

/-- The field `f` is reached by `parseEnv` on `fields`, in declaration order
and depth-first through untagged nested structs, with every field visited
before it resolving without error. -/
inductive Reached (lib : StdLib) (env : Environ) (f : SField) : List SField → Prop where
  | here (before after : List SField) :
      (parseEnv lib env before).err = none → Reached lib env f (before ++ f :: after)
  | inside (before inner after : List SField) :
      (parseEnv lib env before).err = none → Reached lib env f inner →
      Reached lib env f (before ++ .nested "" inner :: after)

/-- The field `f` occurs in `fields`, at top level or inside a nested struct,
at any depth. -/
inductive Contains (f : SField) : List SField → Prop where
  | here (fields : List SField) : f ∈ fields → Contains f fields
  | inside (fields : List SField) (tag : String) (inner : List SField) :
      .nested tag inner ∈ fields → Contains f inner → Contains f fields

/-- The declared types `parseSingle` and `parseSlice` have a converter for. -/
def hasConverter : GoType → Bool
  | .bool | .string | .int | .int8 | .int16 | .int32 | .int64
  | .uint | .uint8 | .uint16 | .uint32 | .uint64
  | .float32 | .float64 | .duration | .time | .regexp => true
  | .slice .bool | .slice .string | .slice .int | .slice .int8 | .slice .int16
  | .slice .int32 | .slice .int64 | .slice .uint | .slice .uint8 | .slice .uint16
  | .slice .uint32 | .slice .uint64 | .slice .float32 | .slice .float64
  | .slice .duration | .slice .time | .slice .regexp => true
  | _ => false

/-- The first token of a tag: the name of the variable. -/
def variableName (tag : String) : String := (Split tag ",").headD ""

/-! ## Decimal literals, rendering and joining -/

/-- A non-empty run of decimal digits. -/
def isDecimal (cs : List Char) : Prop :=
  cs ≠ [] ∧ ∀ c ∈ cs, 48 ≤ c.toNat ∧ c.toNat ≤ 57

/-- The number a run of decimal digits denotes. -/
def decimalValue (cs : List Char) : Nat :=
  cs.foldl (fun n c => n * 10 + (c.toNat - 48)) 0

/-- A base-10 literal of a signed integer and its value: digits, with an
optional sign `+` or `-` in front. -/
def signedLiteral (cs : List Char) (i : Int) : Prop :=
  (isDecimal cs ∧ i = (decimalValue cs : Int)) ∨
  (∃ ds, cs = '+' :: ds ∧ isDecimal ds ∧ i = (decimalValue ds : Int)) ∨
  (∃ ds, cs = '-' :: ds ∧ isDecimal ds ∧ i = -(decimalValue ds : Int))

/-- The width `parseSingle` and `parseSlice` parse an unsigned kind with. -/
def unsignedWidth : GoType → Option Nat
  | .uint => some 32 | .uint8 => some 8 | .uint16 => some 16
  | .uint32 => some 32 | .uint64 => some 64
  | _ => none

/-- The width `parseSingle` and `parseSlice` parse a signed kind with. -/
def signedWidth : GoType → Option Nat
  | .int => some 32 | .int8 => some 8 | .int16 => some 16
  | .int32 => some 32 | .int64 => some 64
  | _ => none

/-- The character of a decimal digit. -/
def digitChar (d : Nat) : Char := "0123456789".data.getD d '0'

/-- The digit loop of `strconv.FormatUint(u, 10)`: digits are produced from the
least significant one; a `uint64` has at most 20 of them. -/
def formatLoop : Nat → Nat → List Char → List Char
  | 0, _, acc => acc
  | fuel + 1, u, acc =>
    if u < 10 then digitChar u :: acc
    else formatLoop fuel (u / 10) (digitChar (u % 10) :: acc)

/-- Go `strconv.FormatUint(u, 10)`, for `u` below `2^64`. -/
def FormatUint (u : Nat) : String := String.mk (formatLoop 20 u [])

/-- Go `strconv.FormatInt(i, 10)`, for `i` an `int64`. -/
def FormatInt (i : Int) : String :=
  if i < 0 then "-" ++ FormatUint (-i).toNat else FormatUint i.toNat

/-- Go `strings.Join(parts, sep)`. -/
def Join : List String → String → String
  | [], _ => ""
  | [a], _ => a
  | a :: rest, sep => a ++ sep ++ Join rest sep

/-- The separator the options of a tag select: the literal of the last token
that begins with `separator` and has a non-empty literal, the default
separator when there is none. -/
def separatorOf (opts : List String) : String :=
  opts.foldl (fun s t =>
    if HasPrefix t "separator" = true ∧ namedOptionValue t ≠ "" then namedOptionValue t
    else s) DefaultSeparator

/-- The error of a library call, if it failed. -/
def errorOf {α : Type} : Except String α → Option String
  | .ok _ => none
  | .error e => some e

/-- The message of the parser `parseSlice` applies to one part of a numeric
or boolean collection with elements of type `elem`, if the part does not
convert. -/
def partMessage (lib : StdLib) (elem : GoType) (d : String) : Option String :=
  match elem with
  | .uint => errorOf (ParseUint lib d 32)
  | .uint8 => errorOf (ParseUint lib d 8)
  | .uint16 => errorOf (ParseUint lib d 16)
  | .uint32 => errorOf (ParseUint lib d 32)
  | .uint64 => errorOf (ParseUint lib d 64)
  | .int => errorOf (ParseInt lib d 32)
  | .int8 => errorOf (ParseInt lib d 8)
  | .int16 => errorOf (ParseInt lib d 16)
  | .int32 => errorOf (ParseInt lib d 32)
  | .int64 => errorOf (ParseInt lib d 64)
  | .bool => errorOf (ParseBool lib d)
  | .float32 => errorOf (lib.parseFloat d 32)
  | .float64 => errorOf (lib.parseFloat d 64)
  | _ => none

/-- The element types of the numeric and boolean collections. -/
def numericOrBool : GoType → Bool
  | .uint | .uint8 | .uint16 | .uint32 | .uint64
  | .int | .int8 | .int16 | .int32 | .int64
  | .bool | .float32 | .float64 => true
  | _ => false

instance (cs : List Char) : Decidable (isDecimal cs) := by
  unfold isDecimal; infer_instance

/-- The raw values `strconv.ParseBool` reads as true. -/
def trueLiterals : List String := ["1", "t", "T", "TRUE", "true", "True"]

/-- The raw values `strconv.ParseBool` reads as false. -/
def falseLiterals : List String := ["0", "f", "F", "FALSE", "false", "False"]

/-- Text made of printable ASCII characters other than the double quote and
the backslash. -/
def plainText (s : String) : Prop :=
  ∀ c ∈ s.data, 0x20 ≤ c.toNat ∧ c.toNat < 0x7F ∧ c ≠ '"' ∧ c ≠ '\\'

instance (s : String) : Decidable (plainText s) := by
  unfold plainText; infer_instance

/-- The fields of a struct target; no fields for the other targets. -/
def Target.fields : Target → List SField
  | .pointerToStruct fs => fs
  | _ => []

/-- Name of the `strconv` function that converts the text of an integer or
boolean value. -/
def parserName : GoType → Option String
  | .uint | .uint8 | .uint16 | .uint32 | .uint64 => some "ParseUint"
  | .int | .int8 | .int16 | .int32 | .int64 => some "ParseInt"
  | .bool => some "ParseBool"
  | _ => none

mutual
/-- The declaration of a field, its content left out: tag and type, and for a
nested struct the declarations of its fields. -/
def shape : SField → SField
  | .plain tag ty _ => .plain tag ty (.other 0)
  | .nested tag fields => .nested tag (shapes fields)
/-- The declarations of the fields of a struct. -/
def shapes : List SField → List SField
  | [] => []
  | f :: fs => shape f :: shapes fs
end

mutual
/-- The values held by the annotated fields of a field: its own value when it
is annotated, those inside it when it is a nested struct. -/
def annotatedValuesOf : SField → List Value
  | .plain tag _ v => if tag = "" then [] else [v]
  | .nested _ fields => annotatedValues fields
/-- The values held by the annotated fields of a struct, in declaration order,
depth first. -/
def annotatedValues : List SField → List Value
  | [] => []
  | f :: fs => annotatedValuesOf f ++ annotatedValues fs
end

/-! ## Strings given by their bytes, well-formed UTF-8 or not -/

/-- Go `utf8.DecodeRuneInString` on the bytes of a string: the rune and its
width in bytes; `utf8.RuneError` (U+FFFD) with width 1 when the first byte
does not begin a well-formed sequence, with width 0 when there is no byte. -/
def DecodeRuneInString : List Nat → Nat × Nat
  | [] => (0xFFFD, 0)
  | s0 :: rest =>
    if s0 < 0x80 then (s0, 1)
    else if s0 < 0xC2 ∨ 0xF4 < s0 then (0xFFFD, 1)
    else
      let sz := if s0 < 0xE0 then 2 else if s0 < 0xF0 then 3 else 4
      let lo := if s0 = 0xE0 then 0xA0 else if s0 = 0xF0 then 0x90 else 0x80
      let hi := if s0 = 0xED then 0x9F else if s0 = 0xF4 then 0x8F else 0xBF
      if rest.length + 1 < sz then (0xFFFD, 1)
      else
        match rest with
        | [] => (0xFFFD, 1)
        | s1 :: r1 =>
          if s1 < lo ∨ hi < s1 then (0xFFFD, 1)
          else if sz ≤ 2 then (s0 % 0x20 * 0x40 + s1 % 0x40, 2)
          else
            match r1 with
            | [] => (0xFFFD, 1)
            | s2 :: r2 =>
              if s2 < 0x80 ∨ 0xBF < s2 then (0xFFFD, 1)
              else if sz ≤ 3 then (s0 % 0x10 * 0x1000 + s1 % 0x40 * 0x40 + s2 % 0x40, 3)
              else
                match r2 with
                | [] => (0xFFFD, 1)
                | s3 :: _ =>
                  if s3 < 0x80 ∨ 0xBF < s3 then (0xFFFD, 1)
                  else
                    (s0 % 0x08 * 0x40000 + s1 % 0x40 * 0x1000 + s2 % 0x40 * 0x40 + s3 % 0x40, 4)

/-- The loop of Go `[]rune(s)` over the bytes of `s`: one rune for each
well-formed sequence and one U+FFFD for each other byte. -/
def runesLoop : Nat → List Nat → List Nat
  | 0, _ => []
  | _ + 1, [] => []
  | fuel + 1, b :: bs =>
    (DecodeRuneInString (b :: bs)).1 ::
      runesLoop fuel ((b :: bs).drop (DecodeRuneInString (b :: bs)).2)

/-- Go `[]rune(s)` for a string given by its bytes. -/
def runesOfBytes (bs : List Nat) : List Nat := runesLoop bs.length bs

/-- Go `utf8.AppendRune` on one rune: its UTF-8 bytes, those of U+FFFD for a
surrogate or a value above U+10FFFF. -/
def encodeRune (r : Nat) : List Nat :=
  if r < 0x80 then [r]
  else if r < 0x800 then [0xC0 + r / 0x40, 0x80 + r % 0x40]
  else if (0xD800 ≤ r ∧ r ≤ 0xDFFF) ∨ 0x10FFFF < r then [0xEF, 0xBF, 0xBD]
  else if r < 0x10000 then [0xE0 + r / 0x1000, 0x80 + r / 0x40 % 0x40, 0x80 + r % 0x40]
  else [0xF0 + r / 0x40000, 0x80 + r / 0x1000 % 0x40, 0x80 + r / 0x40 % 0x40, 0x80 + r % 0x40]

/-- Go `string(rs)` for a slice of runes: the bytes of the string. -/
def bytesOfRunes : List Nat → List Nat
  | [] => []
  | r :: rs => encodeRune r ++ bytesOfRunes rs

/-- First occurrence of a non-empty `sep` in the bytes `s`, with the bytes
before it and the bytes after it. -/
def cutBytes (sep : List Nat) : List Nat → Option (List Nat × List Nat)
  | [] => none
  | c :: cs =>
    if sep.isPrefixOf (c :: cs) then some ([], (c :: cs).drop sep.length)
    else (cutBytes sep cs).map (fun p => (c :: p.1, p.2))

/-- The loop of `strings.genSplit` on bytes for a non-empty separator. -/
def splitBytesLoop (sep : List Nat) : Nat → List Nat → List (List Nat)
  | 0, s => [s]
  | n + 1, s =>
    match cutBytes sep s with
    | none => [s]
    | some (a, b) => a :: splitBytesLoop sep n b

/-- Go `strings.Split(s, sep)` on strings given by their bytes, for a
non-empty separator. -/
def SplitBytes (s sep : List Nat) : List (List Nat) := splitBytesLoop sep s.length s

/-- The branch `aliasType == constAliasTypeRune` of `parseSlice`, for a raw
value and a non-empty separator given by their bytes: the runes the field is
set to, or the error. -/
def runeSliceOfBytes (envVariableName : String) (value separator : List Nat) :
    Except String (List Nat) :=
  let data := SplitBytes value separator
  if data.length > 1 then
    .error (asParseError envVariableName "rune slice cannot have multiple values")
  else .ok (runesOfBytes (data.headD []))

/-- The branch `aliasType == constAliasTypeByte` of `parseSlice`, for a raw
value and a non-empty separator given by their bytes. -/
def byteSliceOfBytes (envVariableName : String) (value separator : List Nat) :
    Except String (List Nat) :=
  let data := SplitBytes value separator
  if data.length > 1 then
    .error (asParseError envVariableName "byte slice cannot have multiple values")
  else .ok (data.headD [])

/-! ## Lemmas on strings -/

theorem cut_single_absent (c : Char) (a : List Char) (h : c ∉ a) : cut [c] a = none := by
  induction a with
  | nil => rfl
  | cons x xs ih =>
    have hx : c ≠ x := fun e => h (by simp [e])
    have hxs : c ∉ xs := fun e => h (by simp [e])
    simp [cut, List.isPrefixOf, hx, ih hxs]

theorem cut_single_first (c : Char) (a b : List Char) (h : c ∉ a) :
    cut [c] (a ++ c :: b) = some (a, b) := by
  induction a with
  | nil => simp [cut, List.isPrefixOf]
  | cons x xs ih =>
    have hx : c ≠ x := fun e => h (by simp [e])
    have hxs : c ∉ xs := fun e => h (by simp [e])
    simp [cut, List.isPrefixOf, hx, ih hxs]

theorem data_comma : (",": String).data = [','] := rfl

theorem tagOf_cons_cons (t u : String) (ts : List String) :
    tagOf (t :: u :: ts) = t ++ "," ++ tagOf (u :: ts) := rfl

theorem splitLoop_tagOf (toks : List String) (hne : toks ≠ [])
    (hc : ∀ t ∈ toks, commaFree t) (n : Nat) (hn : toks.length ≤ n + 1) :
    (splitLoop [','] n (tagOf toks).data).map String.mk = toks := by
  induction toks generalizing n with
  | nil => exact absurd rfl hne
  | cons t ts ih =>
    cases ts with
    | nil =>
      have ht : ',' ∉ t.data := hc t (by simp)
      cases n with
      | zero => simp [tagOf, splitLoop]
      | succ m => simp [tagOf, splitLoop, cut_single_absent _ _ ht]
    | cons u us =>
      have ht : ',' ∉ t.data := hc t (by simp)
      cases n with
      | zero => simp at hn
      | succ m =>
        have ih' := ih (by simp) (fun x hx => hc x (by simp [hx])) m (by simpa using hn)
        rw [tagOf_cons_cons]
        simp only [String.data_append, data_comma, List.append_assoc, List.singleton_append,
          splitLoop, cut_single_first _ _ _ ht, List.map_cons, ih']

theorem tagOf_length (toks : List String) :
    toks.length ≤ (tagOf toks).data.length + 1 := by
  induction toks with
  | nil => simp
  | cons t ts ih =>
    cases ts with
    | nil => simp
    | cons u us =>
      rw [tagOf_cons_cons]
      simp only [String.data_append, data_comma, List.length_append, List.length_cons,
        List.length_nil] at ih ⊢
      omega

theorem Split_tagOf (toks : List String) (hne : toks ≠ [])
    (hc : ∀ t ∈ toks, commaFree t) : Split (tagOf toks) "," = toks := by
  unfold Split
  simp only [data_comma, List.isEmpty_cons, Bool.false_eq_true, if_false]
  exact splitLoop_tagOf toks hne hc _ (tagOf_length toks)

theorem utf8EncodeChar_ne_nil (c : Char) : utf8EncodeChar c ≠ [] := by
  unfold utf8EncodeChar
  simp only
  split_ifs <;> simp

theorem len_eq_zero_iff (s : String) : len s = 0 ↔ s = "" := by
  obtain ⟨d⟩ := s
  cases d with
  | nil => simp [len, goBytes, bytesOf]
  | cons c cs =>
    have h := utf8EncodeChar_ne_nil c
    have h2 : (⟨c :: cs⟩ : String) ≠ "" := by
      intro e
      have := congrArg String.data e
      simp at this
    simp [len, goBytes, bytesOf, h, h2]

theorem parseTag_tagOf (env : Environ) (name : String) (opts : List String)
    (hname : name ≠ "") (hcn : commaFree name) (hco : ∀ t ∈ opts, commaFree t) :
    parseTag env (tagOf (name :: opts)) =
      applyOptions ⟨name, env name, DefaultSeparator, ""⟩ opts := by
  have hs : Split (tagOf (name :: opts)) "," = name :: opts :=
    Split_tagOf _ (by simp) (by
      intro t ht
      rcases List.mem_cons.mp ht with h | h
      · exact h ▸ hcn
      · exact hco t h)
  have hl : len name ≠ 0 := fun h => hname ((len_eq_zero_iff name).mp h)
  simp [parseTag, hs, hl]

/-- Literal of a keyed token `key=lit` whose key holds no `=`. -/
theorem namedOptionValue_keyed (key lit : String) (hk : '=' ∉ key.data) :
    namedOptionValue (key ++ "=" ++ lit) = lit := by
  have hd : ("=" : String).data = ['='] := rfl
  simp [namedOptionValue, SplitN2, String.data_append, hd, splitLoop,
    cut_single_first _ _ _ hk]

theorem data_default_eq : ("default=" : String).data = ['d','e','f','a','u','l','t','='] := rfl

theorem default_token_facts (x : String) :
    ("default=" ++ x ≠ "required") ∧ HasPrefix ("default=" ++ x) "default" = true ∧
    HasPrefix ("default=" ++ x) "type" = false ∧
    HasPrefix ("default=" ++ x) "separator" = false ∧
    namedOptionValue ("default=" ++ x) = x := by
  refine ⟨?_, ?_, ?_, ?_, ?_⟩
  · intro e
    have := congrArg String.data e
    rw [String.data_append, data_default_eq] at this
    have h2 : ("required" : String).data = ['r','e','q','u','i','r','e','d'] := rfl
    rw [h2] at this
    simp at this
  · have : ("default" : String).data = ['d','e','f','a','u','l','t'] := rfl
    simp [HasPrefix, String.data_append, data_default_eq, this, List.isPrefixOf]
  · have : ("type" : String).data = ['t','y','p','e'] := rfl
    simp [HasPrefix, String.data_append, data_default_eq, this, List.isPrefixOf]
  · have : ("separator" : String).data = ['s','e','p','a','r','a','t','o','r'] := rfl
    simp [HasPrefix, String.data_append, data_default_eq, this, List.isPrefixOf]
  · have h := namedOptionValue_keyed "default" x (by decide)
    have e : ("default" : String) ++ "=" = "default=" := by decide
    rwa [e] at h

theorem applyOption_default_empty (o : Options) (x : String) (h : o.value = "") :
    applyOption o ("default=" ++ x) = .ok { o with value := x } := by
  obtain ⟨h1, h2, _, _, h5⟩ := default_token_facts x
  simp [applyOption, h1, h2, h5, h]

theorem applyOption_default_nonempty (o : Options) (x : String) (h : o.value ≠ "") :
    applyOption o ("default=" ++ x) =
      .error (asParseError o.envVariableName ("unknown option " ++ ("default=" ++ x))) := by
  obtain ⟨h1, _, h3, h4, _⟩ := default_token_facts x
  simp [applyOption, h1, h3, h4, h]

theorem applyOption_required_empty (o : Options) (h : o.value = "") :
    applyOption o "required" =
      .error (asParseError o.envVariableName "value is required but was empty") := by
  simp [applyOption, h]

theorem applyOption_required_nonempty (o : Options) (h : o.value ≠ "") :
    applyOption o "required" = .ok o := by
  simp [applyOption, h]

theorem applyOption_type_byte (o : Options) :
    applyOption o "type=byte" = .ok { o with aliasType := "byte" } := by
  have h1 : HasPrefix "type=byte" "default" = false := by decide
  have h2 : HasPrefix "type=byte" "type" = true := by decide
  have h3 : namedOptionValue "type=byte" = "byte" := by decide
  have h4 : ("type=byte" : String) ≠ "required" := by decide
  simp [applyOption, h1, h2, h3, h4, constAliasTypeByte, constAliasTypeRune]

theorem applyOption_type_rune (o : Options) :
    applyOption o "type=rune" = .ok { o with aliasType := "rune" } := by
  have h1 : HasPrefix "type=rune" "default" = false := by decide
  have h2 : HasPrefix "type=rune" "type" = true := by decide
  have h3 : namedOptionValue "type=rune" = "rune" := by decide
  have h4 : ("type=rune" : String) ≠ "required" := by decide
  simp [applyOption, h1, h2, h3, h4, constAliasTypeByte, constAliasTypeRune]

theorem applyOptions_nil (o : Options) : applyOptions o [] = .ok o := rfl

theorem applyOptions_cons_ok (o o1 : Options) (t : String) (ts : List String)
    (h : applyOption o t = .ok o1) : applyOptions o (t :: ts) = applyOptions o1 ts := by
  simp only [applyOptions, h]

theorem applyOptions_cons_error (o : Options) (t e : String) (ts : List String)
    (h : applyOption o t = .error e) : applyOptions o (t :: ts) = .error e := by
  simp only [applyOptions, h]

/-! ## Lemmas on the field loop -/

theorem parseEnv_cons_err (lib : StdLib) (env : Environ) (f : SField) (rest : List SField)
    (e : String) (h : (parseFieldAt lib env f).2 = some e) :
    parseEnv lib env (f :: rest) = ⟨(parseFieldAt lib env f).1 :: rest, some e⟩ := by
  rw [parseEnv]
  split
  · rename_i f1 e1 heq
    rw [heq] at h ⊢
    simp only [Option.some.injEq] at h
    rw [h]
  · rename_i f1 heq
    rw [heq] at h
    cases h

theorem parseEnv_cons_ok (lib : StdLib) (env : Environ) (f : SField) (rest : List SField)
    (h : (parseFieldAt lib env f).2 = none) :
    parseEnv lib env (f :: rest) =
      ⟨(parseFieldAt lib env f).1 :: (parseEnv lib env rest).fields,
        (parseEnv lib env rest).err⟩ := by
  rw [parseEnv]
  split
  · rename_i f1 e1 heq
    rw [heq] at h
    cases h
  · rename_i f1 heq
    rw [heq]

theorem parseEnv_append (lib : StdLib) (env : Environ) (pre rest : List SField)
    (h : (parseEnv lib env pre).err = none) :
    parseEnv lib env (pre ++ rest) =
      ⟨(parseEnv lib env pre).fields ++ (parseEnv lib env rest).fields,
        (parseEnv lib env rest).err⟩ := by
  induction pre with
  | nil => simp [parseEnv]
  | cons f fs ih =>
    cases hf : (parseFieldAt lib env f).2 with
    | some e =>
      rw [parseEnv_cons_err lib env f fs e hf] at h
      cases h
    | none =>
      rw [parseEnv_cons_ok lib env f fs hf] at h
      rw [List.cons_append, parseEnv_cons_ok lib env f _ hf, ih h,
        parseEnv_cons_ok lib env f fs hf]
      simp

/-- The error of a failing field is the error of `Parse` when the fields
before it resolve. -/
theorem Parse_err_at (lib : StdLib) (env : Environ) (before after : List SField) (f : SField)
    (e : String) (hb : (parseEnv lib env before).err = none)
    (hf : (parseFieldAt lib env f).2 = some e) :
    (Parse lib env (.pointerToStruct (before ++ f :: after))).err = some e := by
  simp [Parse, parseEnv_append lib env before _ hb, parseEnv_cons_err lib env f after e hf]

/-- An error raised while the tag is processed is the error of the field,
whatever the type of the field. -/
theorem parseFieldAt_err_of_parseTag (lib : StdLib) (env : Environ) (f : SField) (e : String)
    (ht : f.tag ≠ "") (h : parseTag env f.tag = .error e) :
    (parseFieldAt lib env f).2 = some e := by
  cases f with
  | plain tag ty v =>
    simp only [SField.tag] at ht h
    simp [parseFieldAt, ht, resolveField, h]
  | nested tag fields =>
    simp only [SField.tag] at ht h
    simp [parseFieldAt, ht, h]

theorem parseFieldAt_plain_tagged (lib : StdLib) (env : Environ) (tag : String) (ty : GoType)
    (v : Value) (ht : tag ≠ "") :
    parseFieldAt lib env (.plain tag ty v) =
      match resolveField lib env tag ty with
      | .ok w => (.plain tag ty w, none)
      | .error e => (.plain tag ty v, some e) := by
  simp [parseFieldAt, ht]

theorem tagOf_ne_empty (name : String) (opts : List String) (hname : name ≠ "") :
    tagOf (name :: opts) ≠ "" := by
  intro e
  have hd := congrArg String.data e
  cases opts with
  | nil => exact hname e
  | cons u us =>
    rw [tagOf_cons_cons] at hd
    simp only [String.data_append, data_comma] at hd
    simp at hd

theorem resolveField_tagOf (lib : StdLib) (env : Environ) (name : String)
    (opts : List String) (ty : GoType)
    (hname : name ≠ "") (hcn : commaFree name) (hco : ∀ t ∈ opts, commaFree t) :
    resolveField lib env (tagOf (name :: opts)) ty =
      match applyOptions ⟨name, env name, DefaultSeparator, ""⟩ opts with
      | .error e => .error e
      | .ok o => convert lib ty o := by
  rw [resolveField, parseTag_tagOf env name opts hname hcn hco]

theorem asParseError_eq (name m : String) : asParseError name m = name ++ (": " ++ m) := by
  simp [asParseError, String.append_assoc]

theorem commaFree_default (x : String) (h : commaFree x) : commaFree ("default=" ++ x) := by
  unfold commaFree at *
  rw [String.data_append, data_default_eq]
  simp [h]

/-! ## Lemmas on splitting and on the byte and code point views -/

theorem cut_eq_none_iff (sep : List Char) (hsep : sep ≠ []) (s : List Char) :
    cut sep s = none ↔ ¬ sep <:+: s := by
  induction s with
  | nil => simp [cut, hsep]
  | cons c cs ih =>
    rw [List.infix_cons_iff, cut]
    by_cases hp : sep.isPrefixOf (c :: cs) = true
    · have hp2 : sep <+: c :: cs := List.isPrefixOf_iff_prefix.mp hp
      simp [hp, hp2]
    · have hp2 : ¬ sep <+: c :: cs := fun h => hp ( List.isPrefixOf_iff_prefix.mpr h)
      simp [hp, hp2, ih]

theorem splitLoop_ne_nil (sep : List Char) (n : Nat) (s : List Char) :
    splitLoop sep n s ≠ [] := by
  cases n with
  | zero => simp [splitLoop]
  | succ m =>
    rw [splitLoop]
    split <;> simp

/-- A value that does not hold the separator is not split. -/
theorem Split_absent (raw sep : String) (hsep : sep ≠ "")
    (h : ¬ sep.data <:+: raw.data) : Split raw sep = [raw] := by
  have hs : sep.data ≠ [] := fun e => hsep (String.ext e)
  have hc := (cut_eq_none_iff sep.data hs raw.data).mpr h
  have he : sep.data.isEmpty = false := by
    cases hd : sep.data with
    | nil => exact absurd hd hs
    | cons a as => rfl
  unfold Split
  rw [he]
  cases raw.data.length with
  | zero => simp [splitLoop]
  | succ m => simp [splitLoop, hc]

/-- A value that holds the separator is split into more than one part. -/
theorem Split_present (raw sep : String) (hsep : sep ≠ "")
    (h : sep.data <:+: raw.data) : (Split raw sep).length > 1 := by
  have hs : sep.data ≠ [] := fun e => hsep (String.ext e)
  have hc : cut sep.data raw.data ≠ none := fun e =>
    (cut_eq_none_iff sep.data hs raw.data).mp e h
  have he : sep.data.isEmpty = false := by
    cases hd : sep.data with
    | nil => exact absurd hd hs
    | cons a as => rfl
  have hlen : raw.data.length ≠ 0 := by
    intro e
    have : raw.data = [] := List.length_eq_zero.mp e
    rw [this] at hc
    exact hc rfl
  unfold Split
  rw [he]
  obtain ⟨m, hm⟩ := Nat.exists_eq_succ_of_ne_zero hlen
  rw [hm]
  cases hcut : cut sep.data raw.data with
  | none => exact absurd hcut hc
  | some p =>
    obtain ⟨a, b⟩ := p
    have hne := splitLoop_ne_nil sep.data m b
    cases hsl : splitLoop sep.data m b with
    | nil => exact absurd hsl hne
    | cons x xs => simp [splitLoop, hcut, hsl]

theorem utf8DecodeHead_encode (c : Char) (rest : List Nat) :
    utf8DecodeHead (utf8EncodeChar c ++ rest) = some (c.toNat, rest) := by
  have hv : c.toNat < 0x110000 := by
    have := c.valid
    simp only [Char.toNat, UInt32.isValidChar, Nat.isValidChar] at *
    omega
  unfold utf8EncodeChar
  simp only
  by_cases h1 : c.toNat < 0x80
  · simp [h1, utf8DecodeHead]
  · by_cases h2 : c.toNat < 0x800
    · have a1 : ¬ (0xC0 + c.toNat / 0x40 < 0x80) := by omega
      have a2 : 0xC0 + c.toNat / 0x40 < 0xE0 := by omega
      simp only [h1, h2, if_false, if_true, List.cons_append, List.nil_append, utf8DecodeHead,
        a1, a2, Option.some.injEq, Prod.mk.injEq, and_true]
      omega
    · by_cases h3 : c.toNat < 0x10000
      · have a1 : ¬ (0xE0 + c.toNat / 0x1000 < 0x80) := by omega
        have a2 : ¬ (0xE0 + c.toNat / 0x1000 < 0xE0) := by omega
        have a3 : 0xE0 + c.toNat / 0x1000 < 0xF0 := by omega
        simp only [h1, h2, h3, if_false, if_true, List.cons_append, List.nil_append,
          utf8DecodeHead, a1, a2, a3, Option.some.injEq, Prod.mk.injEq, and_true]
        omega
      · have a1 : ¬ (0xF0 + c.toNat / 0x40000 < 0x80) := by omega
        have a2 : ¬ (0xF0 + c.toNat / 0x40000 < 0xE0) := by omega
        have a3 : ¬ (0xF0 + c.toNat / 0x40000 < 0xF0) := by omega
        simp only [h1, h2, h3, if_false, List.cons_append, List.nil_append,
          utf8DecodeHead, a1, a2, a3, Option.some.injEq, Prod.mk.injEq, and_true]
        omega

theorem length_le_bytesOf (cs : List Char) : cs.length ≤ (bytesOf cs).length := by
  induction cs with
  | nil => simp [bytesOf]
  | cons c cs ih =>
    have h := utf8EncodeChar_ne_nil c
    have : 0 < (utf8EncodeChar c).length := List.length_pos.mpr h
    simp only [bytesOf, List.length_append, List.length_cons]
    omega

theorem utf8Decode_bytesOf (cs : List Char) (fuel : Nat) (h : cs.length ≤ fuel) :
    utf8Decode fuel (bytesOf cs) = cs := by
  induction cs generalizing fuel with
  | nil =>
    cases fuel with
    | zero => rfl
    | succ n => simp [utf8Decode, bytesOf, utf8DecodeHead]
  | cons c cs ih =>
    cases fuel with
    | zero => simp at h
    | succ n =>
      simp only [utf8Decode, bytesOf, utf8DecodeHead_encode, Char.ofNat_toNat]
      rw [ih n (by simpa using h)]

/-- Converting the bytes of a string back gives the string. -/
theorem stringOfBytes_goBytes (s : String) : stringOfBytes (goBytes s) = s := by
  unfold stringOfBytes goBytes
  rw [utf8Decode_bytesOf s.data _ (length_le_bytesOf s.data)]

/-- Converting the code points of a string back gives the string. -/
theorem stringOfRunes_goRunes (s : String) : stringOfRunes (goRunes s) = s := by
  unfold stringOfRunes goRunes
  have : List.map Char.ofNat (List.map Char.toNat s.data) = s.data := by
    rw [List.map_map]
    have hf : (Char.ofNat ∘ Char.toNat) = id := by
      funext c
      simp
    rw [hf, List.map_id]
  rw [this]

theorem cut_length (sep : List Char) (s a b : List Char) (h : cut sep s = some (a, b)) :
    a.length + sep.length + b.length = s.length := by
  induction s generalizing a with
  | nil => simp [cut] at h
  | cons c cs ih =>
    rw [cut] at h
    by_cases hp : sep.isPrefixOf (c :: cs) = true
    · simp only [hp, if_true, Option.some.injEq, Prod.mk.injEq] at h
      have hle : sep.length ≤ (c :: cs).length :=
        (List.isPrefixOf_iff_prefix.mp hp).length_le
      rw [← h.1, ← h.2, List.length_drop]
      simp only [List.length_nil]
      omega
    · simp only [hp, Bool.false_eq_true, if_false, Option.map_eq_some', Prod.mk.injEq] at h
      obtain ⟨⟨a1, b1⟩, hc, h1, h2⟩ := h
      simp only at h1 h2
      subst h1 h2
      have := ih a1 hc
      simp only [List.length_cons]
      omega

/-- The bound `len(s)` on the number of cuts is never reached: more cuts
allowed give the same parts, so `Split` returns all the parts of the value. -/
theorem splitLoop_succ (sep : List Char) (hsep : sep ≠ []) (n : Nat) (s : List Char)
    (h : s.length ≤ n) : splitLoop sep (n + 1) s = splitLoop sep n s := by
  induction n generalizing s with
  | zero =>
    have : s = [] := List.length_eq_zero.mp (Nat.le_zero.mp h)
    subst this
    simp [splitLoop, cut]
  | succ m ih =>
    rw [splitLoop, splitLoop]
    cases hc : cut sep s with
    | none => rfl
    | some p =>
      obtain ⟨a, b⟩ := p
      have hl := cut_length sep s a b hc
      have hpos : 0 < sep.length := List.length_pos.mpr hsep
      simp only
      rw [ih b (by omega)]

/-- The state after `Parse` when the field at some position resolves and the
fields before it resolve. -/
theorem Parse_ok_at (lib : StdLib) (env : Environ) (before after : List SField) (f : SField)
    (hb : (parseEnv lib env before).err = none)
    (hf : (parseFieldAt lib env f).2 = none) :
    Parse lib env (.pointerToStruct (before ++ f :: after)) =
      ⟨.pointerToStruct ((parseEnv lib env before).fields ++
          (parseFieldAt lib env f).1 :: (parseEnv lib env after).fields),
        (parseEnv lib env after).err⟩ := by
  simp [Parse, parseEnv_append lib env before _ hb, parseEnv_cons_ok lib env f after hf]

theorem parseFieldAt_plain_ok (lib : StdLib) (env : Environ) (tag : String) (ty : GoType)
    (v w : Value) (ht : tag ≠ "") (h : resolveField lib env tag ty = .ok w) :
    parseFieldAt lib env (.plain tag ty v) = (.plain tag ty w, none) := by
  simp [parseFieldAt, ht, h]

theorem parseFieldAt_plain_error (lib : StdLib) (env : Environ) (tag : String) (ty : GoType)
    (v : Value) (e : String) (ht : tag ≠ "") (h : resolveField lib env tag ty = .error e) :
    parseFieldAt lib env (.plain tag ty v) = (.plain tag ty v, some e) := by
  simp [parseFieldAt, ht, h]

theorem commaFree_mem_one (t : String) (h : commaFree t) : ∀ u ∈ [t], commaFree u := by
  intro u hu
  simp only [List.mem_singleton] at hu
  exact hu ▸ h

theorem commaFree_mem_two (s t : String) (hs : commaFree s) (h : commaFree t) :
    ∀ u ∈ [s, t], commaFree u := by
  intro u hu
  simp only [List.mem_cons, List.mem_singleton, List.not_mem_nil, or_false] at hu
  rcases hu with e | e
  · exact e ▸ hs
  · exact e ▸ h

/-- Resolution of a field annotated `NAME,type=byte`. -/
theorem resolveField_type_byte (lib : StdLib) (env : Environ) (name : String) (ty : GoType)
    (hname : name ≠ "") (hcn : commaFree name) :
    resolveField lib env (tagOf [name, "type=byte"]) ty =
      convert lib ty ⟨name, env name, DefaultSeparator, "byte"⟩ := by
  rw [resolveField_tagOf lib env name _ ty hname hcn (commaFree_mem_one _ (by decide)),
    applyOptions_cons_ok _ _ _ _ (applyOption_type_byte _)]
  rfl

/-- Resolution of a field annotated `NAME,type=rune`. -/
theorem resolveField_type_rune (lib : StdLib) (env : Environ) (name : String) (ty : GoType)
    (hname : name ≠ "") (hcn : commaFree name) :
    resolveField lib env (tagOf [name, "type=rune"]) ty =
      convert lib ty ⟨name, env name, DefaultSeparator, "rune"⟩ := by
  rw [resolveField_tagOf lib env name _ ty hname hcn (commaFree_mem_one _ (by decide)),
    applyOptions_cons_ok _ _ _ _ (applyOption_type_rune _)]
  rfl

/-- Resolution of a field annotated `NAME`. -/
theorem resolveField_bare (lib : StdLib) (env : Environ) (name : String) (ty : GoType)
    (hname : name ≠ "") (hcn : commaFree name) :
    resolveField lib env (tagOf [name]) ty =
      convert lib ty ⟨name, env name, DefaultSeparator, ""⟩ := by
  rw [resolveField_tagOf lib env name _ ty hname hcn (by simp)]
  rfl

/-! ## Lemmas on the conversions between bytes and runes -/

theorem DecodeRuneInString_two (n : Nat) (rest : List Nat) (h1 : ¬ n < 0x80)
    (h2 : n < 0x800) :
    DecodeRuneInString ((0xC0 + n / 0x40) :: (0x80 + n % 0x40) :: rest) = (n, 2) := by
  generalize hb0 : 0xC0 + n / 0x40 = b0
  generalize hb1 : 0x80 + n % 0x40 = b1
  have e1 : ¬ b0 < 0x80 := by omega
  have e2 : ¬ (b0 < 0xC2 ∨ 0xF4 < b0) := by omega
  have e3 : b0 < 0xE0 := by omega
  have e4 : ¬ b0 = 0xE0 := by omega
  have e5 : ¬ b0 = 0xF0 := by omega
  have e6 : ¬ b0 = 0xED := by omega
  have e7 : ¬ b0 = 0xF4 := by omega
  have e8 : ¬ (b1 < 0x80 ∨ 0xBF < b1) := by omega
  have e9 : ¬ (rest.length + 1 + 1 < 2) := by omega
  have e10 : b0 % 0x20 * 0x40 + b1 % 0x40 = n := by omega
  simp only [DecodeRuneInString, List.length_cons, e1, e2, e3, e4, e5, e6, e7, e8, e9, e10,
    if_true, if_false, Nat.le_refl]

theorem DecodeRuneInString_three (n : Nat) (rest : List Nat) (h2 : ¬ n < 0x800)
    (h3 : n < 0x10000) (hv : n < 0xD800 ∨ 0xDFFF < n) :
    DecodeRuneInString
      ((0xE0 + n / 0x1000) :: (0x80 + n / 0x40 % 0x40) :: (0x80 + n % 0x40) :: rest) =
      (n, 3) := by
  generalize hb0 : 0xE0 + n / 0x1000 = b0
  generalize hb1 : 0x80 + n / 0x40 % 0x40 = b1
  generalize hb2 : 0x80 + n % 0x40 = b2
  have e1 : ¬ b0 < 0x80 := by omega
  have e2 : ¬ (b0 < 0xC2 ∨ 0xF4 < b0) := by omega
  have e3 : ¬ b0 < 0xE0 := by omega
  have e4 : b0 < 0xF0 := by omega
  have e5 : ¬ b0 = 0xF0 := by omega
  have e7 : ¬ b0 = 0xF4 := by omega
  have e8 : ¬ (b1 < (if b0 = 0xE0 then 0xA0 else 0x80) ∨
      (if b0 = 0xED then 0x9F else 0xBF) < b1) := by
    split <;> split <;> omega
  have e8b : ¬ (b2 < 0x80 ∨ 0xBF < b2) := by omega
  have e9 : ¬ (rest.length + 1 + 1 + 1 < 3) := by omega
  have e10 : b0 % 0x10 * 0x1000 + b1 % 0x40 * 0x40 + b2 % 0x40 = n := by omega
  have e11 : ¬ (3 ≤ 2) := by omega
  simp only [DecodeRuneInString, List.length_cons, e1, e2, e3, e4, e5, e7, e8, e8b, e9, e10,
    e11, if_true, if_false, Nat.le_refl]

theorem DecodeRuneInString_four (n : Nat) (rest : List Nat) (h3 : ¬ n < 0x10000)
    (hv : n < 0x110000) :
    DecodeRuneInString
      ((0xF0 + n / 0x40000) :: (0x80 + n / 0x1000 % 0x40) :: (0x80 + n / 0x40 % 0x40) ::
        (0x80 + n % 0x40) :: rest) = (n, 4) := by
  generalize hb0 : 0xF0 + n / 0x40000 = b0
  generalize hb1 : 0x80 + n / 0x1000 % 0x40 = b1
  generalize hb2 : 0x80 + n / 0x40 % 0x40 = b2
  generalize hb3 : 0x80 + n % 0x40 = b3
  have e1 : ¬ b0 < 0x80 := by omega
  have e2 : ¬ (b0 < 0xC2 ∨ 0xF4 < b0) := by omega
  have e3 : ¬ b0 < 0xE0 := by omega
  have e4 : ¬ b0 < 0xF0 := by omega
  have e5 : ¬ b0 = 0xE0 := by omega
  have e6 : ¬ b0 = 0xED := by omega
  have e8 : ¬ (b1 < (if b0 = 0xF0 then 0x90 else 0x80) ∨
      (if b0 = 0xF4 then 0x8F else 0xBF) < b1) := by
    split <;> split <;> omega
  have e8b : ¬ (b2 < 0x80 ∨ 0xBF < b2) := by omega
  have e8c : ¬ (b3 < 0x80 ∨ 0xBF < b3) := by omega
  have e9 : ¬ (rest.length + 1 + 1 + 1 + 1 < 4) := by omega
  have e10 : b0 % 0x08 * 0x40000 + b1 % 0x40 * 0x1000 + b2 % 0x40 * 0x40 + b3 % 0x40 = n := by
    omega
  have e11 : ¬ (4 ≤ 2) := by omega
  have e12 : ¬ (4 ≤ 3) := by omega
  simp only [DecodeRuneInString, List.length_cons, e1, e2, e3, e4, e5, e6, e8, e8b, e8c, e9,
    e10, e11, e12, if_true, if_false]

theorem DecodeRuneInString_encode (c : Char) (rest : List Nat) :
    DecodeRuneInString (utf8EncodeChar c ++ rest) = (c.toNat, (utf8EncodeChar c).length) := by
  have hv : c.toNat < 0xD800 ∨ (0xDFFF < c.toNat ∧ c.toNat < 0x110000) := by
    have := c.valid
    simp only [Char.toNat, UInt32.isValidChar, Nat.isValidChar] at *
    omega
  unfold utf8EncodeChar
  simp only
  generalize c.toNat = n at hv ⊢
  by_cases h1 : n < 0x80
  · simp only [h1, if_true, List.cons_append, List.nil_append, DecodeRuneInString,
      List.length_singleton]
  · by_cases h2 : n < 0x800
    · simp only [h1, h2, if_true, if_false, List.cons_append, List.nil_append,
        List.length_cons, List.length_nil]
      exact DecodeRuneInString_two n rest h1 h2
    · by_cases h3 : n < 0x10000
      · simp only [h1, h2, h3, if_true, if_false, List.cons_append, List.nil_append,
          List.length_cons, List.length_nil]
        exact DecodeRuneInString_three n rest h2 h3 (by omega)
      · simp only [h1, h2, h3, if_false, List.cons_append, List.nil_append,
          List.length_cons, List.length_nil]
        exact DecodeRuneInString_four n rest h3 (by omega)

theorem runesLoop_bytesOf (cs : List Char) (fuel : Nat) (h : cs.length ≤ fuel) :
    runesLoop fuel (bytesOf cs) = cs.map Char.toNat := by
  induction cs generalizing fuel with
  | nil =>
    cases fuel with
    | zero => rfl
    | succ n => simp [runesLoop, bytesOf]
  | cons c cs ih =>
    cases fuel with
    | zero => simp at h
    | succ n =>
      obtain ⟨b, bs, hb⟩ : ∃ b bs, utf8EncodeChar c = b :: bs := by
        cases he : utf8EncodeChar c with
        | nil => exact absurd he (utf8EncodeChar_ne_nil c)
        | cons b bs => exact ⟨b, bs, rfl⟩
      have hd := DecodeRuneInString_encode c (bytesOf cs)
      simp only [bytesOf, List.map_cons]
      rw [hb] at hd ⊢
      simp only [List.cons_append] at hd ⊢
      rw [runesLoop, hd]
      simp only [List.cons.injEq, true_and]
      have hdrop : (b :: (bs ++ bytesOf cs)).drop (b :: bs).length = bytesOf cs := by
        rw [← List.cons_append, List.drop_left]
      rw [hdrop]
      exact ih n (by simpa using h)

/-- On well-formed UTF-8 the conversion `[]rune(s)` on bytes gives the code
points of the string. -/
theorem runesOfBytes_goBytes (s : String) : runesOfBytes (goBytes s) = goRunes s := by
  unfold runesOfBytes goBytes goRunes
  exact runesLoop_bytesOf s.data _ (length_le_bytesOf s.data)

theorem encodeRune_toNat (c : Char) : encodeRune c.toNat = utf8EncodeChar c := by
  have hv : c.toNat < 0xD800 ∨ (0xDFFF < c.toNat ∧ c.toNat < 0x110000) := by
    have := c.valid
    simp only [Char.toNat, UInt32.isValidChar, Nat.isValidChar] at *
    omega
  unfold encodeRune utf8EncodeChar
  simp only
  have h3 : ¬ ((0xD800 ≤ c.toNat ∧ c.toNat ≤ 0xDFFF) ∨ 0x10FFFF < c.toNat) := by omega
  simp only [h3, if_false]

/-- On well-formed UTF-8 the conversion `string(rs)` of the code points gives
the bytes of the string back. -/
theorem bytesOfRunes_goRunes (s : String) : bytesOfRunes (goRunes s) = goBytes s := by
  unfold goRunes goBytes
  induction s.data with
  | nil => rfl
  | cons c cs ih => simp only [List.map_cons, bytesOfRunes, bytesOf, encodeRune_toNat, ih]

/-! ## Options: `default` and `required` -/

theorem hasPrefix_excl (t : String) :
    (HasPrefix t "type" = true → HasPrefix t "default" = false ∧ t ≠ "required") ∧
    (HasPrefix t "separator" = true →
      HasPrefix t "default" = false ∧ HasPrefix t "type" = false ∧ t ≠ "required") ∧
    (HasPrefix t "default" = true → t ≠ "required") := by
  have h1 : ("type" : String).data = ['t','y','p','e'] := rfl
  have h2 : ("default" : String).data = ['d','e','f','a','u','l','t'] := rfl
  have h3 : ("separator" : String).data = ['s','e','p','a','r','a','t','o','r'] := rfl
  have h4 : ("required" : String).data = ['r','e','q','u','i','r','e','d'] := rfl
  have hne : ∀ c : Char, t.data.head? = some c → c ≠ 'r' → t ≠ "required" := by
    intro c hc hcr e
    rw [e, h4] at hc
    simp at hc
    exact hcr hc.symm
  obtain ⟨d⟩ := t
  cases d with
  | nil => simp [HasPrefix, h1, h2, h3, List.isPrefixOf]
  | cons c cs =>
    refine ⟨?_, ?_, ?_⟩
    · intro h
      simp only [HasPrefix, h1, List.isPrefixOf, Bool.and_eq_true, beq_iff_eq] at h
      refine ⟨?_, hne c rfl (by rw [← h.1]; decide)⟩
      simp [HasPrefix, h2, List.isPrefixOf, ← h.1]
    · intro h
      simp only [HasPrefix, h3, List.isPrefixOf, Bool.and_eq_true, beq_iff_eq] at h
      refine ⟨?_, ?_, hne c rfl (by rw [← h.1]; decide)⟩
      · simp [HasPrefix, h2, List.isPrefixOf, ← h.1]
      · simp [HasPrefix, h1, List.isPrefixOf, ← h.1]
    · intro h
      simp only [HasPrefix, h2, List.isPrefixOf, Bool.and_eq_true, beq_iff_eq] at h
      exact hne c rfl (by rw [← h.1]; decide)

theorem applyOption_neutral (o : Options) (t : String) (hv : o.value = "")
    (ht : neutralOption t) :
    ∃ o1, applyOption o t = .ok o1 ∧ o1.value = "" ∧
      o1.envVariableName = o.envVariableName := by
  obtain ⟨hty, hsep, hdef⟩ := hasPrefix_excl t
  rcases ht with ⟨hp, hl⟩ | hp | ⟨hp, hl⟩
  · obtain ⟨hd, hr⟩ := hty hp
    refine ⟨{ o with aliasType := namedOptionValue t }, ?_, hv, rfl⟩
    rcases hl with hl | hl <;>
      simp [applyOption, hr, hd, hp, hl, constAliasTypeByte, constAliasTypeRune]
  · obtain ⟨hd, ht, hr⟩ := hsep hp
    by_cases hs : namedOptionValue t = ""
    · exact ⟨o, by simp [applyOption, hr, hd, ht, hp, hs], hv, rfl⟩
    · exact ⟨{ o with separator := namedOptionValue t },
        by simp [applyOption, hr, hd, ht, hp, hs], hv, rfl⟩
  · have hr := hdef hp
    exact ⟨{ o with value := namedOptionValue t }, by simp [applyOption, hr, hp, hv], hl, rfl⟩

theorem applyOptions_required_after_neutral (o : Options) (pre post : List String)
    (hv : o.value = "") (hpre : ∀ t ∈ pre, neutralOption t) :
    applyOptions o (pre ++ "required" :: post) =
      .error (asParseError o.envVariableName "value is required but was empty") := by
  induction pre generalizing o with
  | nil => simp [applyOptions, applyOption_required_empty o hv]
  | cons t ts ih =>
    obtain ⟨o1, h1, h2, h3⟩ := applyOption_neutral o t hv (hpre t (by simp))
    have hstep : applyOptions o (t :: (ts ++ "required" :: post)) =
        applyOptions o1 (ts ++ "required" :: post) := by
      simp only [applyOptions, h1]
    rw [List.cons_append, hstep, ih o1 h2 (fun u hu => hpre u (by simp [hu])), h3]

theorem data_separator_eq :
    ("separator=" : String).data = ['s','e','p','a','r','a','t','o','r','='] := rfl

theorem commaFree_separator (s : String) (h : commaFree s) : commaFree ("separator=" ++ s) := by
  unfold commaFree at *
  rw [String.data_append, data_separator_eq]
  simp [h]

theorem applyOption_separator (o : Options) (s : String) (hs : s ≠ "") :
    applyOption o ("separator=" ++ s) = .ok { o with separator := s } := by
  have hp : HasPrefix ("separator=" ++ s) "separator" = true := by
    have : ("separator" : String).data = ['s','e','p','a','r','a','t','o','r'] := rfl
    simp [HasPrefix, String.data_append, data_separator_eq, this, List.isPrefixOf]
  obtain ⟨hd, ht, hr⟩ := (hasPrefix_excl _).2.1 hp
  have hv : namedOptionValue ("separator=" ++ s) = s := by
    have h := namedOptionValue_keyed "separator" s (by decide)
    have e : ("separator" : String) ++ "=" = "separator=" := by decide
    rwa [e] at h
  simp [applyOption, hr, hd, ht, hp, hv, hs]

/-- Conversion of a `[]uint8` field under the alias `byte`. -/
theorem convert_byte_slice (lib : StdLib) (name raw sep : String) (hsep : sep ≠ "") :
    convert lib (.slice .uint8) ⟨name, raw, sep, "byte"⟩ =
      if sep.data <:+: raw.data then
        .error (name ++ ": byte slice cannot have multiple values")
      else .ok (.uints (goBytes raw)) := by
  have hm : asParseError name "byte slice cannot have multiple values" =
      name ++ ": byte slice cannot have multiple values" := by
    rw [asParseError_eq]; rfl
  by_cases h : sep.data <:+: raw.data
  · have hl := Split_present raw sep hsep h
    simp [convert, GoType.kind, parseSlice, constAliasTypeByte, hl, h, hm]
  · have hl := Split_absent raw sep hsep h
    simp [convert, GoType.kind, parseSlice, constAliasTypeByte, hl, h]

/-- Conversion of a `[]int32` field under the alias `rune`. -/
theorem convert_rune_slice (lib : StdLib) (name raw sep : String) (hsep : sep ≠ "") :
    convert lib (.slice .int32) ⟨name, raw, sep, "rune"⟩ =
      if sep.data <:+: raw.data then
        .error (name ++ ": rune slice cannot have multiple values")
      else .ok (.ints ((goRunes raw).map Int.ofNat)) := by
  have hm : asParseError name "rune slice cannot have multiple values" =
      name ++ ": rune slice cannot have multiple values" := by
    rw [asParseError_eq]; rfl
  by_cases h : sep.data <:+: raw.data
  · have hl := Split_present raw sep hsep h
    simp [convert, GoType.kind, parseSlice, constAliasTypeRune, hl, h, hm]
  · have hl := Split_absent raw sep hsep h
    simp [convert, GoType.kind, parseSlice, constAliasTypeRune, hl, h]

/-- Resolution of one of the four tags of C7: the alias, alone (separator `,`)
or followed by `separator=S`. -/
theorem resolveField_alias_separator (lib : StdLib) (env : Environ) (name sep : String)
    (ty : GoType) (hname : name ≠ "") (hcn : commaFree name) (hsep : sep ≠ "")
    (hcs : commaFree sep) :
    resolveField lib env (tagOf [name, "type=byte", "separator=" ++ sep]) ty =
      convert lib ty ⟨name, env name, sep, "byte"⟩ ∧
    resolveField lib env (tagOf [name, "type=rune", "separator=" ++ sep]) ty =
      convert lib ty ⟨name, env name, sep, "rune"⟩ := by
  constructor
  · rw [resolveField_tagOf lib env name _ ty hname hcn
        (commaFree_mem_two _ _ (by decide) (commaFree_separator sep hcs)),
      applyOptions_cons_ok _ _ _ _ (applyOption_type_byte _),
      applyOptions_cons_ok _ _ _ _ (applyOption_separator _ sep hsep)]
    rfl
  · rw [resolveField_tagOf lib env name _ ty hname hcn
        (commaFree_mem_two _ _ (by decide) (commaFree_separator sep hcs)),
      applyOptions_cons_ok _ _ _ _ (applyOption_type_rune _),
      applyOptions_cons_ok _ _ _ _ (applyOption_separator _ sep hsep)]
    rfl

theorem applyOptions_single (o : Options) (t : String) :
    applyOptions o [t] = applyOption o t := by
  simp only [applyOptions]
  cases applyOption o t <;> rfl

/-- C1 (defect of the code): for a field annotated `NAME,default=X` whose
variable NAME has a non-empty value, `Parse` does not resolve the field from
that value: the loop over the options only recognises a `default` token while
the value is empty, so the token falls through to the last branch and `Parse`
returns `NAME: unknown option default=X`, for every field type. -/
theorem C1_default_option_rejected_when_variable_set
    (lib : StdLib) (env : Environ) (name x : String) (ty : GoType) (v : Value)
    (before after : List SField)
    (hname : name ≠ "") (hcn : commaFree name) (hcx : commaFree x)
    (hset : env name ≠ "") (hb : (parseEnv lib env before).err = none) :
    (Parse lib env (.pointerToStruct
        (before ++ .plain (tagOf [name, "default=" ++ x]) ty v :: after))).err =
      some (name ++ ": unknown option default=" ++ x) := by
  have hopt : ∀ t ∈ ["default=" ++ x], commaFree t := by
    intro t ht
    simp only [List.mem_singleton] at ht
    exact ht ▸ commaFree_default x hcx
  have hmsg : asParseError name ("unknown option " ++ ("default=" ++ x)) =
      name ++ ": unknown option default=" ++ x := by
    have e : (": unknown option default=" : String) = ": " ++ ("unknown option " ++ "default=") := by
      decide
    simp only [asParseError, e, String.append_assoc]
  have hp : parseTag env (tagOf [name, "default=" ++ x]) =
      .error (name ++ ": unknown option default=" ++ x) := by
    rw [parseTag_tagOf env name _ hname hcn hopt, applyOptions_single,
      applyOption_default_nonempty _ x hset, hmsg]
  exact Parse_err_at lib env before after _ _ hb
    (parseFieldAt_err_of_parseTag lib env _ _ (tagOf_ne_empty name _ hname) hp)

/-- C1, at the failing input: a string field annotated `HOST,default=localhost`
with `HOST=example.com` makes `Parse` return an error. -/
theorem C1_default_option_rejected_witness :
    (Parse rejectingLib (envOf "HOST" "example.com") (.pointerToStruct
        [.plain "HOST,default=localhost" .string (.string "")])).err =
      some "HOST: unknown option default=localhost" :=
  C1_default_option_rejected_when_variable_set rejectingLib (envOf "HOST" "example.com")
    "HOST" "localhost" .string (.string "") [] [] (by decide) (by decide) (by decide)
    (by decide) rfl

/-- C2, as stated, fails: with `HOST` unset, a string field annotated
`HOST,default=localhost,required` resolves to `localhost` and `Parse` returns
no error, although the tag contains `required` and the raw value is
empty. -/
theorem C2_required_after_default_counterexample :
    (Parse rejectingLib emptyEnv (.pointerToStruct
        [.plain "HOST,default=localhost,required" .string (.string "")])).err = none ∧
    (Parse rejectingLib emptyEnv (.pointerToStruct
        [.plain "HOST,default=localhost,required" .string (.string "")])).err ≠
      some "HOST: value is required but was empty" := by
  constructor <;> decide

theorem applyOptions_default_then_required (o : Options) (pre post : List String) (x : String)
    (hv : o.value = "") (hpre : ∀ t ∈ pre, neutralOption t) (hx : x ≠ "") :
    applyOptions o (pre ++ ("default=" ++ x) :: "required" :: post) =
      applyOptions o (pre ++ ("default=" ++ x) :: post) := by
  induction pre generalizing o with
  | nil =>
    have hr : ({ o with value := x } : Options).value ≠ "" := hx
    simp only [List.nil_append]
    rw [applyOptions_cons_ok _ _ _ _ (applyOption_default_empty o x hv),
      applyOptions_cons_ok _ _ _ _ (applyOption_required_nonempty _ hr),
      applyOptions_cons_ok _ _ _ _ (applyOption_default_empty o x hv)]
  | cons t ts ih =>
    obtain ⟨o1, h1, h2, _⟩ := applyOption_neutral o t hv (hpre t (by simp))
    simp only [List.cons_append]
    rw [applyOptions_cons_ok _ _ _ _ h1, applyOptions_cons_ok _ _ _ _ h1]
    exact ih o1 h2 (fun u hu => hpre u (by simp [hu]))

/-- C2 (amended): if every option standing before `required` is accepted and
leaves the value empty (a `type` option with literal `byte` or `rune`, a
`separator` option, a `default` option with an empty literal) and the raw value
of the variable is empty, then `Parse` fails with
`<name>: value is required but was empty`, whatever options follow `required`
(a `default=` option among them or not) and whatever the type of the field;
and with the raw value empty, a `default=X` with non-empty X standing before
`required` is substituted first and satisfies `required`: the field resolves
as under the same tag without `required`, from the value X. -/
theorem C2_required_fails_on_empty_raw_value
    (lib : StdLib) (env : Environ) (name : String) (pre post : List String) (f : SField)
    (before after : List SField) (x : String) (ty : GoType)
    (hname : name ≠ "") (hcn : commaFree name)
    (hcpre : ∀ t ∈ pre, commaFree t) (hcpost : ∀ t ∈ post, commaFree t)
    (hpre : ∀ t ∈ pre, neutralOption t)
    (htag : f.tag = tagOf (name :: (pre ++ "required" :: post)))
    (hraw : env name = "") (hb : (parseEnv lib env before).err = none)
    (hx : x ≠ "") (hcx : commaFree x) :
    (Parse lib env (.pointerToStruct (before ++ f :: after))).err =
      some (name ++ ": value is required but was empty") ∧
    resolveField lib env (tagOf (name :: (pre ++ ("default=" ++ x) :: "required" :: post))) ty =
      resolveField lib env (tagOf (name :: (pre ++ ("default=" ++ x) :: post))) ty ∧
    resolveField lib env (tagOf [name, "default=" ++ x, "required"]) ty =
      convert lib ty ⟨name, x, DefaultSeparator, ""⟩ := by
  have hreq : commaFree "required" := by decide
  have hd := commaFree_default x hcx
  have hopt : ∀ t ∈ pre ++ "required" :: post, commaFree t := by
    intro t ht
    rcases List.mem_append.mp ht with h | h
    · exact hcpre t h
    · rcases List.mem_cons.mp h with h | h
      · rw [h]; exact hreq
      · exact hcpost t h
  have hopt1 : ∀ t ∈ pre ++ ("default=" ++ x) :: "required" :: post, commaFree t := by
    intro t ht
    rcases List.mem_append.mp ht with h | h
    · exact hcpre t h
    · rcases List.mem_cons.mp h with h | h
      · rw [h]; exact hd
      · rcases List.mem_cons.mp h with h | h
        · rw [h]; exact hreq
        · exact hcpost t h
  have hopt2 : ∀ t ∈ pre ++ ("default=" ++ x) :: post, commaFree t := by
    intro t ht
    rcases List.mem_append.mp ht with h | h
    · exact hcpre t h
    · rcases List.mem_cons.mp h with h | h
      · rw [h]; exact hd
      · exact hcpost t h
  have hp : parseTag env f.tag = .error (name ++ ": value is required but was empty") := by
    rw [htag, parseTag_tagOf env name _ hname hcn hopt,
      applyOptions_required_after_neutral _ pre post hraw hpre, asParseError_eq]
    rfl
  refine ⟨Parse_err_at lib env before after f _ hb
    (parseFieldAt_err_of_parseTag lib env f _
      (htag ▸ tagOf_ne_empty name _ hname) hp), ?_, ?_⟩
  · rw [resolveField_tagOf lib env name _ ty hname hcn hopt1,
      resolveField_tagOf lib env name _ ty hname hcn hopt2,
      applyOptions_default_then_required _ pre post x hraw hpre hx]
  · have hr : ({ (⟨name, env name, DefaultSeparator, ""⟩ : Options) with value := x }).value
        ≠ "" := hx
    rw [resolveField_tagOf lib env name _ ty hname hcn (commaFree_mem_two _ _ hd hreq),
      applyOptions_cons_ok _ _ _ _ (applyOption_default_empty _ x hraw),
      applyOptions_cons_ok _ _ _ _ (applyOption_required_nonempty _ hr), applyOptions_nil]

/-- C2 (amended), at `HOST,type=byte,required,default=localhost` and at
`HOST,default=localhost,required`, with `HOST` unset. -/
theorem C2_required_fails_on_empty_raw_value_witness :
    (Parse rejectingLib emptyEnv (.pointerToStruct
        [.plain "HOST,type=byte,required,default=localhost" .string (.string "")])).err =
      some "HOST: value is required but was empty" ∧
    resolveField rejectingLib emptyEnv "HOST,default=localhost,required" .string =
      .ok (.string "localhost") :=
  ⟨(C2_required_fails_on_empty_raw_value rejectingLib emptyEnv "HOST" ["type=byte"]
      ["default=localhost"]
      (.plain "HOST,type=byte,required,default=localhost" .string (.string ""))
      [] [] "localhost" .string (by decide) (by decide) (by decide) (by decide) (by decide)
      (by decide) rfl rfl (by decide) (by decide)).1,
    (C2_required_fails_on_empty_raw_value rejectingLib emptyEnv "HOST" ["type=byte"]
      ["default=localhost"]
      (.plain "HOST,type=byte,required,default=localhost" .string (.string ""))
      [] [] "localhost" .string (by decide) (by decide) (by decide) (by decide) (by decide)
      (by decide) rfl rfl (by decide) (by decide)).2.2.trans (by decide)⟩

/-- C3: for every field type and every tag `NAME,default=X`, also with
a valid `type=byte` or `type=rune` option before the default, when the variable
NAME is unset or empty the field is resolved exactly as the raw value X is
resolved for the same field without the default option. -/
theorem C3_default_resolves_as_raw_value
    (lib : StdLib) (env env1 : Environ) (name x : String) (ty : GoType)
    (hname : name ≠ "") (hcn : commaFree name) (hcx : commaFree x)
    (hraw : env name = "") (hx : env1 name = x) :
    resolveField lib env (tagOf [name, "default=" ++ x]) ty =
      resolveField lib env1 (tagOf [name]) ty ∧
    resolveField lib env (tagOf [name, "type=byte", "default=" ++ x]) ty =
      resolveField lib env1 (tagOf [name, "type=byte"]) ty ∧
    resolveField lib env (tagOf [name, "type=rune", "default=" ++ x]) ty =
      resolveField lib env1 (tagOf [name, "type=rune"]) ty := by
  have hd := commaFree_default x hcx
  refine ⟨?_, ?_, ?_⟩
  · rw [resolveField_tagOf lib env name _ ty hname hcn (by
        intro t ht; simp only [List.mem_singleton] at ht; exact ht ▸ hd),
      resolveField_tagOf lib env1 name _ ty hname hcn (by simp),
      applyOptions_cons_ok _ _ _ _ (applyOption_default_empty _ x hraw)]
    simp only [applyOptions_nil, hx]
  · rw [resolveField_tagOf lib env name _ ty hname hcn (by
        intro t ht
        simp only [List.mem_cons, List.mem_singleton, List.not_mem_nil, or_false] at ht
        rcases ht with h | h
        · rw [h]; decide
        · exact h ▸ hd),
      resolveField_tagOf lib env1 name _ ty hname hcn (by
        intro t ht; simp only [List.mem_singleton] at ht; rw [ht]; decide),
      applyOptions_cons_ok _ _ _ _ (applyOption_type_byte _),
      applyOptions_cons_ok _ _ _ _ (applyOption_default_empty _ x hraw),
      applyOptions_cons_ok _ _ _ _ (applyOption_type_byte _)]
    simp only [applyOptions_nil, hx]
  · rw [resolveField_tagOf lib env name _ ty hname hcn (by
        intro t ht
        simp only [List.mem_cons, List.mem_singleton, List.not_mem_nil, or_false] at ht
        rcases ht with h | h
        · rw [h]; decide
        · exact h ▸ hd),
      resolveField_tagOf lib env1 name _ ty hname hcn (by
        intro t ht; simp only [List.mem_singleton] at ht; rw [ht]; decide),
      applyOptions_cons_ok _ _ _ _ (applyOption_type_rune _),
      applyOptions_cons_ok _ _ _ _ (applyOption_default_empty _ x hraw),
      applyOptions_cons_ok _ _ _ _ (applyOption_type_rune _)]
    simp only [applyOptions_nil, hx]

/-- C3, at `PORT,default=8080` on an `int` field with `PORT` unset: the field
is resolved as the raw value `8080`, that is to the integer 8080. -/
theorem C3_default_resolves_as_raw_value_witness :
    resolveField rejectingLib emptyEnv "PORT,default=8080" .int =
      resolveField rejectingLib (envOf "PORT" "8080") "PORT" .int ∧
    resolveField rejectingLib emptyEnv "PORT,default=8080" .int = .ok (.int 8080) :=
  ⟨(C3_default_resolves_as_raw_value rejectingLib emptyEnv (envOf "PORT" "8080") "PORT" "8080"
      .int (by decide) (by decide) (by decide) rfl rfl).1, by decide⟩

/-- C4: for every field type and the tags `NAME,required`,
`NAME,type=byte,required` and `NAME,type=rune,required`: when NAME is unset or
empty `Parse` returns exactly `NAME: value is required but was empty`; when NAME
is non-empty the field is resolved as with the same tag without
`required`. -/
theorem C4_required_option
    (lib : StdLib) (env : Environ) (name : String) (ty : GoType) (v : Value)
    (before after : List SField)
    (hname : name ≠ "") (hcn : commaFree name)
    (hb : (parseEnv lib env before).err = none) :
    (env name = "" →
      ∀ tag ∈ [tagOf [name, "required"], tagOf [name, "type=byte", "required"],
          tagOf [name, "type=rune", "required"]],
        (Parse lib env (.pointerToStruct (before ++ .plain tag ty v :: after))).err =
          some (name ++ ": value is required but was empty")) ∧
    (env name ≠ "" →
      resolveField lib env (tagOf [name, "required"]) ty =
        resolveField lib env (tagOf [name]) ty ∧
      resolveField lib env (tagOf [name, "type=byte", "required"]) ty =
        resolveField lib env (tagOf [name, "type=byte"]) ty ∧
      resolveField lib env (tagOf [name, "type=rune", "required"]) ty =
        resolveField lib env (tagOf [name, "type=rune"]) ty) := by
  have hc1 : ∀ t ∈ ["required"], commaFree t := by
    intro t ht; simp only [List.mem_singleton] at ht; rw [ht]; decide
  have hc2 : ∀ t ∈ ["type=byte", "required"], commaFree t := by
    intro t ht
    simp only [List.mem_cons, List.mem_singleton, List.not_mem_nil, or_false] at ht
    rcases ht with h | h <;> (rw [h]; decide)
  have hc3 : ∀ t ∈ ["type=rune", "required"], commaFree t := by
    intro t ht
    simp only [List.mem_cons, List.mem_singleton, List.not_mem_nil, or_false] at ht
    rcases ht with h | h <;> (rw [h]; decide)
  have hc4 : ∀ t ∈ ["type=byte"], commaFree t := by
    intro t ht; simp only [List.mem_singleton] at ht; rw [ht]; decide
  have hc5 : ∀ t ∈ ["type=rune"], commaFree t := by
    intro t ht; simp only [List.mem_singleton] at ht; rw [ht]; decide
  constructor
  · intro hraw tag htag
    have key : ∀ pre : List String, (∀ t ∈ pre, commaFree t) → (∀ t ∈ pre, neutralOption t) →
        (Parse lib env (.pointerToStruct
          (before ++ .plain (tagOf (name :: (pre ++ "required" :: []))) ty v :: after))).err =
          some (name ++ ": value is required but was empty") := by
      intro pre hcp hnp
      have hopt : ∀ t ∈ pre ++ "required" :: [], commaFree t := by
        intro t ht
        rcases List.mem_append.mp ht with h | h
        · exact hcp t h
        · simp only [List.mem_singleton] at h; rw [h]; decide
      have hp : parseTag env (tagOf (name :: (pre ++ "required" :: []))) =
          .error (name ++ ": value is required but was empty") := by
        rw [parseTag_tagOf env name _ hname hcn hopt,
          applyOptions_required_after_neutral _ pre [] hraw hnp, asParseError_eq]
        rfl
      exact Parse_err_at lib env before after _ _ hb
        (parseFieldAt_err_of_parseTag lib env (.plain _ ty v) _
          (tagOf_ne_empty name _ hname) hp)
    simp only [List.mem_cons, List.mem_singleton, List.not_mem_nil, or_false] at htag
    rcases htag with h | h | h
    · rw [h]; exact key [] (by simp) (by simp)
    · rw [h]
      exact key ["type=byte"] hc4 (by
        intro t ht; simp only [List.mem_singleton] at ht; rw [ht]; decide)
    · rw [h]
      exact key ["type=rune"] hc5 (by
        intro t ht; simp only [List.mem_singleton] at ht; rw [ht]; decide)
  · intro hset
    refine ⟨?_, ?_, ?_⟩
    · rw [resolveField_tagOf lib env name _ ty hname hcn hc1,
        resolveField_tagOf lib env name _ ty hname hcn (by simp),
        applyOptions_cons_ok _ _ _ _ (applyOption_required_nonempty _ hset)]
    · rw [resolveField_tagOf lib env name _ ty hname hcn hc2,
        resolveField_tagOf lib env name _ ty hname hcn hc4,
        applyOptions_cons_ok _ _ _ _ (applyOption_type_byte _),
        applyOptions_cons_ok _ _ _ _ (applyOption_required_nonempty _ hset),
        applyOptions_cons_ok _ _ _ _ (applyOption_type_byte _)]
    · rw [resolveField_tagOf lib env name _ ty hname hcn hc3,
        resolveField_tagOf lib env name _ ty hname hcn hc5,
        applyOptions_cons_ok _ _ _ _ (applyOption_type_rune _),
        applyOptions_cons_ok _ _ _ _ (applyOption_required_nonempty _ hset),
        applyOptions_cons_ok _ _ _ _ (applyOption_type_rune _)]

/-- C4, at `HOST,required` on a string field with `HOST` unset. -/
theorem C4_required_option_witness :
    (Parse rejectingLib emptyEnv (.pointerToStruct
        [.plain "HOST,required" .string (.string "")])).err =
      some "HOST: value is required but was empty" :=
  (C4_required_option rejectingLib emptyEnv "HOST" .string (.string "") [] []
    (by decide) (by decide) rfl).1 rfl _ (List.mem_cons_self _ _)

/-! ## The aliases `type=byte` and `type=rune` -/

/-- C5 (defect of the code): for an `int32` (rune) field annotated
`NAME,type=rune`, `parseSingle` measures the raw value with `len`, in bytes:
whenever the raw value is not exactly one byte long, and so also when it is a
single code point encoded on several bytes, `Parse` fails with
`NAME: rune must be a single character value`. -/
theorem C5_rune_scalar_measured_in_bytes
    (lib : StdLib) (env : Environ) (name : String) (v : Value) (before after : List SField)
    (hname : name ≠ "") (hcn : commaFree name)
    (hb : (parseEnv lib env before).err = none) (hlen : len (env name) ≠ 1) :
    (Parse lib env (.pointerToStruct
        (before ++ .plain (tagOf [name, "type=rune"]) .int32 v :: after))).err =
      some (name ++ ": rune must be a single character value") := by
  have hr : resolveField lib env (tagOf [name, "type=rune"]) .int32 =
      .error (name ++ ": rune must be a single character value") := by
    have hm : asParseError name "rune must be a single character value" =
        name ++ ": rune must be a single character value" := by
      rw [asParseError_eq]; rfl
    rw [resolveField_type_rune lib env name _ hname hcn, ← hm]
    simp [convert, GoType.kind, GoType.typeString, parseSingle, constAliasTypeRune,
      constAliasTypeByte, hlen]
  have hf := parseFieldAt_plain_error lib env _ .int32 v _ (tagOf_ne_empty name _ hname) hr
  exact Parse_err_at lib env before after _ _ hb (by rw [hf])

/-- C5, at the failing input: the raw value `é` is exactly one code point
(U+00E9, two bytes) and `Parse` rejects it. -/
theorem C5_rune_scalar_measured_in_bytes_witness :
    goRunes "é" = [233] ∧
    (Parse rejectingLib (envOf "R" "é") (.pointerToStruct
        [.plain "R,type=rune" .int32 (.int 0)])).err =
      some "R: rune must be a single character value" :=
  ⟨by decide, C5_rune_scalar_measured_in_bytes rejectingLib (envOf "R" "é") "R" (.int 0) [] []
    (by decide) (by decide) rfl (by decide)⟩

/-- C6: for a `uint8` (byte) field annotated `NAME,type=byte`: when the raw
value consists of exactly one byte the field resolves without error and holds
that byte; when the raw value is empty or longer than one byte `Parse` fails
with `NAME: byte must be a single character value`. -/
theorem C6_byte_scalar
    (lib : StdLib) (env : Environ) (name : String) (v : Value) (before after : List SField)
    (hname : name ≠ "") (hcn : commaFree name)
    (hb : (parseEnv lib env before).err = none) :
    (∀ b : Nat, goBytes (env name) = [b] →
      Parse lib env (.pointerToStruct
          (before ++ .plain (tagOf [name, "type=byte"]) .uint8 v :: after)) =
        ⟨.pointerToStruct ((parseEnv lib env before).fields ++
            .plain (tagOf [name, "type=byte"]) .uint8 (.uint b) ::
              (parseEnv lib env after).fields),
          (parseEnv lib env after).err⟩) ∧
    (len (env name) ≠ 1 →
      (Parse lib env (.pointerToStruct
          (before ++ .plain (tagOf [name, "type=byte"]) .uint8 v :: after))).err =
        some (name ++ ": byte must be a single character value")) := by
  constructor
  · intro b hbytes
    have hl : len (env name) = 1 := by simp [len, hbytes]
    have hr : resolveField lib env (tagOf [name, "type=byte"]) .uint8 = .ok (.uint b) := by
      rw [resolveField_type_byte lib env name _ hname hcn]
      simp [convert, GoType.kind, GoType.typeString, parseSingle, constAliasTypeByte, hl,
        byteAt0, hbytes]
    have hf := parseFieldAt_plain_ok lib env _ .uint8 v _ (tagOf_ne_empty name _ hname) hr
    rw [Parse_ok_at lib env before after _ hb (by rw [hf]), hf]
  · intro hlen
    have hr : resolveField lib env (tagOf [name, "type=byte"]) .uint8 =
        .error (name ++ ": byte must be a single character value") := by
      have hm : asParseError name "byte must be a single character value" =
          name ++ ": byte must be a single character value" := by
        rw [asParseError_eq]; rfl
      rw [resolveField_type_byte lib env name _ hname hcn, ← hm]
      simp [convert, GoType.kind, GoType.typeString, parseSingle, constAliasTypeByte, hlen]
    have hf := parseFieldAt_plain_error lib env _ .uint8 v _ (tagOf_ne_empty name _ hname) hr
    exact Parse_err_at lib env before after _ _ hb (by rw [hf])

/-- C6, at `S1,type=byte` with `S1=a`: the field holds the byte 97. -/
theorem C6_byte_scalar_witness :
    Parse rejectingLib (envOf "S1" "a") (.pointerToStruct
        [.plain "S1,type=byte" .uint8 (.uint 0)]) =
      ⟨.pointerToStruct [.plain "S1,type=byte" .uint8 (.uint 97)], none⟩ :=
  (C6_byte_scalar rejectingLib (envOf "S1" "a") "S1" (.uint 0) [] []
    (by decide) (by decide) rfl).1 97 (by decide)

/-- C7, as stated, fails for a raw value that is not well-formed UTF-8: for
the raw value made of the single byte FF, which holds no separator, the
`type=rune` branch of `parseSlice` sets the field to the one code point
U+FFFD, and converting it back to a string gives the three bytes EF BF BD,
not the raw value; the `type=byte` branch keeps the byte. -/
theorem C7_ill_formed_raw_value_counterexample :
    runeSliceOfBytes "R" [0xFF] [44] = .ok [0xFFFD] ∧
    bytesOfRunes [0xFFFD] = [0xEF, 0xBF, 0xBD] ∧
    bytesOfRunes [0xFFFD] ≠ [0xFF] ∧
    byteSliceOfBytes "R" [0xFF] [44] = .ok [0xFF] := by
  refine ⟨?_, ?_, ?_, ?_⟩ <;> decide

/-- C7 (amended): for a `[]uint8` field under `type=byte` and a `[]int32`
field under `type=rune`, with effective separator `S` (the default `,` when
the tag is `NAME,type=...`, the literal `S` when it is
`NAME,type=...,separator=S`) and a raw value that is well-formed UTF-8: if the
raw value contains `S`, `Parse` fails with
`<name>: byte slice cannot have multiple values`, respectively
`<name>: rune slice cannot have multiple values`; otherwise the field resolves
without error and holds the bytes, respectively the code points, of the whole
raw value, and converting these back to a string gives the raw value; on such
a raw value the conversions on bytes agree with those on text. -/
theorem C7_alias_collections
    (lib : StdLib) (env : Environ) (name sep tagB tagR : String) (v : Value)
    (before after : List SField)
    (hname : name ≠ "") (hcn : commaFree name)
    (htags : (tagB = tagOf [name, "type=byte"] ∧ tagR = tagOf [name, "type=rune"] ∧
        sep = DefaultSeparator) ∨
      (tagB = tagOf [name, "type=byte", "separator=" ++ sep] ∧
        tagR = tagOf [name, "type=rune", "separator=" ++ sep] ∧ sep ≠ "" ∧ commaFree sep))
    (hb : (parseEnv lib env before).err = none) :
    (sep.data <:+: (env name).data →
      (Parse lib env (.pointerToStruct
          (before ++ .plain tagB (.slice .uint8) v :: after))).err =
        some (name ++ ": byte slice cannot have multiple values") ∧
      (Parse lib env (.pointerToStruct
          (before ++ .plain tagR (.slice .int32) v :: after))).err =
        some (name ++ ": rune slice cannot have multiple values")) ∧
    (¬ sep.data <:+: (env name).data →
      Parse lib env (.pointerToStruct (before ++ .plain tagB (.slice .uint8) v :: after)) =
        ⟨.pointerToStruct ((parseEnv lib env before).fields ++
            .plain tagB (.slice .uint8) (.uints (goBytes (env name))) ::
              (parseEnv lib env after).fields),
          (parseEnv lib env after).err⟩ ∧
      Parse lib env (.pointerToStruct (before ++ .plain tagR (.slice .int32) v :: after)) =
        ⟨.pointerToStruct ((parseEnv lib env before).fields ++
            .plain tagR (.slice .int32) (.ints ((goRunes (env name)).map Int.ofNat)) ::
              (parseEnv lib env after).fields),
          (parseEnv lib env after).err⟩ ∧
      stringOfBytes (goBytes (env name)) = env name ∧
      stringOfRunes (goRunes (env name)) = env name ∧
      runesOfBytes (goBytes (env name)) = goRunes (env name) ∧
      bytesOfRunes (runesOfBytes (goBytes (env name))) = goBytes (env name)) := by
  have hsep : sep ≠ "" := by
    rcases htags with ⟨_, _, h⟩ | ⟨_, _, h, _⟩
    · rw [h]; decide
    · exact h
  have hB : resolveField lib env tagB (.slice .uint8) =
      convert lib (.slice .uint8) ⟨name, env name, sep, "byte"⟩ := by
    rcases htags with ⟨h1, _, h3⟩ | ⟨h1, _, h3, h4⟩
    · rw [h1, h3]; exact resolveField_type_byte lib env name _ hname hcn
    · rw [h1]; exact (resolveField_alias_separator lib env name sep _ hname hcn h3 h4).1
  have hR : resolveField lib env tagR (.slice .int32) =
      convert lib (.slice .int32) ⟨name, env name, sep, "rune"⟩ := by
    rcases htags with ⟨_, h2, h3⟩ | ⟨_, h2, h3, h4⟩
    · rw [h2, h3]; exact resolveField_type_rune lib env name _ hname hcn
    · rw [h2]; exact (resolveField_alias_separator lib env name sep _ hname hcn h3 h4).2
  have hBne : tagB ≠ "" := by
    rcases htags with ⟨h1, _, _⟩ | ⟨h1, _, _, _⟩ <;> (rw [h1]; exact tagOf_ne_empty name _ hname)
  have hRne : tagR ≠ "" := by
    rcases htags with ⟨_, h2, _⟩ | ⟨_, h2, _, _⟩ <;> (rw [h2]; exact tagOf_ne_empty name _ hname)
  rw [convert_byte_slice lib name _ sep hsep] at hB
  rw [convert_rune_slice lib name _ sep hsep] at hR
  constructor
  · intro hin
    rw [if_pos hin] at hB hR
    exact ⟨Parse_err_at lib env before after _ _ hb
        (by rw [parseFieldAt_plain_error lib env _ _ v _ hBne hB]),
      Parse_err_at lib env before after _ _ hb
        (by rw [parseFieldAt_plain_error lib env _ _ v _ hRne hR])⟩
  · intro hnot
    rw [if_neg hnot] at hB hR
    have hfB := parseFieldAt_plain_ok lib env _ _ v _ hBne hB
    have hfR := parseFieldAt_plain_ok lib env _ _ v _ hRne hR
    refine ⟨?_, ?_, stringOfBytes_goBytes _, stringOfRunes_goRunes _,
      runesOfBytes_goBytes _, ?_⟩
    · rw [Parse_ok_at lib env before after _ hb (by rw [hfB]), hfB]
    · rw [Parse_ok_at lib env before after _ hb (by rw [hfR]), hfR]
    · rw [runesOfBytes_goBytes, bytesOfRunes_goRunes]

/-- C7 (amended), at `SECRET,type=byte,separator=;` with `SECRET=a,b`: the value holds no
`;` and the field takes its three bytes. -/
theorem C7_alias_collections_witness :
    Parse rejectingLib (envOf "SECRET" "a,b") (.pointerToStruct
        [.plain "SECRET,type=byte,separator=;" (.slice .uint8) (.uints [])]) =
      ⟨.pointerToStruct
        [.plain "SECRET,type=byte,separator=;" (.slice .uint8) (.uints [97, 44, 98])], none⟩ :=
  ((C7_alias_collections rejectingLib (envOf "SECRET" "a,b") "SECRET" ";"
    "SECRET,type=byte,separator=;" "SECRET,type=rune,separator=;" (.uints []) [] []
    (by decide) (by decide) (Or.inr ⟨by decide, by decide, by decide, by decide⟩) rfl).2
    (by decide)).1

/-- C8, as stated, fails: for a `[]uint8` field annotated `SECRET,type=byte`
with `SECRET=a,b`, `Parse` does not succeed. -/
theorem C8_byte_collection_split_counterexample :
    (Parse rejectingLib (envOf "SECRET" "a,b") (.pointerToStruct
        [.plain "SECRET,type=byte" (.slice .uint8) (.uints [])])).err ≠ none := by
  decide

/-- C8 (amended): for a `[]uint8` field annotated `SECRET,type=byte` with the
default separator, the value `a,b` is split on `,` into two parts and `Parse`
fails with `SECRET: byte slice cannot have multiple values`, the field keeping
the value it had. -/
theorem C8_byte_collection_value_is_split (lib : StdLib) (v : Value) :
    Split "a,b" DefaultSeparator = ["a", "b"] ∧
    (Parse lib (envOf "SECRET" "a,b") (.pointerToStruct
        [.plain "SECRET,type=byte" (.slice .uint8) v])).err =
      some "SECRET: byte slice cannot have multiple values" ∧
    (parseFieldAt lib (envOf "SECRET" "a,b")
        (.plain "SECRET,type=byte" (.slice .uint8) v)).1 =
      .plain "SECRET,type=byte" (.slice .uint8) v := by
  have hr : resolveField lib (envOf "SECRET" "a,b") "SECRET,type=byte" (.slice .uint8) =
      .error "SECRET: byte slice cannot have multiple values" := by
    have h := resolveField_type_byte lib (envOf "SECRET" "a,b") "SECRET" (.slice .uint8)
      (by decide) (by decide)
    rw [convert_byte_slice lib "SECRET" _ DefaultSeparator (by decide),
      if_pos (by decide)] at h
    exact h
  have hf := parseFieldAt_plain_error lib (envOf "SECRET" "a,b") "SECRET,type=byte"
    (.slice .uint8) v _ (by decide) hr
  refine ⟨by decide, ?_, ?_⟩
  · exact Parse_err_at lib _ [] [] _ _ rfl (by rw [hf])
  · rw [hf]

theorem invalid_type_message (name tok : String) :
    asParseError name ("invalid type \"" ++ tok ++ "\", valid options are: \"" ++
        constAliasTypeByte ++ "\", \"" ++ constAliasTypeRune ++ "\"") =
      name ++ ": invalid type \"" ++ tok ++ "\", valid options are: \"byte\", \"rune\"" := by
  have e1 : (": invalid type \"" : String) = ": " ++ "invalid type \"" := by decide
  have e2 : ("\", valid options are: \"byte\", \"rune\"" : String) =
      "\", valid options are: \"" ++ ("byte" ++ ("\", \"" ++ ("rune" ++ "\""))) := by decide
  rw [e1, e2]
  simp only [asParseError, constAliasTypeByte, constAliasTypeRune, String.append_assoc]

theorem applyOption_invalid_type (o : Options) (tok : String)
    (htok : tok = "type" ∨
      ∃ lit, tok = "type=" ++ lit ∧ lit ≠ "byte" ∧ lit ≠ "rune") :
    applyOption o tok = .error (o.envVariableName ++ ": invalid type \"" ++ tok ++
      "\", valid options are: \"byte\", \"rune\"") := by
  rw [← invalid_type_message]
  rcases htok with h | ⟨lit, h, hb, hr⟩
  · subst h
    have h1 : HasPrefix "type" "default" = false := by decide
    have h2 : HasPrefix "type" "type" = true := by decide
    have h3 : namedOptionValue "type" = "" := by decide
    simp [applyOption, h1, h2, h3, constAliasTypeByte, constAliasTypeRune]
  · subst h
    have hp : HasPrefix ("type=" ++ lit) "type" = true := by
      have h1 : ("type" : String).data = ['t','y','p','e'] := rfl
      have h2 : ("type=" : String).data = ['t','y','p','e','='] := rfl
      simp [HasPrefix, String.data_append, h1, h2, List.isPrefixOf]
    obtain ⟨hd, hq⟩ := (hasPrefix_excl _).1 hp
    have hv : namedOptionValue ("type=" ++ lit) = lit := by
      have h := namedOptionValue_keyed "type" lit (by decide)
      have e : ("type" : String) ++ "=" = "type=" := by decide
      rwa [e] at h
    simp [applyOption, hq, hd, hp, hv, hb, hr, constAliasTypeByte, constAliasTypeRune]

theorem commaFree_type (s : String) (h : commaFree s) : commaFree ("type=" ++ s) := by
  have h2 : ("type=" : String).data = ['t','y','p','e','='] := rfl
  unfold commaFree at *
  rw [String.data_append, h2]
  simp [h]

/-- C9: for every tag `NAME,<tok>` where tok is `type`, or `type=L` with L
neither `byte` nor `rune`, `Parse` fails with exactly
`NAME: invalid type "<tok>", valid options are: "byte", "rune"`, whatever the
field (of a supported type, of an unsupported one, or a nested struct) and
whatever the environment, the variable NAME being set or not. -/
theorem C9_invalid_type_literal
    (lib : StdLib) (env : Environ) (name tok : String) (f : SField)
    (before after : List SField)
    (hname : name ≠ "") (hcn : commaFree name)
    (htok : tok = "type" ∨
      ∃ lit, tok = "type=" ++ lit ∧ lit ≠ "byte" ∧ lit ≠ "rune" ∧ commaFree lit)
    (htag : f.tag = tagOf [name, tok])
    (hb : (parseEnv lib env before).err = none) :
    (Parse lib env (.pointerToStruct (before ++ f :: after))).err =
      some (name ++ ": invalid type \"" ++ tok ++
        "\", valid options are: \"byte\", \"rune\"") := by
  have hct : commaFree tok := by
    rcases htok with h | ⟨lit, h, _, _, hc⟩
    · rw [h]; decide
    · rw [h]; exact commaFree_type lit hc
  have hopt : applyOption ⟨name, env name, DefaultSeparator, ""⟩ tok =
      .error (name ++ ": invalid type \"" ++ tok ++
        "\", valid options are: \"byte\", \"rune\"") := by
    apply applyOption_invalid_type
    rcases htok with h | ⟨lit, h, h1, h2, _⟩
    · exact Or.inl h
    · exact Or.inr ⟨lit, h, h1, h2⟩
  have hp : parseTag env f.tag = .error (name ++ ": invalid type \"" ++ tok ++
      "\", valid options are: \"byte\", \"rune\"") := by
    rw [htag, parseTag_tagOf env name _ hname hcn (commaFree_mem_one tok hct),
      applyOptions_cons_error _ _ _ _ hopt]
  exact Parse_err_at lib env before after f _ hb
    (parseFieldAt_err_of_parseTag lib env f _ (htag ▸ tagOf_ne_empty name _ hname) hp)

/-- C9, at `LVL,type=frobnicate` on an `interface{}` field with `LVL` unset. -/
theorem C9_invalid_type_literal_witness :
    (Parse rejectingLib emptyEnv (.pointerToStruct
        [.plain "LVL,type=frobnicate" .iface (.other 0)])).err =
      some "LVL: invalid type \"type=frobnicate\", valid options are: \"byte\", \"rune\"" :=
  C9_invalid_type_literal rejectingLib emptyEnv "LVL" "type=frobnicate"
    (.plain "LVL,type=frobnicate" .iface (.other 0)) [] [] (by decide) (by decide)
    (Or.inr ⟨"frobnicate", by decide, by decide, by decide, by decide⟩) rfl rfl

/-- C10, as stated, fails: `type=byte` on a string field raises no error; with
`S=hi` the field annotated `S,type=byte` resolves to `hi`. -/
theorem C10_alias_on_other_target_counterexample :
    (Parse rejectingLib (envOf "S" "hi") (.pointerToStruct
        [.plain "S,type=byte" .string (.string "")])).err = none ∧
    resolveField rejectingLib (envOf "S" "hi") "S,type=byte" .string = .ok (.string "hi") := by
  constructor <;> decide

/-- Conversion does not look at the alias unless the alias matches the type. -/
theorem convert_alias_ignored (lib : StdLib) (ty : GoType) (name raw sep : String) :
    (ty ≠ .uint8 → ty ≠ .slice .uint8 →
      convert lib ty ⟨name, raw, sep, "byte"⟩ = convert lib ty ⟨name, raw, sep, ""⟩) ∧
    (ty ≠ .int32 → ty ≠ .slice .int32 →
      convert lib ty ⟨name, raw, sep, "rune"⟩ = convert lib ty ⟨name, raw, sep, ""⟩) := by
  constructor
  · intro h1 h2
    cases ty with
    | slice e =>
      cases e <;>
        first
        | exact absurd rfl h2
        | simp [convert, GoType.kind, parseSlice, constAliasTypeByte, constAliasTypeRune]
    | uint8 => exact absurd rfl h1
    | _ =>
      simp [convert, GoType.kind, GoType.typeString, parseSingle, constAliasTypeByte,
        constAliasTypeRune]
  · intro h1 h2
    cases ty with
    | slice e =>
      cases e <;>
        first
        | exact absurd rfl h2
        | simp [convert, GoType.kind, parseSlice, constAliasTypeByte, constAliasTypeRune]
    | int32 => exact absurd rfl h1
    | _ =>
      simp [convert, GoType.kind, GoType.typeString, parseSingle, constAliasTypeByte,
        constAliasTypeRune]

/-- C10 (amended): an alias on a target it does not match is ignored, it is not
an error: `type=byte` on a field that is neither `uint8` nor `[]uint8`, and
`type=rune` on a field that is neither `int32` nor `[]int32`, give exactly the
outcome of the same tag without the `type` option. -/
theorem C10_alias_on_other_target_ignored
    (lib : StdLib) (env : Environ) (name : String) (ty : GoType)
    (hname : name ≠ "") (hcn : commaFree name) :
    (ty ≠ .uint8 → ty ≠ .slice .uint8 →
      resolveField lib env (tagOf [name, "type=byte"]) ty =
        resolveField lib env (tagOf [name]) ty) ∧
    (ty ≠ .int32 → ty ≠ .slice .int32 →
      resolveField lib env (tagOf [name, "type=rune"]) ty =
        resolveField lib env (tagOf [name]) ty) := by
  rw [resolveField_type_byte lib env name ty hname hcn,
    resolveField_type_rune lib env name ty hname hcn,
    resolveField_bare lib env name ty hname hcn]
  exact convert_alias_ignored lib ty name (env name) DefaultSeparator

/-- C10 (amended), at `N,type=byte` on an `int64` field with `N=7`. -/
theorem C10_alias_on_other_target_ignored_witness :
    resolveField rejectingLib (envOf "N" "7") "N,type=byte" .int64 =
      resolveField rejectingLib (envOf "N" "7") "N" .int64 ∧
    resolveField rejectingLib (envOf "N" "7") "N,type=byte" .int64 = .ok (.int 7) :=
  ⟨(C10_alias_on_other_target_ignored rejectingLib (envOf "N" "7") "N" .int64
      (by decide) (by decide)).1 (by decide) (by decide), by decide⟩

theorem applyOption_name (o o1 : Options) (t : String) (h : applyOption o t = .ok o1) :
    o1.envVariableName = o.envVariableName := by
  unfold applyOption at h
  simp only at h
  repeat' split at h
  all_goals (cases h <;> rfl)

theorem applyOption_error_named (o : Options) (t e : String) (h : applyOption o t = .error e) :
    ∃ msg, e = asParseError o.envVariableName msg := by
  unfold applyOption at h
  simp only at h
  repeat' split at h
  all_goals (cases h <;> exact ⟨_, rfl⟩)

theorem applyOptions_name (o o1 : Options) (ts : List String)
    (h : applyOptions o ts = .ok o1) : o1.envVariableName = o.envVariableName := by
  induction ts generalizing o with
  | nil => cases h; rfl
  | cons t ts ih =>
    cases ha : applyOption o t with
    | error e => rw [applyOptions_cons_error _ _ _ _ ha] at h; cases h
    | ok o2 =>
      rw [applyOptions_cons_ok _ _ _ _ ha] at h
      rw [ih o2 h, applyOption_name o o2 t ha]

theorem applyOptions_error_named (o : Options) (ts : List String) (e : String)
    (h : applyOptions o ts = .error e) : ∃ msg, e = asParseError o.envVariableName msg := by
  induction ts generalizing o with
  | nil => cases h
  | cons t ts ih =>
    cases ha : applyOption o t with
    | error e1 =>
      rw [applyOptions_cons_error _ _ _ _ ha] at h
      cases h
      exact applyOption_error_named o t e ha
    | ok o2 =>
      rw [applyOptions_cons_ok _ _ _ _ ha] at h
      rw [← applyOption_name o o2 t ha]
      exact ih o2 h

theorem parseElems_error_named {α : Type} (name : String) (conv : String → Except String α)
    (data : List String) (e : String) (h : parseElems name conv data = .error e) :
    ∃ msg, e = asParseError name msg := by
  induction data with
  | nil => cases h
  | cons d ds ih =>
    rw [parseElems] at h
    split at h
    · injection h with h; exact ⟨_, h.symm⟩
    · split at h
      · injection h with h
        rename_i e1 he1
        exact ih (by rw [he1, h])
      · cases h

theorem map_error {α β : Type} (x : Except String α) (f : α → β) (e : String)
    (h : x.map f = .error e) : x = .error e := by
  cases x with
  | error e1 => simpa [Except.map] using h
  | ok a => simp [Except.map] at h

theorem parseSlice_error_shape (lib : StdLib) (ty : GoType) (name value sep al e : String)
    (h : parseSlice lib ty name value sep al = .error e) :
    e = "Unrecognized slice type" ∨ ∃ msg, e = asParseError name msg := by
  unfold parseSlice at h
  simp only at h
  split at h
  all_goals first
    | exact Or.inr (parseElems_error_named name _ _ e (map_error _ _ e h))
    | (split at h
       · split at h
         · cases h; exact Or.inr ⟨_, rfl⟩
         · cases h
       · exact Or.inr (parseElems_error_named name _ _ e (map_error _ _ e h)))
    | (cases h; exact Or.inl rfl)
    | cases h

theorem parseSingle_error_shape (lib : StdLib) (typeString : String) (kind : Kind)
    (name value al e : String)
    (h : parseSingle lib typeString kind name value al = .error e) :
    e = "Unrecognized type" ∨ ∃ msg, e = asParseError name msg := by
  unfold parseSingle at h
  repeat' split at h
  all_goals (cases h <;> first | exact Or.inr ⟨_, rfl⟩ | exact Or.inl rfl)

theorem convert_error_shape (lib : StdLib) (ty : GoType) (o : Options) (e : String)
    (h : convert lib ty o = .error e) :
    e = "Unrecognized type" ∨ e = "Unrecognized slice type" ∨
      ∃ msg, e = asParseError o.envVariableName msg := by
  unfold convert at h
  split at h
  · rcases parseSlice_error_shape _ _ _ _ _ _ _ h with h1 | h1
    · exact Or.inr (Or.inl h1)
    · exact Or.inr (Or.inr h1)
  · rcases parseSingle_error_shape _ _ _ _ _ _ _ h with h1 | h1
    · exact Or.inl h1
    · exact Or.inr (Or.inr h1)

/-- The first token of a tag: the name of the variable. -/
theorem parseTag_error_shape (env : Environ) (tag e : String)
    (h : parseTag env tag = .error e) :
    e = "env variable name cannot be empty" ∨
      ∃ msg, e = asParseError ((Split tag ",").headD "") msg := by
  unfold parseTag at h
  split at h
  · cases h; exact Or.inl rfl
  · rename_i name opts hs
    split at h
    · cases h; exact Or.inl rfl
    · rw [hs]
      exact Or.inr (applyOptions_error_named _ _ _ h)

theorem parseTag_ok_name (env : Environ) (tag : String) (o : Options)
    (h : parseTag env tag = .ok o) :
    o.envVariableName = (Split tag ",").headD "" ∧ o.envVariableName ≠ "" := by
  unfold parseTag at h
  split at h
  · cases h
  · rename_i name opts hs
    split at h
    · cases h
    · rename_i hl
      have hn := applyOptions_name _ _ _ h
      simp only at hn
      rw [hs, hn]
      exact ⟨rfl, fun e => hl ((len_eq_zero_iff name).mpr e)⟩

/-- Errors of a field with a non-empty tag: two name-less errors for
unsupported types, the empty-name error, or an error that starts with the
first token of the tag. -/
theorem parseFieldAt_tagged_error_shape (lib : StdLib) (env : Environ) (f : SField)
    (e : String) (ht : f.tag ≠ "") (h : (parseFieldAt lib env f).2 = some e) :
    e = "env variable name cannot be empty" ∨ e = "Unrecognized type" ∨
    e = "Unrecognized slice type" ∨
    ∃ msg, e = asParseError ((Split f.tag ",").headD "") msg := by
  cases f with
  | plain tag ty v =>
    simp only [SField.tag] at ht ⊢
    rw [parseFieldAt_plain_tagged lib env tag ty v ht] at h
    cases hr : resolveField lib env tag ty with
    | ok w => rw [hr] at h; cases h
    | error e1 =>
      rw [hr] at h
      simp only [Option.some.injEq] at h
      subst h
      unfold resolveField at hr
      cases hp : parseTag env tag with
      | error e2 =>
        rw [hp] at hr
        cases hr
        rcases parseTag_error_shape env tag _ hp with h1 | h1
        · exact Or.inl h1
        · exact Or.inr (Or.inr (Or.inr h1))
      | ok o =>
        rw [hp] at hr
        simp only at hr
        rw [← (parseTag_ok_name env tag o hp).1]
        exact Or.inr (convert_error_shape lib ty o _ hr)
  | nested tag fields =>
    simp only [SField.tag] at ht ⊢
    rw [parseFieldAt] at h
    simp only [ht, if_false] at h
    cases hp : parseTag env tag with
    | error e2 =>
      rw [hp] at h
      simp only [Option.some.injEq] at h
      subst h
      rcases parseTag_error_shape env tag _ hp with h1 | h1
      · exact Or.inl h1
      · exact Or.inr (Or.inr (Or.inr h1))
    | ok o =>
      rw [hp] at h
      simp only at h
      rw [← (parseTag_ok_name env tag o hp).1]
      cases hs : parseSingle lib userStructTypeString .Struct o.envVariableName o.value
          o.aliasType with
      | ok w => rw [hs] at h; cases h
      | error e3 =>
        rw [hs] at h
        simp only [Option.some.injEq] at h
        subst h
        rcases parseSingle_error_shape _ _ _ _ _ _ _ hs with h1 | h1
        · exact Or.inr (Or.inl h1)
        · exact Or.inr (Or.inr (Or.inr h1))

theorem parseFieldAt_plain_untagged (lib : StdLib) (env : Environ) (ty : GoType) (v : Value) :
    parseFieldAt lib env (.plain "" ty v) = (.plain "" ty v, none) := by
  simp [parseFieldAt]

theorem parseFieldAt_nested_untagged (lib : StdLib) (env : Environ) (fields : List SField) :
    parseFieldAt lib env (.nested "" fields) =
      (.nested "" (parseEnv lib env fields).fields, (parseEnv lib env fields).err) := by
  simp [parseFieldAt]

mutual
theorem parseFieldAt_errShape (lib : StdLib) (env : Environ) :
    ∀ (f : SField) (e : String), (parseFieldAt lib env f).2 = some e → ErrShape e
  | .plain tag ty v, e, h => by
    by_cases ht : tag = ""
    · subst ht
      rw [parseFieldAt_plain_untagged] at h
      cases h
    · rcases parseFieldAt_tagged_error_shape lib env (.plain tag ty v) e ht h with
        h1 | h1 | h1 | ⟨msg, h1⟩
      · exact Or.inl h1
      · exact Or.inr (Or.inl h1)
      · exact Or.inr (Or.inr (Or.inl h1))
      · exact Or.inr (Or.inr (Or.inr ⟨_, msg, h1⟩))
  | .nested tag fields, e, h => by
    by_cases ht : tag = ""
    · subst ht
      rw [parseFieldAt_nested_untagged] at h
      exact parseEnv_errShape lib env fields e h
    · rcases parseFieldAt_tagged_error_shape lib env (.nested tag fields) e ht h with
        h1 | h1 | h1 | ⟨msg, h1⟩
      · exact Or.inl h1
      · exact Or.inr (Or.inl h1)
      · exact Or.inr (Or.inr (Or.inl h1))
      · exact Or.inr (Or.inr (Or.inr ⟨_, msg, h1⟩))
theorem parseEnv_errShape (lib : StdLib) (env : Environ) :
    ∀ (fs : List SField) (e : String), (parseEnv lib env fs).err = some e → ErrShape e
  | [], e, h => by simp [parseEnv] at h
  | f :: rest, e, h => by
    cases hf : (parseFieldAt lib env f).2 with
    | some e1 =>
      rw [parseEnv_cons_err lib env f rest e1 hf] at h
      simp only [Option.some.injEq] at h
      exact h ▸ parseFieldAt_errShape lib env f e1 hf
    | none =>
      rw [parseEnv_cons_ok lib env f rest hf] at h
      exact parseEnv_errShape lib env rest e h
end

/-! ## Lemmas on nesting and on the state left by `parseEnv` -/

theorem Reached_err (lib : StdLib) (env : Environ) (f : SField) (e : String)
    (hf : (parseFieldAt lib env f).2 = some e) (fields : List SField)
    (hr : Reached lib env f fields) : (parseEnv lib env fields).err = some e := by
  induction hr with
  | here before after hb =>
    rw [parseEnv_append lib env before _ hb, parseEnv_cons_err lib env f after e hf]
  | inside before inner after hb _ ih =>
    have hn : (parseFieldAt lib env (.nested "" inner)).2 = some e := by
      rw [parseFieldAt_nested_untagged]; exact ih
    rw [parseEnv_append lib env before _ hb, parseEnv_cons_err lib env _ after e hn]

theorem Parse_struct (lib : StdLib) (env : Environ) (fields : List SField) :
    Parse lib env (.pointerToStruct fields) =
      ⟨.pointerToStruct (parseEnv lib env fields).fields, (parseEnv lib env fields).err⟩ := rfl

theorem parseEnv_ok_forall (lib : StdLib) (env : Environ) (fs : List SField)
    (h : (parseEnv lib env fs).err = none) :
    List.Forall₂ (fun g g1 => parseFieldAt lib env g = (g1, none)) fs
      (parseEnv lib env fs).fields := by
  induction fs with
  | nil => simp [parseEnv]
  | cons f rest ih =>
    cases hf : (parseFieldAt lib env f).2 with
    | some e =>
      rw [parseEnv_cons_err lib env f rest e hf] at h
      cases h
    | none =>
      rw [parseEnv_cons_ok lib env f rest hf] at h ⊢
      refine List.Forall₂.cons ?_ (ih h)
      rw [← hf]

theorem parseFieldAt_plain_fst_of_error (lib : StdLib) (env : Environ) (tag : String)
    (ty : GoType) (v : Value) (e : String)
    (h : (parseFieldAt lib env (.plain tag ty v)).2 = some e) :
    (parseFieldAt lib env (.plain tag ty v)).1 = .plain tag ty v := by
  by_cases ht : tag = ""
  · subst ht; rw [parseFieldAt_plain_untagged]
  · rw [parseFieldAt_plain_tagged lib env tag ty v ht] at h ⊢
    cases hr : resolveField lib env tag ty with
    | ok w => rw [hr] at h; cases h
    | error e1 => rfl

theorem parseFieldAt_nested_tagged_fst (lib : StdLib) (env : Environ) (tag : String)
    (inner : List SField) (ht : tag ≠ "") :
    (parseFieldAt lib env (.nested tag inner)).1 = .nested tag inner := by
  rw [parseFieldAt]
  simp only [ht, if_false]
  split
  · rfl
  · split <;> rfl

/-! ## Unknown options and repeated options -/

theorem unknown_option_message (name tok : String) :
    asParseError name ("unknown option " ++ tok) = name ++ ": unknown option " ++ tok := by
  have e : (": unknown option " : String) = ": " ++ "unknown option " := by decide
  rw [e]
  simp only [asParseError, String.append_assoc]

theorem applyOption_unrecognized (o : Options) (tok : String) (h : ¬ recognizedOption tok) :
    applyOption o tok = .error (o.envVariableName ++ ": unknown option " ++ tok) := by
  unfold recognizedOption at h
  simp only [not_or] at h
  obtain ⟨h1, h2, h3, h4⟩ := h
  rw [← unknown_option_message]
  simp [applyOption, h1, h2, h3, h4]

/-- C11: for every tag `NAME,<tok>` whose single option tok is not one the
options loop recognises (it is not `required` and begins with none of
`default`, `type`, `separator`), `Parse` fails with exactly
`NAME: unknown option <tok>`, whatever the field (of a supported type, of an
unsupported one, or a nested struct) and whatever the environment. -/
theorem C11_unknown_option
    (lib : StdLib) (env : Environ) (name tok : String) (f : SField)
    (before after : List SField)
    (hname : name ≠ "") (hcn : commaFree name) (hct : commaFree tok)
    (hun : ¬ recognizedOption tok) (htag : f.tag = tagOf [name, tok])
    (hb : (parseEnv lib env before).err = none) :
    (Parse lib env (.pointerToStruct (before ++ f :: after))).err =
      some (name ++ ": unknown option " ++ tok) := by
  have hp : parseTag env f.tag = .error (name ++ ": unknown option " ++ tok) := by
    rw [htag, parseTag_tagOf env name _ hname hcn (commaFree_mem_one tok hct),
      applyOptions_cons_error _ _ _ _ (applyOption_unrecognized _ tok hun)]
  exact Parse_err_at lib env before after f _ hb
    (parseFieldAt_err_of_parseTag lib env f _ (htag ▸ tagOf_ne_empty name _ hname) hp)

/-- C11, at the struct of `TestParseStructUnknownOption`: an untagged `int`
field followed by a string field tagged `S1,abc`. -/
theorem C11_unknown_option_witness :
    (Parse rejectingLib emptyEnv (.pointerToStruct
        [.plain "" .int (.int 0), .plain "S1,abc" .string (.string "")])).err =
      some "S1: unknown option abc" :=
  C11_unknown_option rejectingLib emptyEnv "S1" "abc" (.plain "S1,abc" .string (.string ""))
    [.plain "" .int (.int 0)] [] (by decide) (by decide) (by decide) (by decide) rfl rfl

/-- C12, as stated, fails: the key of an option is matched as a beginning of
the token, not as the exact text before `=`.  `typed=byte` is taken as the
alias `byte`, `separatorx=;` as the separator `;`, and with the variable unset
`defaults=5` as the default `5`; none makes `Parse` fail. -/
theorem C12_exact_option_keys_counterexample :
    Parse rejectingLib (envOf "B" "a") (.pointerToStruct
        [.plain "B,typed=byte" .uint8 (.uint 0)]) =
      ⟨.pointerToStruct [.plain "B,typed=byte" .uint8 (.uint 97)], none⟩ ∧
    Parse rejectingLib (envOf "L" "x;y") (.pointerToStruct
        [.plain "L,separatorx=;" (.slice .string) (.strings [])]) =
      ⟨.pointerToStruct [.plain "L,separatorx=;" (.slice .string) (.strings ["x", "y"])],
        none⟩ ∧
    Parse rejectingLib emptyEnv (.pointerToStruct
        [.plain "N,defaults=5" .int (.int 0)]) =
      ⟨.pointerToStruct [.plain "N,defaults=5" .int (.int 5)], none⟩ := by
  refine ⟨?_, ?_, ?_⟩ <;> rfl

theorem required_facts :
    HasPrefix "required" "default" = false ∧ HasPrefix "required" "type" = false ∧
    HasPrefix "required" "separator" = false := by
  refine ⟨?_, ?_, ?_⟩ <;> decide

/-- The tokens the options loop accepts, for a given current value. -/
theorem applyOption_ok_iff (o : Options) (tok : String) :
    (∃ o1, applyOption o tok = .ok o1) ↔
      (tok = "required" ∧ o.value ≠ "") ∨
      (HasPrefix tok "default" = true ∧ o.value = "") ∨
      (HasPrefix tok "type" = true ∧
        (namedOptionValue tok = "byte" ∨ namedOptionValue tok = "rune")) ∨
      HasPrefix tok "separator" = true := by
  obtain ⟨hty, hsep, hdef⟩ := hasPrefix_excl tok
  by_cases hr : tok = "required"
  · subst hr
    obtain ⟨r1, r2, r3⟩ := required_facts
    by_cases hv : o.value = "" <;> simp [applyOption, hv, r1, r2, r3]
  · by_cases hd : HasPrefix tok "default" = true
    · have ht : HasPrefix tok "type" = false := by
        cases h : HasPrefix tok "type" with
        | false => rfl
        | true => rw [(hty h).1] at hd; cases hd
      have hs : HasPrefix tok "separator" = false := by
        cases h : HasPrefix tok "separator" with
        | false => rfl
        | true => rw [(hsep h).1] at hd; cases hd
      by_cases hv : o.value = "" <;> simp [applyOption, hr, hd, ht, hs, hv]
    · by_cases ht : HasPrefix tok "type" = true
      · have hs : HasPrefix tok "separator" = false := by
          cases h : HasPrefix tok "separator" with
          | false => rfl
          | true => rw [(hsep h).2.1] at ht; cases ht
        by_cases hl : namedOptionValue tok = "byte" ∨ namedOptionValue tok = "rune"
        · rcases hl with hl | hl <;>
            simp [applyOption, hr, hd, ht, hs, hl, constAliasTypeByte, constAliasTypeRune]
        · have hl2 := hl
          simp only [not_or] at hl2
          simp [applyOption, hr, hd, ht, hs, hl2.1, hl2.2, constAliasTypeByte,
            constAliasTypeRune]
      · by_cases hs : HasPrefix tok "separator" = true
        · by_cases hm : namedOptionValue tok = "" <;> simp [applyOption, hr, hd, ht, hs, hm]
        · simp [applyOption, hr, hd, ht, hs]

/-- C12 (amended): the key of an option is matched as a beginning of the
token.  The single option tok of a tag `NAME,<tok>` is accepted only if it is
`required` or begins with `default`, `type` or `separator`; every other token
makes `Parse` fail with `<name>: unknown option <token>`; a token that begins
with `type` and has the literal `byte` or `rune`, a token that begins with
`separator`, and, the variable being unset, a token that begins with
`default` are accepted. -/
theorem C12_option_keys_matched_as_beginnings
    (lib : StdLib) (env : Environ) (name tok : String) (ty : GoType) (v : Value)
    (before after : List SField)
    (hname : name ≠ "") (hcn : commaFree name) (hct : commaFree tok)
    (hb : (parseEnv lib env before).err = none) :
    ((∃ o, parseTag env (tagOf [name, tok]) = .ok o) → recognizedOption tok) ∧
    (¬ recognizedOption tok →
      (Parse lib env (.pointerToStruct
          (before ++ .plain (tagOf [name, tok]) ty v :: after))).err =
        some (name ++ ": unknown option " ++ tok)) ∧
    (HasPrefix tok "type" = true →
      (namedOptionValue tok = "byte" ∨ namedOptionValue tok = "rune") →
      ∃ o, parseTag env (tagOf [name, tok]) = .ok o) ∧
    (HasPrefix tok "separator" = true → ∃ o, parseTag env (tagOf [name, tok]) = .ok o) ∧
    (HasPrefix tok "default" = true → env name = "" →
      ∃ o, parseTag env (tagOf [name, tok]) = .ok o) := by
  have hiff : (∃ o, parseTag env (tagOf [name, tok]) = .ok o) ↔
      (tok = "required" ∧ env name ≠ "") ∨
      (HasPrefix tok "default" = true ∧ env name = "") ∨
      (HasPrefix tok "type" = true ∧
        (namedOptionValue tok = "byte" ∨ namedOptionValue tok = "rune")) ∨
      HasPrefix tok "separator" = true := by
    rw [parseTag_tagOf env name _ hname hcn (commaFree_mem_one tok hct), applyOptions_single]
    exact applyOption_ok_iff _ tok
  refine ⟨?_, ?_, ?_, ?_, ?_⟩
  · intro h
    rcases hiff.mp h with h1 | h1 | h1 | h1
    · exact Or.inl h1.1
    · exact Or.inr (Or.inl h1.1)
    · exact Or.inr (Or.inr (Or.inl h1.1))
    · exact Or.inr (Or.inr (Or.inr h1))
  · intro hun
    have hp : parseTag env (tagOf [name, tok]) =
        .error (name ++ ": unknown option " ++ tok) := by
      rw [parseTag_tagOf env name _ hname hcn (commaFree_mem_one tok hct),
        applyOptions_cons_error _ _ _ _ (applyOption_unrecognized _ tok hun)]
    exact Parse_err_at lib env before after _ _ hb
      (parseFieldAt_err_of_parseTag lib env (.plain _ ty v) _
        (tagOf_ne_empty name _ hname) hp)
  · intro h1 h2
    exact hiff.mpr (Or.inr (Or.inr (Or.inl ⟨h1, h2⟩)))
  · intro h1
    exact hiff.mpr (Or.inr (Or.inr (Or.inr h1)))
  · intro h1 h2
    exact hiff.mpr (Or.inr (Or.inl ⟨h1, h2⟩))

/-- C12 (amended), at `B,typed=byte`: the token begins with `type`, its literal
is `byte`, and the options loop accepts it. -/
theorem C12_option_keys_matched_as_beginnings_witness :
    ∃ o, parseTag (envOf "B" "a") "B,typed=byte" = .ok o :=
  (C12_option_keys_matched_as_beginnings rejectingLib (envOf "B" "a") "B" "typed=byte"
    .uint8 (.uint 0) [] [] (by decide) (by decide) (by decide) rfl).2.2.1
    (by decide) (Or.inl (by decide))

theorem applyOption_type_valid (o : Options) (a : String) (h : a = "byte" ∨ a = "rune") :
    applyOption o ("type=" ++ a) = .ok { o with aliasType := a } := by
  rcases h with h | h
  · subst h
    have e : ("type=" : String) ++ "byte" = "type=byte" := by decide
    rw [e]; exact applyOption_type_byte o
  · subst h
    have e : ("type=" : String) ++ "rune" = "type=rune" := by decide
    rw [e]; exact applyOption_type_rune o

theorem applyOptions_separators (o : Options) (seps : List String) (s : String)
    (hne : ∀ x ∈ seps ++ [s], x ≠ "") :
    applyOptions o ((seps ++ [s]).map (fun x => "separator=" ++ x)) =
      .ok { o with separator := s } := by
  induction seps generalizing o with
  | nil =>
    simp only [List.nil_append, List.map_cons, List.map_nil]
    rw [applyOptions_cons_ok _ _ _ _ (applyOption_separator o s (hne s (by simp)))]
    rfl
  | cons x xs ih =>
    simp only [List.cons_append, List.map_cons]
    rw [applyOptions_cons_ok _ _ _ _ (applyOption_separator o x (hne x (by simp)))]
    have := ih { o with separator := x } (fun y hy => hne y (by
      simp only [List.cons_append, List.mem_cons]; exact Or.inr hy))
    rw [this]

theorem applyOptions_types (o : Options) (als : List String) (a : String)
    (hv : ∀ x ∈ als ++ [a], x = "byte" ∨ x = "rune") :
    applyOptions o ((als ++ [a]).map (fun x => "type=" ++ x)) =
      .ok { o with aliasType := a } := by
  induction als generalizing o with
  | nil =>
    simp only [List.nil_append, List.map_cons, List.map_nil]
    rw [applyOptions_cons_ok _ _ _ _ (applyOption_type_valid o a (hv a (by simp)))]
    rfl
  | cons x xs ih =>
    simp only [List.cons_append, List.map_cons]
    rw [applyOptions_cons_ok _ _ _ _ (applyOption_type_valid o x (hv x (by simp)))]
    have := ih { o with aliasType := x } (fun y hy => hv y (by
      simp only [List.cons_append, List.mem_cons]; exact Or.inr hy))
    rw [this]

/-- C13, as stated, fails on its own example: with `NAME` unset, the tag
`NAME,default=a,default=b` does not resolve from `b`; the second `default`
finds the value already set to `a`, is not recognised, and `Parse` returns
`NAME: unknown option default=b`. -/
theorem C13_repeated_default_counterexample :
    (Parse rejectingLib emptyEnv (.pointerToStruct
        [.plain "NAME,default=a,default=b" .string (.string "")])).err =
      some "NAME: unknown option default=b" ∧
    resolveField rejectingLib emptyEnv "NAME,default=a,default=b" .string ≠
      .ok (.string "b") := by
  constructor <;> decide

/-- C13 (amended): when a tag gives the `separator` option several times with
non-empty literals, or the `type` option several times with literals `byte` or
`rune`, no error is raised for the repetition and the field is resolved as
with the last occurrence alone. -/
theorem C13_repeated_separator_and_type_last_wins
    (lib : StdLib) (env : Environ) (name : String) (ty : GoType)
    (seps als : List String) (s a : String)
    (hname : name ≠ "") (hcn : commaFree name)
    (hseps : ∀ x ∈ seps ++ [s], x ≠ "" ∧ commaFree x)
    (hals : ∀ x ∈ als ++ [a], x = "byte" ∨ x = "rune") :
    resolveField lib env
        (tagOf (name :: (seps ++ [s]).map (fun x => "separator=" ++ x))) ty =
      resolveField lib env (tagOf [name, "separator=" ++ s]) ty ∧
    resolveField lib env (tagOf (name :: (als ++ [a]).map (fun x => "type=" ++ x))) ty =
      resolveField lib env (tagOf [name, "type=" ++ a]) ty := by
  have hcs : ∀ t ∈ (seps ++ [s]).map (fun x => "separator=" ++ x), commaFree t := by
    intro t ht
    obtain ⟨x, hx, rfl⟩ := List.mem_map.mp ht
    exact commaFree_separator x (hseps x hx).2
  have hca : ∀ t ∈ (als ++ [a]).map (fun x => "type=" ++ x), commaFree t := by
    intro t ht
    obtain ⟨x, hx, rfl⟩ := List.mem_map.mp ht
    rcases hals x hx with h | h <;> (rw [h]; decide)
  have hs1 : ∀ x ∈ ([] : List String) ++ [s], x ≠ "" := fun x hx =>
    (hseps x (by simp at hx; simp [hx])).1
  have ha1 : ∀ x ∈ ([] : List String) ++ [a], x = "byte" ∨ x = "rune" := fun x hx =>
    hals x (by simp at hx; simp [hx])
  constructor
  · rw [resolveField_tagOf lib env name _ ty hname hcn hcs,
      applyOptions_separators _ seps s (fun x hx => (hseps x hx).1),
      resolveField_tagOf lib env name _ ty hname hcn
        (commaFree_mem_one _ (commaFree_separator s (hseps s (by simp)).2))]
    have := applyOptions_separators
      ⟨name, env name, DefaultSeparator, ""⟩ [] s hs1
    simp only [List.nil_append, List.map_cons, List.map_nil] at this
    rw [this]
  · rw [resolveField_tagOf lib env name _ ty hname hcn hca,
      applyOptions_types _ als a hals,
      resolveField_tagOf lib env name _ ty hname hcn (by
        intro t ht
        simp only [List.mem_singleton] at ht
        rw [ht]
        rcases hals a (by simp) with h | h <;> (rw [h]; decide))]
    have := applyOptions_types ⟨name, env name, DefaultSeparator, ""⟩ [] a ha1
    simp only [List.nil_append, List.map_cons, List.map_nil] at this
    rw [this]

/-- C13 (amended), at `L,separator=;,separator=:` with `L=a;b:c`: the value is
split on `:`. -/
theorem C13_repeated_separator_and_type_last_wins_witness :
    resolveField rejectingLib (envOf "L" "a;b:c") "L,separator=;,separator=:"
        (.slice .string) =
      resolveField rejectingLib (envOf "L" "a;b:c") "L,separator=:" (.slice .string) ∧
    resolveField rejectingLib (envOf "L" "a;b:c") "L,separator=;,separator=:"
        (.slice .string) = .ok (.strings ["a;b", "c"]) :=
  ⟨(C13_repeated_separator_and_type_last_wins rejectingLib (envOf "L" "a;b:c") "L"
      (.slice .string) [";"] [] ":" "byte" (by decide) (by decide) (by decide)
      (by decide)).1, by decide⟩

/-- C14: `Parse` returns `Expected a pointer value` for an argument that is not
a pointer and `Expected a struct pointer` for a pointer to something that is
not a struct, leaving the argument as it is; for a pointer to a struct it
returns neither of these errors. -/
theorem C14_malformed_target (lib : StdLib) (env : Environ) :
    Parse lib env .notPointer = ⟨.notPointer, some "Expected a pointer value"⟩ ∧
    Parse lib env .pointerToOther = ⟨.pointerToOther, some "Expected a struct pointer"⟩ ∧
    ∀ fields : List SField,
      (Parse lib env (.pointerToStruct fields)).err ≠ some "Expected a pointer value" ∧
      (Parse lib env (.pointerToStruct fields)).err ≠ some "Expected a struct pointer" := by
  refine ⟨rfl, rfl, ?_⟩
  intro fields
  have key : ∀ e, ErrShape e → ':' ∈ e.data ∨ e.data.head? = some 'e' ∨
      e.data.head? = some 'U' := by
    intro e he
    rcases he with h | h | h | ⟨name, msg, h⟩
    · rw [h]; exact Or.inr (Or.inl rfl)
    · rw [h]; exact Or.inr (Or.inr rfl)
    · rw [h]; exact Or.inr (Or.inr rfl)
    · left
      rw [h, asParseError_eq]
      have hd : (": " : String).data = [':', ' '] := rfl
      simp [String.data_append, hd]
  constructor
  · intro h
    have := key _ (parseEnv_errShape lib env fields _ h)
    revert this
    decide
  · intro h
    have := key _ (parseEnv_errShape lib env fields _ h)
    revert this
    decide

/-! ## Nested structs, order of failures, state after a failure -/

theorem parseTag_empty_name (env : Environ) (rest : String) :
    parseTag env ("," ++ rest) = .error "env variable name cannot be empty" := by
  have hs : ∃ more, Split ("," ++ rest) "," = "" :: more := by
    unfold Split
    simp only [data_comma, String.data_append, List.isEmpty_cons, Bool.false_eq_true, if_false,
      List.singleton_append, List.length_cons, splitLoop, cut, List.isPrefixOf, beq_self_eq_true,
      Bool.and_self, if_true, List.length_singleton, List.drop_succ_cons, List.drop_zero,
      List.map_cons]
    exact ⟨_, rfl⟩
  obtain ⟨more, hm⟩ := hs
  have hl : len "" = 0 := by decide
  simp [parseTag, hm, hl]

theorem comma_append_ne_empty (rest : String) : "," ++ rest ≠ "" := by
  intro e
  have := congrArg String.data e
  simp [String.data_append, data_comma] at this

/-- C15: for every non-empty tag whose first comma-separated token is empty
(the tag begins with a comma, as `,required`), `Parse` fails with exactly
`env variable name cannot be empty`, whatever the rest of the tag, the field
and the environment, the field standing at top level or inside untagged nested
structs, once it is reached. -/
theorem C15_empty_variable_name
    (lib : StdLib) (env : Environ) (rest : String) (f : SField) (fields : List SField)
    (htag : f.tag = "," ++ rest) (hr : Reached lib env f fields) :
    (Parse lib env (.pointerToStruct fields)).err =
      some "env variable name cannot be empty" := by
  have hf : (parseFieldAt lib env f).2 = some "env variable name cannot be empty" :=
    parseFieldAt_err_of_parseTag lib env f _ (htag ▸ comma_append_ne_empty rest)
      (htag ▸ parseTag_empty_name env rest)
  rw [Parse_struct]
  exact Reached_err lib env f _ hf fields hr

/-- C15, at the nested struct of `TestParseStructWithMissingEnvVariableName`. -/
theorem C15_empty_variable_name_witness :
    (Parse rejectingLib emptyEnv (.pointerToStruct
        [.plain "" .int (.int 0),
          .nested "" [.plain ",required" .string (.string "")]])).err =
      some "env variable name cannot be empty" :=
  C15_empty_variable_name rejectingLib emptyEnv "required"
    (.plain ",required" .string (.string "")) _ rfl
    (Reached.inside [.plain "" .int (.int 0)] [.plain ",required" .string (.string "")] [] rfl
      (Reached.here [] [] rfl))

/-- C16: `Parse` on a struct that holds the struct S as an untagged (named or
embedded) struct-valued field produces for that inner S exactly what `Parse`
produces on S at top level from the same contents and under the same
environment: the same field values and the same error.  When S fails, its
error is the error of the whole call; when S resolves, the call goes on with
the fields after it. -/
theorem C16_nested_struct_resolved_as_top_level
    (lib : StdLib) (env : Environ) (inner innerAfter before after : List SField)
    (errS : Option String)
    (hS : Parse lib env (.pointerToStruct inner) = ⟨.pointerToStruct innerAfter, errS⟩)
    (hb : (parseEnv lib env before).err = none) :
    (∀ e, errS = some e →
      Parse lib env (.pointerToStruct (before ++ .nested "" inner :: after)) =
        ⟨.pointerToStruct ((parseEnv lib env before).fields ++
            .nested "" innerAfter :: after), some e⟩) ∧
    (errS = none →
      Parse lib env (.pointerToStruct (before ++ .nested "" inner :: after)) =
        ⟨.pointerToStruct ((parseEnv lib env before).fields ++
            .nested "" innerAfter :: (parseEnv lib env after).fields),
          (parseEnv lib env after).err⟩) := by
  rw [Parse_struct] at hS
  simp only [ParseResult.mk.injEq, Target.pointerToStruct.injEq] at hS
  obtain ⟨h1, h2⟩ := hS
  have hn := parseFieldAt_nested_untagged lib env inner
  rw [h1, h2] at hn
  constructor
  · intro e he
    have hf : (parseFieldAt lib env (.nested "" inner)).2 = some e := by rw [hn, he]
    rw [Parse_struct, parseEnv_append lib env before _ hb,
      parseEnv_cons_err lib env _ after e hf, hn]
  · intro he
    have hf : (parseFieldAt lib env (.nested "" inner)).2 = none := by rw [hn, he]
    rw [Parse_ok_at lib env before after _ hb hf, hn]

/-- C16, at a struct holding `struct { X string "X" }` as an untagged field,
with `X=v`: the inner field holds `v` as it does at top level. -/
theorem C16_nested_struct_resolved_as_top_level_witness :
    Parse rejectingLib (envOf "X" "v") (.pointerToStruct
        [.plain "" .int (.int 1), .nested "" [.plain "X" .string (.string "")]]) =
      ⟨.pointerToStruct
        [.plain "" .int (.int 1), .nested "" [.plain "X" .string (.string "v")]], none⟩ :=
  (C16_nested_struct_resolved_as_top_level rejectingLib (envOf "X" "v")
    [.plain "X" .string (.string "")] [.plain "X" .string (.string "v")]
    [.plain "" .int (.int 1)] [] none rfl rfl).2 rfl

/-- C17: the error `Parse` returns is that of the first failing field in
declaration order, untagged nested structs being visited depth-first at their
position: if a field is reached with every field before it resolving and it
fails, its error is returned, whatever the fields after it are. -/
theorem C17_first_failure_is_returned
    (lib : StdLib) (env : Environ) (f : SField) (e : String)
    (hf : (parseFieldAt lib env f).2 = some e) :
    (∀ fields, Reached lib env f fields →
      (Parse lib env (.pointerToStruct fields)).err = some e) ∧
    (∀ before after after1 : List SField, (parseEnv lib env before).err = none →
      (Parse lib env (.pointerToStruct (before ++ f :: after))).err =
        (Parse lib env (.pointerToStruct (before ++ f :: after1))).err) := by
  constructor
  · intro fields hr
    rw [Parse_struct]
    exact Reached_err lib env f e hf fields hr
  · intro before after after1 hb
    rw [Parse_err_at lib env before after f e hb hf, Parse_err_at lib env before after1 f e hb hf]

/-- C17, at a struct whose second and third fields both fail: the error is
that of the second, which sits in an untagged nested struct. -/
theorem C17_first_failure_is_returned_witness :
    (Parse rejectingLib emptyEnv (.pointerToStruct
        [.plain "A,default=x" .string (.string ""),
          .nested "" [.plain "B,required" .string (.string "")],
          .plain "C,bogus" .string (.string "")])).err =
      some "B: value is required but was empty" :=
  (C17_first_failure_is_returned rejectingLib emptyEnv
    (.plain "B,required" .string (.string "")) "B: value is required but was empty" rfl).1 _
    (Reached.inside [.plain "A,default=x" .string (.string "")]
      [.plain "B,required" .string (.string "")] [.plain "C,bogus" .string (.string "")] rfl
      (Reached.here [] [] rfl))

/-- C18: if `Parse` fails at a field, the fields before it resolving, then
every field before it holds the result of its own resolution (its newly
resolved value when it is tagged), the failing field keeps the value it had (a
field of a slice type included: it is not partially filled), and every field
after it is left as it was.  When the failing field is an untagged nested
struct, the same holds inside it. -/
theorem C18_state_after_failure
    (lib : StdLib) (env : Environ) (before after : List SField) (f : SField) (e : String)
    (hb : (parseEnv lib env before).err = none)
    (hf : (parseFieldAt lib env f).2 = some e) :
    Parse lib env (.pointerToStruct (before ++ f :: after)) =
      ⟨.pointerToStruct ((parseEnv lib env before).fields ++
          (parseFieldAt lib env f).1 :: after), some e⟩ ∧
    List.Forall₂ (fun g g1 => parseFieldAt lib env g = (g1, none)) before
      (parseEnv lib env before).fields ∧
    (∀ tag ty v g1, tag ≠ "" → parseFieldAt lib env (.plain tag ty v) = (g1, none) →
      ∃ w, resolveField lib env tag ty = .ok w ∧ g1 = .plain tag ty w) ∧
    (∀ tag ty v, f = .plain tag ty v → (parseFieldAt lib env f).1 = f) ∧
    (∀ tag inner, f = .nested tag inner → tag ≠ "" → (parseFieldAt lib env f).1 = f) ∧
    (∀ inner, f = .nested "" inner →
      (parseFieldAt lib env f).1 = .nested "" (parseEnv lib env inner).fields ∧
      (parseEnv lib env inner).err = some e) := by
  refine ⟨?_, parseEnv_ok_forall lib env before hb, ?_, ?_, ?_, ?_⟩
  · rw [Parse_struct, parseEnv_append lib env before _ hb,
      parseEnv_cons_err lib env f after e hf]
  · intro tag ty v g1 ht hg
    rw [parseFieldAt_plain_tagged lib env tag ty v ht] at hg
    cases hr : resolveField lib env tag ty with
    | ok w =>
      rw [hr] at hg
      simp only [Prod.mk.injEq, and_true] at hg
      exact ⟨w, rfl, hg.symm⟩
    | error e1 =>
      rw [hr] at hg
      simp at hg
  · intro tag ty v hfe
    subst hfe
    exact parseFieldAt_plain_fst_of_error lib env tag ty v e hf
  · intro tag inner hfe ht
    subst hfe
    exact parseFieldAt_nested_tagged_fst lib env tag inner ht
  · intro inner hfe
    subst hfe
    rw [parseFieldAt_nested_untagged] at hf ⊢
    exact ⟨rfl, hf⟩

/-- C18, at a struct of three fields whose second, a `[]int`, fails on its
second part: the first field holds its new value, the second and the third
keep theirs. -/
theorem C18_state_after_failure_witness :
    Parse rejectingLib (envOf "L" "1,x") (.pointerToStruct
        [.plain "A,default=new" .string (.string "old"),
          .plain "L" (.slice .int) (.ints [7]),
          .plain "C,default=new" .string (.string "old")]) =
      ⟨.pointerToStruct
        [.plain "A,default=new" .string (.string "new"),
          .plain "L" (.slice .int) (.ints [7]),
          .plain "C,default=new" .string (.string "old")],
        some "L: strconv.ParseInt: parsing \"x\": invalid syntax"⟩ :=
  (C18_state_after_failure rejectingLib (envOf "L" "1,x")
    [.plain "A,default=new" .string (.string "old")]
    [.plain "C,default=new" .string (.string "old")]
    (.plain "L" (.slice .int) (.ints [7]))
    "L: strconv.ParseInt: parsing \"x\": invalid syntax" rfl rfl).1

theorem parseTag_error_named (env : Environ) (tag e : String)
    (hn : variableName tag ≠ "") (h : parseTag env tag = .error e) :
    ∃ msg, e = asParseError (variableName tag) msg := by
  unfold variableName at *
  unfold parseTag at h
  split at h
  · rename_i hs
    rw [hs] at hn
    exact absurd rfl hn
  · rename_i name opts hs
    rw [hs] at hn ⊢
    simp only [List.headD_cons] at hn ⊢
    split at h
    · rename_i hl
      exact absurd ((len_eq_zero_iff name).mp hl) hn
    · exact applyOptions_error_named _ _ _ h

/-- C19, as stated, fails: a `uintptr` field tagged `X`, whose variable name is
not empty, makes `Parse` return `Unrecognized type`, which does not begin with
`X: `; a `[]uintptr` field gives `Unrecognized slice type`. -/
theorem C19_nameless_unsupported_type_counterexample :
    (Parse rejectingLib (envOf "X" "abc") (.pointerToStruct
        [.plain "X" .uintptr (.other 0)])).err = some "Unrecognized type" ∧
    (Parse rejectingLib (envOf "X" "abc") (.pointerToStruct
        [.plain "X" (.slice .uintptr) (.other 0)])).err = some "Unrecognized slice type" ∧
    HasPrefix "Unrecognized type" "X: " = false ∧
    HasPrefix "Unrecognized slice type" "X: " = false := by
  refine ⟨?_, ?_, ?_, ?_⟩ <;> decide

/-- C19 (amended): every error `Parse` returns for a field whose tag has a
non-empty variable name is either `<variable_name>: <message>` or one of the
two name-less errors for unsupported types, `Unrecognized type` and
`Unrecognized slice type`. -/
theorem C19_error_format
    (lib : StdLib) (env : Environ) (f : SField) (e : String) (fields : List SField)
    (hn : variableName f.tag ≠ "") (hr : Reached lib env f fields)
    (hf : (parseFieldAt lib env f).2 = some e) :
    (Parse lib env (.pointerToStruct fields)).err = some e ∧
    (e = "Unrecognized type" ∨ e = "Unrecognized slice type" ∨
      ∃ msg, e = variableName f.tag ++ ": " ++ msg) := by
  have ht : f.tag ≠ "" := by
    intro h
    rw [h] at hn
    exact hn (by decide)
  refine ⟨by rw [Parse_struct]; exact Reached_err lib env f e hf fields hr, ?_⟩
  cases f with
  | plain tag ty v =>
    simp only [SField.tag] at ht hn ⊢
    rw [parseFieldAt_plain_tagged lib env tag ty v ht] at hf
    cases hres : resolveField lib env tag ty with
    | ok w => rw [hres] at hf; cases hf
    | error e1 =>
      rw [hres] at hf
      simp only [Option.some.injEq] at hf
      subst hf
      unfold resolveField at hres
      cases hp : parseTag env tag with
      | error e2 =>
        rw [hp] at hres
        cases hres
        exact Or.inr (Or.inr (parseTag_error_named env tag _ hn hp))
      | ok o =>
        rw [hp] at hres
        simp only at hres
        have hname := (parseTag_ok_name env tag o hp).1
        unfold variableName
        rw [← hname]
        exact convert_error_shape lib ty o _ hres
  | nested tag inner =>
    simp only [SField.tag] at ht hn ⊢
    rw [parseFieldAt] at hf
    simp only [ht, if_false] at hf
    cases hp : parseTag env tag with
    | error e2 =>
      rw [hp] at hf
      simp only [Option.some.injEq] at hf
      subst hf
      exact Or.inr (Or.inr (parseTag_error_named env tag _ hn hp))
    | ok o =>
      rw [hp] at hf
      simp only at hf
      have hname := (parseTag_ok_name env tag o hp).1
      unfold variableName
      rw [← hname]
      cases hs : parseSingle lib userStructTypeString .Struct o.envVariableName o.value
          o.aliasType with
      | ok w => rw [hs] at hf; cases hf
      | error e3 =>
        rw [hs] at hf
        simp only [Option.some.injEq] at hf
        subst hf
        rcases parseSingle_error_shape _ _ _ _ _ _ _ hs with h1 | h1
        · exact Or.inl h1
        · exact Or.inr (Or.inr h1)

/-- C19 (amended), at a `bool` field tagged `FLAG` with `FLAG=maybe`. -/
theorem C19_error_format_witness :
    (Parse rejectingLib (envOf "FLAG" "maybe") (.pointerToStruct
        [.plain "FLAG" .bool (.bool false)])).err =
      some "FLAG: strconv.ParseBool: parsing \"maybe\": invalid syntax" :=
  (C19_error_format rejectingLib (envOf "FLAG" "maybe") (.plain "FLAG" .bool (.bool false))
    "FLAG: strconv.ParseBool: parsing \"maybe\": invalid syntax" _ (by decide)
    (Reached.here [] [] rfl) rfl).1

theorem typeString_ne_regexp (t : GoType) : t.typeString ≠ "regexp.Regexp" := by
  cases t with
  | slice e =>
    intro h
    have := congrArg String.data h
    have h1 : ("[]" : String).data = ['[', ']'] := rfl
    have h2 : ("regexp.Regexp" : String).data =
      ['r','e','g','e','x','p','.','R','e','g','e','x','p'] := rfl
    simp [GoType.typeString, String.data_append, h1, h2] at this
  | ptr e =>
    intro h
    have := congrArg String.data h
    have h1 : ("*" : String).data = ['*'] := rfl
    have h2 : ("regexp.Regexp" : String).data =
      ['r','e','g','e','x','p','.','R','e','g','e','x','p'] := rfl
    simp [GoType.typeString, String.data_append, h1, h2] at this
  | _ => simp [GoType.typeString]

theorem ptr_typeString_facts (t : GoType) :
    (GoType.ptr t).typeString ≠ "time.Duration" ∧ (GoType.ptr t).typeString ≠ "time.Time" ∧
    (GoType.ptr t).typeString ≠ "*regexp.Regexp" := by
  have h1 : ("*" : String).data = ['*'] := rfl
  refine ⟨?_, ?_, ?_⟩
  · intro h
    have := congrArg String.data h
    have h2 : ("time.Duration" : String).data =
      ['t','i','m','e','.','D','u','r','a','t','i','o','n'] := rfl
    simp [GoType.typeString, String.data_append, h1, h2] at this
  · intro h
    have := congrArg String.data h
    have h2 : ("time.Time" : String).data = ['t','i','m','e','.','T','i','m','e'] := rfl
    simp [GoType.typeString, String.data_append, h1, h2] at this
  · intro h
    apply typeString_ne_regexp t
    have := congrArg String.data h
    have h2 : ("*regexp.Regexp" : String).data =
      '*' :: ("regexp.Regexp" : String).data := rfl
    simp only [GoType.typeString, String.data_append, h1, h2, List.singleton_append,
      List.cons.injEq, true_and] at this
    exact String.ext this

/-- A type without converter is refused by the conversion, whatever the
options are. -/
theorem convert_no_converter (lib : StdLib) (ty : GoType) (o : Options)
    (h : hasConverter ty = false) :
    convert lib ty o = .error "Unrecognized type" ∨
      convert lib ty o = .error "Unrecognized slice type" := by
  cases ty with
  | slice e =>
    right
    cases e <;> first
      | (simp [hasConverter] at h; done)
      | simp [convert, GoType.kind, parseSlice]
  | ptr e =>
    left
    obtain ⟨h1, h2, h3⟩ := ptr_typeString_facts e
    simp [convert, GoType.kind, parseSingle, h1, h2, h3]
  | _ =>
    first
      | (simp [hasConverter] at h; done)
      | (left; simp [convert, GoType.kind, GoType.typeString, parseSingle])

/-- An annotated field of a type without converter fails and keeps its value. -/
theorem parseFieldAt_no_converter (lib : StdLib) (env : Environ) (tag : String) (ty : GoType)
    (v : Value) (ht : tag ≠ "") (h : hasConverter ty = false) :
    ∃ e, parseFieldAt lib env (.plain tag ty v) = (.plain tag ty v, some e) := by
  rw [parseFieldAt_plain_tagged lib env tag ty v ht]
  unfold resolveField
  cases hp : parseTag env tag with
  | error e => exact ⟨e, rfl⟩
  | ok o =>
    simp only
    rcases convert_no_converter lib ty o h with hc | hc <;> (rw [hc]; exact ⟨_, rfl⟩)

theorem parseFieldAt_nested_tagged_fails (lib : StdLib) (env : Environ) (tag : String)
    (inner : List SField) (ht : tag ≠ "") :
    (parseFieldAt lib env (.nested tag inner)).2 ≠ none := by
  rw [parseFieldAt]
  simp only [ht, if_false]
  cases hp : parseTag env tag with
  | error e => simp
  | ok o => simp [parseSingle, userStructTypeString]

theorem parseEnv_ok_mem (lib : StdLib) (env : Environ) (fs : List SField)
    (h : (parseEnv lib env fs).err = none) :
    ∀ g ∈ fs, (parseFieldAt lib env g).2 = none := by
  induction fs with
  | nil => intro g hg; cases hg
  | cons f rest ih =>
    cases hf : (parseFieldAt lib env f).2 with
    | some e =>
      rw [parseEnv_cons_err lib env f rest e hf] at h
      cases h
    | none =>
      rw [parseEnv_cons_ok lib env f rest hf] at h
      intro g hg
      rcases List.mem_cons.mp hg with hg | hg
      · rw [hg]; exact hf
      · exact ih h g hg

/-- A failing field anywhere in the target makes `parseEnv` fail. -/
theorem Contains_err (lib : StdLib) (env : Environ) (f : SField)
    (hf : (parseFieldAt lib env f).2 ≠ none) (fields : List SField)
    (hc : Contains f fields) : (parseEnv lib env fields).err ≠ none := by
  induction hc with
  | here fields hm =>
    intro h
    exact hf (parseEnv_ok_mem lib env fields h f hm)
  | inside fields tag inner hm _ ih =>
    intro h
    have hn := parseEnv_ok_mem lib env fields h _ hm
    by_cases ht : tag = ""
    · subst ht
      rw [parseFieldAt_nested_untagged] at hn
      exact ih hn
    · exact parseFieldAt_nested_tagged_fails lib env tag inner ht hn

/-- Every field after `parseEnv` is the field before it, as it was or as its
own resolution left it. -/
theorem parseEnv_fields_forall (lib : StdLib) (env : Environ) (fs : List SField) :
    List.Forall₂ (fun g g1 => g1 = g ∨ g1 = (parseFieldAt lib env g).1) fs
      (parseEnv lib env fs).fields := by
  induction fs with
  | nil => simp [parseEnv]
  | cons f rest ih =>
    cases hf : (parseFieldAt lib env f).2 with
    | some e =>
      rw [parseEnv_cons_err lib env f rest e hf]
      refine List.Forall₂.cons (Or.inr rfl) ?_
      exact List.forall₂_same.mpr (fun _ _ => Or.inl rfl)
    | none =>
      rw [parseEnv_cons_ok lib env f rest hf]
      exact List.Forall₂.cons (Or.inr rfl) ih

theorem forall₂_mem_left {α : Type} (R : α → α → Prop) (l l1 : List α)
    (h : List.Forall₂ R l l1) (a : α) (ha : a ∈ l) : ∃ b, b ∈ l1 ∧ R a b := by
  induction h with
  | nil => cases ha
  | cons hr _ ih =>
    rcases List.mem_cons.mp ha with h1 | h1
    · subst h1
      exact ⟨_, List.mem_cons_self _ _, hr⟩
    · obtain ⟨b, hb, hrb⟩ := ih h1
      exact ⟨b, List.mem_cons_of_mem _ hb, hrb⟩

/-- A field that its own resolution leaves as it is still stands, with its
value, in the target after `parseEnv`. -/
theorem Contains_kept (lib : StdLib) (env : Environ) (f : SField)
    (hf : (parseFieldAt lib env f).1 = f) (fields : List SField)
    (hc : Contains f fields) : Contains f (parseEnv lib env fields).fields := by
  induction hc with
  | here fields hm =>
    obtain ⟨b, hb, hrb⟩ := forall₂_mem_left _ _ _ (parseEnv_fields_forall lib env fields) f hm
    have : b = f := by
      rcases hrb with h | h
      · exact h
      · rw [h, hf]
    exact Contains.here _ (this ▸ hb)
  | inside fields tag inner hm hci ih =>
    obtain ⟨b, hb, hrb⟩ := forall₂_mem_left _ _ _ (parseEnv_fields_forall lib env fields) _ hm
    rcases hrb with h | h
    · exact Contains.inside _ tag inner (h ▸ hb) hci
    · by_cases ht : tag = ""
      · subst ht
        rw [parseFieldAt_nested_untagged] at h
        simp only at h
        exact Contains.inside _ "" _ (h ▸ hb) ih
      · rw [parseFieldAt_nested_tagged_fst lib env tag inner ht] at h
        exact Contains.inside _ tag inner (h ▸ hb) hci

/-- C20: for every target that contains, at top level or in a nested struct,
a tagged field whose declared type has no converter (`uintptr`, `[]uintptr`,
`interface{}`, and so on), `Parse` returns an error in every environment, and
the field stands in the target afterwards with the value it had: it is never
assigned.  The field itself fails whenever it is reached. -/
theorem C20_no_converter
    (lib : StdLib) (env : Environ) (tag : String) (ty : GoType) (v : Value)
    (fields : List SField)
    (htag : tag ≠ "") (hty : hasConverter ty = false)
    (hc : Contains (.plain tag ty v) fields) :
    (Parse lib env (.pointerToStruct fields)).err ≠ none ∧
    (∃ fields1, (Parse lib env (.pointerToStruct fields)).target = .pointerToStruct fields1 ∧
      Contains (.plain tag ty v) fields1) ∧
    (∃ e, parseFieldAt lib env (.plain tag ty v) = (.plain tag ty v, some e)) := by
  obtain ⟨e, he⟩ := parseFieldAt_no_converter lib env tag ty v htag hty
  refine ⟨?_, ⟨_, rfl, ?_⟩, ⟨e, he⟩⟩
  · rw [Parse_struct]
    exact Contains_err lib env _ (by rw [he]; simp) fields hc
  · exact Contains_kept lib env _ (by rw [he]) fields hc

/-- C20, at the two structs of `TestParseInvalidType`, passed by pointer. -/
theorem C20_no_converter_witness :
    (Parse rejectingLib (envOf "GO_ENV_TEST_INVALID_TYPE" "abc") (.pointerToStruct
        [.plain "GO_ENV_TEST_INVALID_TYPE" .uintptr (.other 0)])).err ≠ none ∧
    (Parse rejectingLib (envOf "GO_ENV_TEST_INVALID_TYPE" "abc") (.pointerToStruct
        [.plain "GO_ENV_TEST_INVALID_TYPE" (.slice .uintptr) (.other 0)])).err ≠ none :=
  ⟨(C20_no_converter rejectingLib (envOf "GO_ENV_TEST_INVALID_TYPE" "abc")
      "GO_ENV_TEST_INVALID_TYPE" .uintptr (.other 0) _ (by decide) rfl
      (Contains.here _ (List.mem_cons_self _ _))).1,
    (C20_no_converter rejectingLib (envOf "GO_ENV_TEST_INVALID_TYPE" "abc")
      "GO_ENV_TEST_INVALID_TYPE" (.slice .uintptr) (.other 0) _ (by decide) rfl
      (Contains.here _ (List.mem_cons_self _ _))).1⟩

/-! ## Lemmas on `strconv.ParseUint` and `strconv.ParseInt` -/

theorem foldl_digits_ge (bs : List Nat) (n : Nat) :
    n ≤ bs.foldl (fun a b => a * 10 + (b - 48)) n := by
  induction bs generalizing n with
  | nil => exact Nat.le_refl _
  | cons b bs ih =>
    simp only [List.foldl_cons]
    exact Nat.le_trans (by omega) (ih _)

/-- On digits the loop of `ParseUint` returns the value when it fits and a
range error when it does not. -/
theorem parseUintLoop_digits (maxVal : Nat) (hmax : maxVal < 2 ^ 64) (bs : List Nat) (n : Nat)
    (hd : ∀ b ∈ bs, 48 ≤ b ∧ b ≤ 57) (hn : n ≤ maxVal) :
    parseUintLoop maxVal bs n =
      if bs.foldl (fun a b => a * 10 + (b - 48)) n ≤ maxVal then
        .ok (bs.foldl (fun a b => a * 10 + (b - 48)) n)
      else .error .ErrRange := by
  induction bs generalizing n with
  | nil => simp [parseUintLoop, hn]
  | cons c cs ih =>
    have hc := hd c (by simp)
    have hcs : ∀ b ∈ cs, 48 ≤ b ∧ b ≤ 57 := fun b hb => hd b (by simp [hb])
    have hge := foldl_digits_ge cs (n * 10 + (c - 48))
    simp only [List.foldl_cons]
    rw [parseUintLoop]
    simp only [hc, and_self, if_true]
    simp only [Nat.reducePow] at hmax ⊢
    by_cases h1 : n ≥ 18446744073709551615 / 10 + 1
    · have : ¬ (List.foldl (fun a b => a * 10 + (b - 48)) (n * 10 + (c - 48)) cs ≤ maxVal) := by
        omega
      simp [h1, this]
    · have hn10 : n * 10 % 18446744073709551616 = n * 10 := by omega
      simp only [h1, if_false, hn10]
      by_cases h2 : n * 10 + (c - 48) < 18446744073709551616
      · have hm : (n * 10 + (c - 48)) % 18446744073709551616 = n * 10 + (c - 48) := by omega
        rw [hm]
        by_cases h3 : n * 10 + (c - 48) > maxVal
        · have : ¬ (List.foldl (fun a b => a * 10 + (b - 48)) (n * 10 + (c - 48)) cs ≤ maxVal) := by
            omega
          simp [h3, this]
        · have h4 : ¬ (n * 10 + (c - 48) < n * 10 ∨ n * 10 + (c - 48) > maxVal) := by omega
          simp only [h4, if_false]
          exact ih _ hcs (by omega)
      · have h4 : (n * 10 + (c - 48)) % 18446744073709551616 < n * 10 ∨
            (n * 10 + (c - 48)) % 18446744073709551616 > maxVal := by omega
        have : ¬ (List.foldl (fun a b => a * 10 + (b - 48)) (n * 10 + (c - 48)) cs ≤ maxVal) := by
          omega
        simp [h4, this]

/-- The loop of `ParseUint` succeeds on digits only. -/
theorem parseUintLoop_ok_digits (maxVal : Nat) (bs : List Nat) (n m : Nat)
    (h : parseUintLoop maxVal bs n = .ok m) : ∀ b ∈ bs, 48 ≤ b ∧ b ≤ 57 := by
  induction bs generalizing n with
  | nil => intro b hb; cases hb
  | cons c cs ih =>
    rw [parseUintLoop] at h
    by_cases hc : 48 ≤ c ∧ c ≤ 57
    · simp only [hc, and_self, if_true] at h
      split at h
      · cases h
      · split at h
        · cases h
        · intro b hb
          rcases List.mem_cons.mp hb with e | e
          · rw [e]; exact hc
          · exact ih _ h b e
    · simp only [hc, if_false] at h
      cases h

theorem utf8EncodeChar_ascii (c : Char) (h : c.toNat < 0x80) : utf8EncodeChar c = [c.toNat] := by
  simp [utf8EncodeChar, h]

theorem utf8EncodeChar_head (c : Char) :
    ∃ b rest, utf8EncodeChar c = b :: rest ∧ (b < 0x80 → b = c.toNat ∧ rest = []) := by
  unfold utf8EncodeChar
  simp only
  split_ifs with h1 h2 h3
  · exact ⟨_, _, rfl, fun _ => ⟨rfl, rfl⟩⟩
  · exact ⟨_, _, rfl, fun h => by omega⟩
  · exact ⟨_, _, rfl, fun h => by omega⟩
  · exact ⟨_, _, rfl, fun h => by omega⟩

/-- Bytes that are all digits come from characters that are all digits. -/
theorem bytesOf_digits (cs : List Char) (h : ∀ b ∈ bytesOf cs, 48 ≤ b ∧ b ≤ 57) :
    ∀ c ∈ cs, 48 ≤ c.toNat ∧ c.toNat ≤ 57 := by
  induction cs with
  | nil => intro c hc; cases hc
  | cons c cs ih =>
    obtain ⟨b, rest, he, hb⟩ := utf8EncodeChar_head c
    have hb1 := h b (by simp [bytesOf, he])
    have hb2 := hb (by omega)
    intro x hx
    rcases List.mem_cons.mp hx with e | e
    · rw [e, ← hb2.1]; exact hb1
    · exact ih (fun y hy => h y (by simp [bytesOf, hy])) x e

/-- The bytes of digits are their code points. -/
theorem bytesOf_of_digits (cs : List Char) (h : ∀ c ∈ cs, 48 ≤ c.toNat ∧ c.toNat ≤ 57) :
    bytesOf cs = cs.map Char.toNat := by
  induction cs with
  | nil => rfl
  | cons c cs ih =>
    have hc := h c (by simp)
    rw [bytesOf, utf8EncodeChar_ascii c (by omega), ih (fun x hx => h x (by simp [hx]))]
    rfl

theorem foldl_map_toNat (cs : List Char) (n : Nat) :
    (cs.map Char.toNat).foldl (fun a b => a * 10 + (b - 48)) n =
      cs.foldl (fun a c => a * 10 + (c.toNat - 48)) n := by
  induction cs generalizing n with
  | nil => rfl
  | cons c cs ih => simp only [List.map_cons, List.foldl_cons, ih]

theorem bytesOf_eq_nil (cs : List Char) : bytesOf cs = [] ↔ cs = [] := by
  cases cs with
  | nil => simp [bytesOf]
  | cons c cs => simp [bytesOf, utf8EncodeChar_ne_nil c]

/-- `parseUintBytes` on the bytes of a run of digits. -/
theorem parseUintBytes_decimal (cs : List Char) (w : Nat) (hw : w ≤ 64) (h : isDecimal cs) :
    parseUintBytes (bytesOf cs) w =
      if decimalValue cs < 2 ^ w then .ok (decimalValue cs) else .error .ErrRange := by
  obtain ⟨hne, hd⟩ := h
  have hpos : 0 < 2 ^ w := Nat.two_pow_pos w
  have hle : 2 ^ w ≤ 2 ^ 64 := Nat.pow_le_pow_right (by decide) hw
  have hb := bytesOf_of_digits cs hd
  have he : (bytesOf cs).isEmpty = false := by
    cases hbs : bytesOf cs with
    | nil => exact absurd ((bytesOf_eq_nil cs).mp hbs) hne
    | cons x xs => rfl
  unfold parseUintBytes
  rw [he]
  simp only [Bool.false_eq_true, if_false]
  rw [parseUintLoop_digits (2 ^ w - 1) (by omega) (bytesOf cs) 0
    (by rw [hb]; intro b hbm; obtain ⟨c, hc, rfl⟩ := List.mem_map.mp hbm; exact hd c hc)
    (Nat.zero_le _), hb, foldl_map_toNat]
  unfold decimalValue
  by_cases hlt : List.foldl (fun n c => n * 10 + (c.toNat - 48)) 0 cs < 2 ^ w
  · have : List.foldl (fun n c => n * 10 + (c.toNat - 48)) 0 cs ≤ 2 ^ w - 1 := by omega
    simp [hlt, this]
  · have : ¬ List.foldl (fun n c => n * 10 + (c.toNat - 48)) 0 cs ≤ 2 ^ w - 1 := by omega
    simp [hlt, this]

/-- `parseUintBytes` succeeds on runs of digits only. -/
theorem parseUintBytes_ok_decimal (cs : List Char) (w m : Nat)
    (h : parseUintBytes (bytesOf cs) w = .ok m) : isDecimal cs := by
  unfold parseUintBytes at h
  split at h
  · cases h
  · rename_i he
    refine ⟨?_, bytesOf_digits cs (parseUintLoop_ok_digits _ _ _ _ h)⟩
    intro e
    rw [e] at he
    exact he rfl

theorem ParseUint_decimal (lib : StdLib) (s : String) (w : Nat) (hw : w ≤ 64)
    (h : isDecimal s.data) (hr : decimalValue s.data < 2 ^ w) :
    ParseUint lib s w = .ok (decimalValue s.data) := by
  simp [ParseUint, goBytes, parseUintBytes_decimal s.data w hw h, hr]

theorem ParseUint_out_of_range (lib : StdLib) (s : String) (w : Nat) (hw : w ≤ 64)
    (h : isDecimal s.data) (hr : ¬ decimalValue s.data < 2 ^ w) :
    ParseUint lib s w = .error (numError lib "ParseUint" s .ErrRange) := by
  simp [ParseUint, goBytes, parseUintBytes_decimal s.data w hw h, hr]

theorem ParseUint_ok (lib : StdLib) (s : String) (w n : Nat) (hw : w ≤ 64)
    (h : ParseUint lib s w = .ok n) :
    isDecimal s.data ∧ decimalValue s.data = n ∧ n < 2 ^ w := by
  unfold ParseUint goBytes at h
  cases hp : parseUintBytes (bytesOf s.data) w with
  | error e => rw [hp] at h; cases h
  | ok m =>
    rw [hp] at h
    simp only [Except.ok.injEq] at h
    subst h
    have hd := parseUintBytes_ok_decimal s.data w m hp
    rw [parseUintBytes_decimal s.data w hw hd] at hp
    split at hp
    · rename_i hlt
      simp only [Except.ok.injEq] at hp
      exact ⟨hd, hp, hp ▸ hlt⟩
    · cases hp

theorem ParseUint_not_decimal (lib : StdLib) (s : String) (w : Nat) (hw : w ≤ 64)
    (h : ¬ (isDecimal s.data ∧ decimalValue s.data < 2 ^ w)) :
    ∃ e, ParseUint lib s w = .error e := by
  cases hp : ParseUint lib s w with
  | error e => exact ⟨e, rfl⟩
  | ok n =>
    obtain ⟨h1, h2, h3⟩ := ParseUint_ok lib s w n hw hp
    exact absurd ⟨h1, h2 ▸ h3⟩ h

theorem two_pow_pred (w : Nat) (hw : 2 ≤ w) : 2 ^ w = 2 * 2 ^ (w - 1) ∧ 2 ≤ 2 ^ (w - 1) := by
  obtain ⟨k, rfl⟩ : ∃ k, w = k + 2 := ⟨w - 2, by omega⟩
  have h1 : k + 2 - 1 = k + 1 := by omega
  rw [h1]
  have hk : 0 < 2 ^ k := Nat.two_pow_pos k
  have e1 : 2 ^ (k + 2) = 2 ^ (k + 1) * 2 := Nat.pow_succ 2 (k + 1)
  have e2 : 2 ^ (k + 1) = 2 ^ k * 2 := Nat.pow_succ 2 k
  exact ⟨by omega, by omega⟩

/-- The head byte of the bytes of a string whose first character is not a
sign is not the byte of a sign. -/
theorem head_not_sign (c : Char) (cs : List Char) (hp : c ≠ '+') (hm : c ≠ '-') :
    (bytesOf (c :: cs)).headD 0 ≠ 43 ∧ (bytesOf (c :: cs)).headD 0 ≠ 45 := by
  obtain ⟨b, rest, he, hb⟩ := utf8EncodeChar_head c
  have hne : ∀ k : Nat, k < 0x80 → c.toNat = k → c = Char.ofNat k := by
    intro k _ hk
    rw [← hk, Char.ofNat_toNat]
  simp only [bytesOf, he, List.cons_append, List.headD_cons]
  constructor
  · intro e
    have := hb (by omega)
    exact hp (hne 43 (by decide) (by omega))
  · intro e
    have := hb (by omega)
    exact hm (hne 45 (by decide) (by omega))

/-- What `ParseInt` does once the sign has been taken off: `neg` tells a
leading `-`, `ds` is the text after the sign. -/
theorem ParseInt_split (lib : StdLib) (s : String) (w : Nat) (neg : Bool) (ds : List Char)
    (hs : s.data = '+' :: ds ∧ neg = false ∨ s.data = '-' :: ds ∧ neg = true ∨
      (s.data = ds ∧ neg = false ∧ ∃ c cs, ds = c :: cs ∧ c ≠ '+' ∧ c ≠ '-')) :
    ParseInt lib s w =
      match parseUintBytes (bytesOf ds) w with
      | .error .ErrSyntax => .error (numError lib "ParseInt" s .ErrSyntax)
      | r =>
        let un := match r with
          | .ok n => n
          | .error _ => 2 ^ w - 1
        if !neg ∧ un ≥ 2 ^ (w - 1) then .error (numError lib "ParseInt" s .ErrRange)
        else if neg ∧ un > 2 ^ (w - 1) then .error (numError lib "ParseInt" s .ErrRange)
        else .ok (if neg then -(un : Int) else (un : Int)) := by
  have hplus : utf8EncodeChar '+' = [43] := by decide
  have hminus : utf8EncodeChar '-' = [45] := by decide
  rcases hs with ⟨h, hn⟩ | ⟨h, hn⟩ | ⟨h, hn, c, cs, hd, hp, hm⟩
  · subst hn
    simp [ParseInt, goBytes, h, bytesOf, hplus]
  · subst hn
    simp [ParseInt, goBytes, h, bytesOf, hminus]
  · subst hn
    obtain ⟨h1, h2⟩ := head_not_sign c cs hp hm
    have hne : (bytesOf (c :: cs)).isEmpty = false := by
      cases hb : bytesOf (c :: cs) with
      | nil => exact absurd ((bytesOf_eq_nil _).mp hb) (by simp)
      | cons x xs => rfl
    subst hd
    have h3 : (bytesOf (c :: cs)).head?.getD 0 ≠ 43 := by
      rw [← List.headD_eq_head?_getD]; exact h1
    have h4 : (bytesOf (c :: cs)).head?.getD 0 ≠ 45 := by
      rw [← List.headD_eq_head?_getD]; exact h2
    simp [ParseInt, goBytes, h, hne, h3, h4]

theorem isDecimal_head (ds : List Char) (h : isDecimal ds) :
    ∃ c cs, ds = c :: cs ∧ c ≠ '+' ∧ c ≠ '-' := by
  obtain ⟨hne, hd⟩ := h
  cases ds with
  | nil => exact absurd rfl hne
  | cons c cs =>
    have hc := hd c (by simp)
    refine ⟨c, cs, rfl, ?_, ?_⟩
    · intro e
      rw [e] at hc
      revert hc
      decide
    · intro e
      rw [e] at hc
      revert hc
      decide

theorem two_pow_int (w : Nat) (hw : 2 ≤ w) :
    ((2 ^ w : Nat) : Int) = (2 : Int) ^ w ∧
    ((2 ^ (w - 1) : Nat) : Int) = (2 : Int) ^ (w - 1) ∧
    (2 : Int) ^ w = 2 * (2 : Int) ^ (w - 1) ∧ (2 : Int) ≤ (2 : Int) ^ (w - 1) := by
  obtain ⟨h1, h2⟩ := two_pow_pred w hw
  have c1 : ((2 ^ w : Nat) : Int) = (2 : Int) ^ w := by norm_cast
  have c2 : ((2 ^ (w - 1) : Nat) : Int) = (2 : Int) ^ (w - 1) := by norm_cast
  refine ⟨c1, c2, ?_, ?_⟩
  · rw [← c1, ← c2]; omega
  · rw [← c2]; omega

/-- `ParseInt` accepts a signed literal whose value is in range and returns
its value. -/
theorem ParseInt_literal (lib : StdLib) (s : String) (w : Nat) (i : Int)
    (hw2 : 2 ≤ w) (hw : w ≤ 64) (hl : signedLiteral s.data i)
    (hlo : -(2 : Int) ^ (w - 1) ≤ i) (hhi : i < (2 : Int) ^ (w - 1)) :
    ParseInt lib s w = .ok i := by
  obtain ⟨c1, c2, hp1, hp2⟩ := two_pow_int w hw2
  rcases hl with ⟨hd, hi⟩ | ⟨ds, hs, hd, hi⟩ | ⟨ds, hs, hd, hi⟩
  · have hv : decimalValue s.data < 2 ^ w := by omega
    have hnot : ¬ ((2 : Int) ^ (w - 1) ≤ (decimalValue s.data : Int)) := by omega
    rw [ParseInt_split lib s w false s.data (Or.inr (Or.inr ⟨rfl, rfl, isDecimal_head _ hd⟩)),
      parseUintBytes_decimal s.data w hw hd]
    simp [hv, hnot, hi]
  · have hv : decimalValue ds < 2 ^ w := by omega
    have hnot : ¬ ((2 : Int) ^ (w - 1) ≤ (decimalValue ds : Int)) := by omega
    rw [ParseInt_split lib s w false ds (Or.inl ⟨hs, rfl⟩),
      parseUintBytes_decimal ds w hw hd]
    simp [hv, hnot, hi]
  · have hv : decimalValue ds < 2 ^ w := by omega
    have hnot : ¬ ((2 : Int) ^ (w - 1) < (decimalValue ds : Int)) := by omega
    rw [ParseInt_split lib s w true ds (Or.inr (Or.inl ⟨hs, rfl⟩)),
      parseUintBytes_decimal ds w hw hd]
    simp [hv, hnot, hi]

theorem ParseInt_core_ok (lib : StdLib) (s : String) (w : Nat) (neg : Bool) (ds : List Char)
    (i : Int) (hw2 : 2 ≤ w) (hw : w ≤ 64)
    (h : (match parseUintBytes (bytesOf ds) w with
      | .error .ErrSyntax => .error (numError lib "ParseInt" s .ErrSyntax)
      | r =>
        let un := match r with
          | .ok n => n
          | .error _ => 2 ^ w - 1
        if !neg ∧ un ≥ 2 ^ (w - 1) then .error (numError lib "ParseInt" s .ErrRange)
        else if neg ∧ un > 2 ^ (w - 1) then .error (numError lib "ParseInt" s .ErrRange)
        else .ok (if neg then -(un : Int) else (un : Int))) = (.ok i : Except String Int)) :
    isDecimal ds ∧ i = (if neg then -(decimalValue ds : Int) else (decimalValue ds : Int)) ∧
      -(2 : Int) ^ (w - 1) ≤ i ∧ i < (2 : Int) ^ (w - 1) := by
  obtain ⟨c1, c2, hp1, hp2⟩ := two_pow_int w hw2
  cases hp : parseUintBytes (bytesOf ds) w with
  | error e =>
    rw [hp] at h
    cases e with
    | ErrSyntax => simp at h
    | ErrRange =>
      have h1 : (2 : Int) ^ (w - 1) ≤ 2 ^ w - 1 := by omega
      have h2 : (2 : Int) ^ (w - 1) < 2 ^ w - 1 := by omega
      cases neg <;> simp [h1, h2] at h
  | ok un =>
    rw [hp] at h
    have hd := parseUintBytes_ok_decimal ds w un hp
    rw [parseUintBytes_decimal ds w hw hd] at hp
    have hun : decimalValue ds = un := by
      split at hp
      · simpa using hp
      · cases hp
    subst hun
    cases neg with
    | false =>
      simp only [Bool.not_false, true_and, Bool.false_eq_true, false_and, if_false] at h
      split at h
      · cases h
      · simp only [Except.ok.injEq] at h
        refine ⟨hd, by simp [h], ?_, ?_⟩ <;> omega
    | true =>
      simp only [Bool.not_true, Bool.false_eq_true, false_and, if_false, true_and, if_true] at h
      split at h
      · cases h
      · simp only [Except.ok.injEq] at h
        refine ⟨hd, by simp [h], ?_, ?_⟩ <;> omega

/-- `ParseInt` succeeds only on a signed literal whose value is in range. -/
theorem ParseInt_ok (lib : StdLib) (s : String) (w : Nat) (i : Int)
    (hw2 : 2 ≤ w) (hw : w ≤ 64) (h : ParseInt lib s w = .ok i) :
    signedLiteral s.data i ∧ -(2 : Int) ^ (w - 1) ≤ i ∧ i < (2 : Int) ^ (w - 1) := by
  cases hs : s.data with
  | nil =>
    simp [ParseInt, goBytes, hs, bytesOf] at h
  | cons c cs =>
    by_cases hp : c = '+'
    · subst hp
      rw [ParseInt_split lib s w false cs (Or.inl ⟨hs, rfl⟩)] at h
      obtain ⟨hd, hi, hr⟩ := ParseInt_core_ok lib s w false cs i hw2 hw h
      exact ⟨Or.inr (Or.inl ⟨cs, rfl, hd, by simpa using hi⟩), hr⟩
    · by_cases hm : c = '-'
      · subst hm
        rw [ParseInt_split lib s w true cs (Or.inr (Or.inl ⟨hs, rfl⟩))] at h
        obtain ⟨hd, hi, hr⟩ := ParseInt_core_ok lib s w true cs i hw2 hw h
        exact ⟨Or.inr (Or.inr ⟨cs, rfl, hd, by simpa using hi⟩), hr⟩
      · rw [ParseInt_split lib s w false (c :: cs)
          (Or.inr (Or.inr ⟨hs, rfl, c, cs, rfl, hp, hm⟩))] at h
        obtain ⟨hd, hi, hr⟩ := ParseInt_core_ok lib s w false (c :: cs) i hw2 hw h
        exact ⟨Or.inl ⟨hd, by simpa using hi⟩, hr⟩

/-! ## Lemmas on `strconv.FormatUint`, `strconv.FormatInt` and `strings.Join` -/

theorem digitChar_toNat (d : Nat) (h : d < 10) : (digitChar d).toNat = 48 + d := by
  interval_cases d <;> rfl

theorem formatLoop_digits (fuel u : Nat) (acc : List Char)
    (h : ∀ c ∈ acc, 48 ≤ c.toNat ∧ c.toNat ≤ 57) :
    ∀ c ∈ formatLoop fuel u acc, 48 ≤ c.toNat ∧ c.toNat ≤ 57 := by
  induction fuel generalizing u acc with
  | zero => exact h
  | succ n ih =>
    rw [formatLoop]
    split
    · rename_i hu
      intro c hc
      rcases List.mem_cons.mp hc with e | e
      · rw [e, digitChar_toNat u hu]; omega
      · exact h c e
    · apply ih
      intro c hc
      rcases List.mem_cons.mp hc with e | e
      · rw [e, digitChar_toNat (u % 10) (Nat.mod_lt _ (by decide))]; omega
      · exact h c e

theorem formatLoop_ne_nil (fuel u : Nat) (acc : List Char) :
    formatLoop (fuel + 1) u acc ≠ [] := by
  induction fuel generalizing u acc with
  | zero =>
    rw [formatLoop]
    split
    · simp
    · simp [formatLoop]
  | succ n ih =>
    rw [formatLoop]
    split
    · simp
    · exact ih _ _

theorem formatLoop_value (fuel u : Nat) (acc : List Char) (h : u < 10 ^ fuel) :
    (formatLoop fuel u acc).foldl (fun n c => n * 10 + (c.toNat - 48)) 0 =
      acc.foldl (fun n c => n * 10 + (c.toNat - 48)) u := by
  induction fuel generalizing u acc with
  | zero =>
    have : u = 0 := by simpa using h
    subst this
    rfl
  | succ n ih =>
    rw [formatLoop]
    split
    · rename_i hu
      simp only [List.foldl_cons, digitChar_toNat u hu]
      congr 1
      omega
    · have hlt : u / 10 < 10 ^ n := by
        rw [Nat.pow_succ] at h
        exact Nat.div_lt_of_lt_mul (by omega)
      rw [ih (u / 10) _ hlt]
      simp only [List.foldl_cons, digitChar_toNat (u % 10) (Nat.mod_lt _ (by decide))]
      congr 1
      omega

/-- The rendering of a `uint64` is a run of digits that denotes it. -/
theorem FormatUint_decimal (u : Nat) (h : u < 2 ^ 64) :
    isDecimal (FormatUint u).data ∧ decimalValue (FormatUint u).data = u := by
  have h20 : u < 10 ^ 20 := Nat.lt_trans h (by norm_num)
  refine ⟨⟨formatLoop_ne_nil 19 u [], formatLoop_digits 20 u [] (by simp)⟩, ?_⟩
  unfold decimalValue FormatUint
  rw [formatLoop_value 20 u [] h20]
  rfl

/-- The rendering of an `int64` is a signed literal that denotes it. -/
theorem FormatInt_literal (i : Int) (hlo : -(2 : Int) ^ 63 ≤ i) (hhi : i < (2 : Int) ^ 63) :
    signedLiteral (FormatInt i).data i := by
  unfold FormatInt
  have e63 : (2 : Int) ^ 63 = 9223372036854775808 := by norm_num
  have e64 : (2 : Nat) ^ 64 = 18446744073709551616 := by norm_num
  by_cases hneg : i < 0
  · simp only [hneg, if_true]
    obtain ⟨hd, hv⟩ := FormatUint_decimal (-i).toNat (by omega)
    refine Or.inr (Or.inr ⟨(FormatUint (-i).toNat).data, ?_, hd, ?_⟩)
    · have hm : ("-" : String).data = ['-'] := rfl
      simp [String.data_append, hm]
    · rw [hv]; omega
  · simp only [hneg, if_false]
    obtain ⟨hd, hv⟩ := FormatUint_decimal i.toNat (by omega)
    exact Or.inl ⟨hd, by rw [hv]; omega⟩

/-- The characters of a rendering are digits and the sign `-`. -/
theorem FormatInt_chars (i : Int) :
    ∀ c ∈ (FormatInt i).data, c = '-' ∨ (48 ≤ c.toNat ∧ c.toNat ≤ 57) := by
  unfold FormatInt
  have hu : ∀ u, ∀ c ∈ (FormatUint u).data, 48 ≤ c.toNat ∧ c.toNat ≤ 57 :=
    fun u => formatLoop_digits 20 u [] (by simp)
  split
  · intro c hc
    have hm : ("-" : String).data = ['-'] := rfl
    simp only [String.data_append, hm, List.singleton_append, List.mem_cons] at hc
    rcases hc with e | e
    · exact Or.inl e
    · exact Or.inr (hu _ c e)
  · intro c hc
    exact Or.inr (hu _ c hc)

theorem FormatUint_chars (u : Nat) :
    ∀ c ∈ (FormatUint u).data, 48 ≤ c.toNat ∧ c.toNat ≤ 57 :=
  formatLoop_digits 20 u [] (by simp)

theorem Join_cons_cons (a b : String) (rest : List String) (sep : String) :
    Join (a :: b :: rest) sep = a ++ sep ++ Join (b :: rest) sep := rfl

theorem splitLoop_Join (c : Char) (parts : List String) (hne : parts ≠ [])
    (hc : ∀ p ∈ parts, c ∉ p.data) (n : Nat) (hn : parts.length ≤ n + 1) :
    (splitLoop [c] n (Join parts (String.mk [c])).data).map String.mk = parts := by
  induction parts generalizing n with
  | nil => exact absurd rfl hne
  | cons t ts ih =>
    cases ts with
    | nil =>
      have ht : c ∉ t.data := hc t (by simp)
      cases n with
      | zero => simp [Join, splitLoop]
      | succ m => simp [Join, splitLoop, cut_single_absent _ _ ht]
    | cons u us =>
      have ht : c ∉ t.data := hc t (by simp)
      cases n with
      | zero => simp at hn
      | succ m =>
        have ih1 := ih (by simp) (fun x hx => hc x (by simp [hx])) m (by simpa using hn)
        rw [Join_cons_cons]
        simp only [String.data_append, List.append_assoc, List.singleton_append,
          splitLoop, cut_single_first _ _ _ ht, List.map_cons, ih1]

theorem Join_length (parts : List String) (sep : String) (hs : sep.data ≠ []) :
    parts.length ≤ (Join parts sep).data.length + 1 := by
  induction parts with
  | nil => simp
  | cons t ts ih =>
    cases ts with
    | nil => simp
    | cons u us =>
      rw [Join_cons_cons]
      have : 0 < sep.data.length := List.length_pos.mpr hs
      simp only [String.data_append, List.length_append, List.length_cons] at ih ⊢
      omega

/-- Splitting what was joined on a one-character separator gives the parts
back, when no part holds the separator. -/
theorem Split_Join_char (c : Char) (parts : List String) (hne : parts ≠ [])
    (hc : ∀ p ∈ parts, c ∉ p.data) :
    Split (Join parts (String.mk [c])) (String.mk [c]) = parts := by
  unfold Split
  simp only [List.isEmpty_cons, Bool.false_eq_true, if_false]
  exact splitLoop_Join c parts hne hc _ (Join_length parts _ (by simp))

theorem parseElems_map_ok {α : Type} (name : String) (conv : String → Except String α)
    (render : α → String) (vs : List α) (h : ∀ v ∈ vs, conv (render v) = .ok v) :
    parseElems name conv (vs.map render) = .ok vs := by
  induction vs with
  | nil => rfl
  | cons v vs ih =>
    simp only [List.map_cons, parseElems, h v (by simp),
      ih (fun x hx => h x (by simp [hx]))]

theorem convert_slice_unsigned (lib : StdLib) (elem : GoType) (w : Nat) (name raw sep : String)
    (h : unsignedWidth elem = some w) :
    convert lib (.slice elem) ⟨name, raw, sep, ""⟩ =
      (parseElems name (fun d => ParseUint lib d w) (Split raw sep)).map Value.uints := by
  cases elem <;> simp [unsignedWidth] at h <;> subst h <;>
    simp [convert, GoType.kind, parseSlice, constAliasTypeByte]

theorem convert_slice_signed (lib : StdLib) (elem : GoType) (w : Nat) (name raw sep : String)
    (h : signedWidth elem = some w) :
    convert lib (.slice elem) ⟨name, raw, sep, ""⟩ =
      (parseElems name (fun d => ParseInt lib d w) (Split raw sep)).map Value.ints := by
  cases elem <;> simp [signedWidth] at h <;> subst h <;>
    simp [convert, GoType.kind, parseSlice, constAliasTypeRune]

theorem convert_slice_string (lib : StdLib) (name raw sep al : String) :
    convert lib (.slice .string) ⟨name, raw, sep, al⟩ = .ok (.strings (Split raw sep)) := by
  simp [convert, GoType.kind, parseSlice]

/-- Resolution of a field tagged `NAME,separator=S`. -/
theorem resolveField_separator (lib : StdLib) (env : Environ) (name sep : String)
    (ty : GoType) (hname : name ≠ "") (hcn : commaFree name) (hsep : sep ≠ "")
    (hcs : commaFree sep) :
    resolveField lib env (tagOf [name, "separator=" ++ sep]) ty =
      convert lib ty ⟨name, env name, sep, ""⟩ := by
  rw [resolveField_tagOf lib env name _ ty hname hcn
      (commaFree_mem_one _ (commaFree_separator sep hcs)),
    applyOptions_cons_ok _ _ _ _ (applyOption_separator _ sep hsep)]
  rfl

/-! ## Quoting of plain text, values out of range -/

theorem escapeRune_plain (lib : StdLib) (c : Char)
    (h : 0x20 ≤ c.toNat ∧ c.toNat < 0x7F ∧ c ≠ '"' ∧ c ≠ '\\') :
    escapeRune lib c = [c] := by
  obtain ⟨h1, h2, h3, h4⟩ := h
  have hp : IsPrint lib c.toNat = true := by
    unfold IsPrint
    have : c.toNat ≤ 0xFF := by omega
    simp [this, h1, h2]
  simp [escapeRune, h3, h4, hp]

theorem escapeAll_plain (lib : StdLib) (cs : List Char)
    (h : ∀ c ∈ cs, 0x20 ≤ c.toNat ∧ c.toNat < 0x7F ∧ c ≠ '"' ∧ c ≠ '\\') :
    escapeAll lib cs = cs := by
  induction cs with
  | nil => rfl
  | cons c cs ih =>
    simp only [escapeAll, escapeRune_plain lib c (h c (by simp)),
      ih (fun x hx => h x (by simp [hx]))]
    rfl

theorem Quote_plain (lib : StdLib) (s : String) (h : plainText s) :
    Quote lib s = "\"" ++ s ++ "\"" := by
  unfold Quote
  rw [escapeAll_plain lib s.data h]
  apply String.ext
  simp

theorem ParseInt_out_of_range (lib : StdLib) (s : String) (w : Nat) (i : Int)
    (hw2 : 2 ≤ w) (hw : w ≤ 64) (hl : signedLiteral s.data i)
    (hout : i < -(2 : Int) ^ (w - 1) ∨ (2 : Int) ^ (w - 1) ≤ i) :
    ParseInt lib s w = .error (numError lib "ParseInt" s .ErrRange) := by
  obtain ⟨c1, c2, hp1, hp2⟩ := two_pow_int w hw2
  obtain ⟨n1, n2⟩ := two_pow_pred w hw2
  rcases hl with ⟨hd, hi⟩ | ⟨ds, hs, hd, hi⟩ | ⟨ds, hs, hd, hi⟩
  · have hge : (2 : Int) ^ (w - 1) ≤ (decimalValue s.data : Int) := by omega
    rw [ParseInt_split lib s w false s.data (Or.inr (Or.inr ⟨rfl, rfl, isDecimal_head _ hd⟩)),
      parseUintBytes_decimal s.data w hw hd]
    by_cases hv : decimalValue s.data < 2 ^ w
    · simp [hv, hge]
    · have h2 : (2 : Int) ^ (w - 1) ≤ (2 : Int) ^ w - 1 := by omega
      simp [hv, h2]
  · have hge : (2 : Int) ^ (w - 1) ≤ (decimalValue ds : Int) := by omega
    rw [ParseInt_split lib s w false ds (Or.inl ⟨hs, rfl⟩),
      parseUintBytes_decimal ds w hw hd]
    by_cases hv : decimalValue ds < 2 ^ w
    · simp [hv, hge]
    · have h2 : (2 : Int) ^ (w - 1) ≤ (2 : Int) ^ w - 1 := by omega
      simp [hv, h2]
  · have hgt : (2 : Int) ^ (w - 1) < (decimalValue ds : Int) := by omega
    rw [ParseInt_split lib s w true ds (Or.inr (Or.inl ⟨hs, rfl⟩)),
      parseUintBytes_decimal ds w hw hd]
    by_cases hv : decimalValue ds < 2 ^ w
    · simp [hv, hgt]
    · have h2 : (2 : Int) ^ (w - 1) < (2 : Int) ^ w - 1 := by omega
      simp [hv, h2]

theorem plainText_digits (s : String)
    (h : ∀ c ∈ s.data, c = '-' ∨ (48 ≤ c.toNat ∧ c.toNat ≤ 57)) : plainText s := by
  intro c hc
  rcases h c hc with h1 | ⟨h1, h2⟩
  · subst h1; decide
  · refine ⟨by omega, by omega, ?_, ?_⟩ <;> (intro e; subst e; revert h1 h2; decide)

theorem range_message (lib : StdLib) (name fn s : String) (hs : plainText s) :
    asParseError name (numError lib fn s .ErrRange) =
      name ++ ": strconv." ++ fn ++ ": parsing \"" ++ s ++ "\": value out of range" := by
  simp only [asParseError, numError, NumErr.text, Quote_plain lib s hs]
  apply String.ext
  simp [String.data_append]

/-! ## Integers: parsing, round trips -/

theorem convert_unsigned (lib : StdLib) (ty : GoType) (w : Nat) (name raw sep : String)
    (h : unsignedWidth ty = some w) :
    convert lib ty ⟨name, raw, sep, ""⟩ =
      match ParseUint lib raw w with
      | .error e => .error (asParseError name e)
      | .ok n => .ok (.uint n) := by
  cases ty <;> simp [unsignedWidth] at h <;> subst h <;>
    simp [convert, GoType.kind, GoType.typeString, parseSingle, bitSizeOf, constAliasTypeByte]

theorem convert_signed (lib : StdLib) (ty : GoType) (w : Nat) (name raw sep : String)
    (h : signedWidth ty = some w) :
    convert lib ty ⟨name, raw, sep, ""⟩ =
      match ParseInt lib raw w with
      | .error e => .error (asParseError name e)
      | .ok i => .ok (.int i) := by
  cases ty <;> simp [signedWidth] at h <;> subst h <;>
    simp [convert, GoType.kind, GoType.typeString, parseSingle, bitSizeOf, constAliasTypeRune,
      constAliasTypeByte]

theorem unsignedWidth_bounds (ty : GoType) (w : Nat) (h : unsignedWidth ty = some w) :
    2 ≤ w ∧ w ≤ 64 := by
  cases ty <;> simp [unsignedWidth] at h <;> subst h <;> decide

theorem signedWidth_bounds (ty : GoType) (w : Nat) (h : signedWidth ty = some w) :
    2 ≤ w ∧ w ≤ 64 := by
  cases ty <;> simp [signedWidth] at h <;> subst h <;> decide

/-- C21: for an integer scalar field tagged `NAME`, parsed with width w (the
declared width, 32 for `int` and `uint`): an unsigned field resolves exactly
when the raw value is a non-empty run of decimal digits whose value is below
2^w, a signed field exactly when it is such a run with an optional sign and
its value lies in [-2^(w-1), 2^(w-1)); the field then holds exactly that
value, and every other raw value, a literal out of range included, is an
error. -/
theorem C21_integer_scalars
    (lib : StdLib) (env : Environ) (name : String) (ty : GoType)
    (hname : name ≠ "") (hcn : commaFree name) :
    (∀ w, unsignedWidth ty = some w →
      (isDecimal (env name).data → decimalValue (env name).data < 2 ^ w →
        resolveField lib env (tagOf [name]) ty = .ok (.uint (decimalValue (env name).data))) ∧
      (¬ (isDecimal (env name).data ∧ decimalValue (env name).data < 2 ^ w) →
        ∃ e, resolveField lib env (tagOf [name]) ty = .error e)) ∧
    (∀ w, signedWidth ty = some w →
      (∀ i, signedLiteral (env name).data i → -(2 : Int) ^ (w - 1) ≤ i →
        i < (2 : Int) ^ (w - 1) →
        resolveField lib env (tagOf [name]) ty = .ok (.int i)) ∧
      ((¬ ∃ i, signedLiteral (env name).data i ∧ -(2 : Int) ^ (w - 1) ≤ i ∧
          i < (2 : Int) ^ (w - 1)) →
        ∃ e, resolveField lib env (tagOf [name]) ty = .error e)) := by
  rw [resolveField_bare lib env name ty hname hcn]
  constructor
  · intro w hw
    obtain ⟨_, hw64⟩ := unsignedWidth_bounds ty w hw
    rw [convert_unsigned lib ty w name _ _ hw]
    constructor
    · intro hd hr
      rw [ParseUint_decimal lib _ w hw64 hd hr]
    · intro hnot
      obtain ⟨e, he⟩ := ParseUint_not_decimal lib _ w hw64 hnot
      rw [he]
      exact ⟨_, rfl⟩
  · intro w hw
    obtain ⟨hw2, hw64⟩ := signedWidth_bounds ty w hw
    rw [convert_signed lib ty w name _ _ hw]
    constructor
    · intro i hl hlo hhi
      rw [ParseInt_literal lib _ w i hw2 hw64 hl hlo hhi]
    · intro hnot
      cases hp : ParseInt lib (env name) w with
      | error e => exact ⟨_, rfl⟩
      | ok i =>
        exact absurd ⟨i, ParseInt_ok lib _ w i hw2 hw64 hp⟩ hnot

/-- C21, at an `int8` field tagged `N` with `N=-128`. -/
theorem C21_integer_scalars_witness :
    resolveField rejectingLib (envOf "N" "-128") "N" .int8 = .ok (.int (-128)) :=
  ((C21_integer_scalars rejectingLib (envOf "N" "-128") "N" .int8 (by decide)
    (by decide)).2 8 rfl).1 (-128)
    (Or.inr (Or.inr ⟨['1', '2', '8'], rfl, by decide, by decide⟩)) (by decide) (by decide)

theorem pow_le_64 (w : Nat) (hw : w ≤ 64) : 2 ^ w ≤ 2 ^ 64 :=
  Nat.pow_le_pow_right (by decide) hw

theorem int_pow_le_63 (w : Nat) (hw2 : 2 ≤ w) (hw : w ≤ 64) :
    (2 : Int) ^ (w - 1) ≤ (2 : Int) ^ 63 := by
  have h : (2 : Nat) ^ (w - 1) ≤ 2 ^ 63 := Nat.pow_le_pow_right (by decide) (by omega)
  have c1 : ((2 ^ (w - 1) : Nat) : Int) = (2 : Int) ^ (w - 1) := by norm_cast
  have c2 : ((2 ^ 63 : Nat) : Int) = (2 : Int) ^ 63 := by norm_cast
  rw [← c1, ← c2]
  exact_mod_cast h

/-- Parsing the rendering of an unsigned value that fits the width. -/
theorem ParseUint_FormatUint (lib : StdLib) (w v : Nat) (hw : w ≤ 64) (hv : v < 2 ^ w) :
    ParseUint lib (FormatUint v) w = .ok v := by
  obtain ⟨hd, hval⟩ := FormatUint_decimal v (Nat.lt_of_lt_of_le hv (pow_le_64 w hw))
  rw [ParseUint_decimal lib _ w hw hd (by rw [hval]; exact hv), hval]

/-- Parsing the rendering of a signed value that fits the width. -/
theorem ParseInt_FormatInt (lib : StdLib) (w : Nat) (v : Int) (hw2 : 2 ≤ w) (hw : w ≤ 64)
    (hlo : -(2 : Int) ^ (w - 1) ≤ v) (hhi : v < (2 : Int) ^ (w - 1)) :
    ParseInt lib (FormatInt v) w = .ok v := by
  have h63 := int_pow_le_63 w hw2 hw
  exact ParseInt_literal lib _ w v hw2 hw
    (FormatInt_literal v (by omega) (by omega)) hlo hhi

/-- C22, as stated, fails for `uint` (and `int`): the value 4294967296 is
representable in a 64-bit `uint`, its rendering is `4294967296`, and `Parse`
fails on it, the field being parsed with 32 bits. -/
theorem C22_native_width_counterexample :
    FormatUint 4294967296 = "4294967296" ∧
    (Parse rejectingLib (envOf "N" (FormatUint 4294967296)) (.pointerToStruct
        [.plain "N" .uint (.uint 0)])).err =
      some "N: strconv.ParseUint: parsing \"4294967296\": value out of range" ∧
    (Parse rejectingLib (envOf "N" (FormatInt 2147483648)) (.pointerToStruct
        [.plain "N" .int (.int 0)])).err =
      some "N: strconv.ParseInt: parsing \"2147483648\": value out of range" := by
  refine ⟨?_, ?_, ?_⟩ <;> decide

/-- C22 (amended): round trip for integer scalars within the width they are
parsed with: for an integer field tagged `NAME`, parsed with width w (the
declared width, 32 for `int` and `uint`), and every value v in the range of
width w, setting the variable to the decimal rendering of v resolves the field
to v; and the rendering of every 64-bit value outside the range of width w (for
`int` and `uint`: outside the 32-bit range) is rejected with
`NAME: strconv.ParseUint: parsing "<rendering>": value out of range`,
respectively `strconv.ParseInt`. -/
theorem C22_integer_round_trip
    (lib : StdLib) (env : Environ) (name : String) (ty : GoType)
    (hname : name ≠ "") (hcn : commaFree name) :
    (∀ w, unsignedWidth ty = some w → ∀ v : Nat, v < 2 ^ w → env name = FormatUint v →
      resolveField lib env (tagOf [name]) ty = .ok (.uint v)) ∧
    (∀ w, signedWidth ty = some w → ∀ v : Int, -(2 : Int) ^ (w - 1) ≤ v →
      v < (2 : Int) ^ (w - 1) → env name = FormatInt v →
      resolveField lib env (tagOf [name]) ty = .ok (.int v)) ∧
    (∀ w, unsignedWidth ty = some w → ∀ v : Nat, 2 ^ w ≤ v → v < 2 ^ 64 →
      env name = FormatUint v →
      resolveField lib env (tagOf [name]) ty =
        .error (name ++ ": strconv.ParseUint: parsing \"" ++ FormatUint v ++
          "\": value out of range")) ∧
    (∀ w, signedWidth ty = some w → ∀ v : Int, -(2 : Int) ^ 63 ≤ v → v < (2 : Int) ^ 63 →
      (v < -(2 : Int) ^ (w - 1) ∨ (2 : Int) ^ (w - 1) ≤ v) → env name = FormatInt v →
      resolveField lib env (tagOf [name]) ty =
        .error (name ++ ": strconv.ParseInt: parsing \"" ++ FormatInt v ++
          "\": value out of range")) := by
  rw [resolveField_bare lib env name ty hname hcn]
  refine ⟨?_, ?_, ?_, ?_⟩
  · intro w hw v hv he
    obtain ⟨_, hw64⟩ := unsignedWidth_bounds ty w hw
    rw [convert_unsigned lib ty w name _ _ hw, he, ParseUint_FormatUint lib w v hw64 hv]
  · intro w hw v hlo hhi he
    obtain ⟨hw2, hw64⟩ := signedWidth_bounds ty w hw
    rw [convert_signed lib ty w name _ _ hw, he, ParseInt_FormatInt lib w v hw2 hw64 hlo hhi]
  · intro w hw v hge h64 he
    obtain ⟨_, hw64⟩ := unsignedWidth_bounds ty w hw
    obtain ⟨hd, hval⟩ := FormatUint_decimal v h64
    rw [convert_unsigned lib ty w name _ _ hw, he,
      ParseUint_out_of_range lib _ w hw64 hd (by rw [hval]; omega)]
    simp only
    rw [range_message lib name "ParseUint" _
      (plainText_digits _ (fun c hc => Or.inr (FormatUint_chars v c hc)))]
    simp only [Except.error.injEq]
    apply String.ext
    simp [String.data_append]
  · intro w hw v hlo hhi hout he
    obtain ⟨hw2, hw64⟩ := signedWidth_bounds ty w hw
    rw [convert_signed lib ty w name _ _ hw, he,
      ParseInt_out_of_range lib _ w v hw2 hw64 (FormatInt_literal v hlo hhi) hout]
    simp only
    rw [range_message lib name "ParseInt" _ (plainText_digits _ (FormatInt_chars v))]
    simp only [Except.error.injEq]
    apply String.ext
    simp [String.data_append]

/-- C22 (amended), at an `int64` field with the least `int64`. -/
theorem C22_integer_round_trip_witness :
    FormatInt (-9223372036854775808) = "-9223372036854775808" ∧
    resolveField rejectingLib (envOf "N" (FormatInt (-9223372036854775808))) "N" .int64 =
      .ok (.int (-9223372036854775808)) :=
  ⟨by decide,
    (C22_integer_round_trip rejectingLib (envOf "N" (FormatInt (-9223372036854775808))) "N"
      .int64 (by decide) (by decide)).2.1 64 rfl (-9223372036854775808) (by norm_num)
      (by norm_num) rfl⟩

/-! ## Collections: round trips, separators, failing parts -/

/-- C23: round trip for integer collections: for a collection of integers
parsed with width w, tagged `NAME` (separator `,`) or `NAME,separator=;`
(separator `;`), and every list of N >= 1 values in the range of width w,
resolving the decimal renderings joined by the separator yields exactly that
list, in the same order and with the same length.  This covers the element
kinds int8, int16, int32, int64, uint8 (without alias), uint16, uint32 and
uint64 with their declared width. -/
theorem C23_integer_collection_round_trip
    (lib : StdLib) (env : Environ) (name tag sep : String) (elem : GoType)
    (hname : name ≠ "") (hcn : commaFree name)
    (htag : (tag = tagOf [name] ∧ sep = ",") ∨
      (tag = tagOf [name, "separator=;"] ∧ sep = ";")) :
    (∀ w, unsignedWidth elem = some w → ∀ vs : List Nat, vs ≠ [] →
      (∀ v ∈ vs, v < 2 ^ w) → env name = Join (vs.map FormatUint) sep →
      resolveField lib env tag (.slice elem) = .ok (.uints vs)) ∧
    (∀ w, signedWidth elem = some w → ∀ vs : List Int, vs ≠ [] →
      (∀ v ∈ vs, -(2 : Int) ^ (w - 1) ≤ v ∧ v < (2 : Int) ^ (w - 1)) →
      env name = Join (vs.map FormatInt) sep →
      resolveField lib env tag (.slice elem) = .ok (.ints vs)) := by
  have hres : ∀ ty, resolveField lib env tag ty = convert lib ty ⟨name, env name, sep, ""⟩ := by
    intro ty
    rcases htag with ⟨h1, h2⟩ | ⟨h1, h2⟩
    · rw [h1, h2]; exact resolveField_bare lib env name ty hname hcn
    · rw [h1, h2]
      exact resolveField_separator lib env name ";" ty hname hcn (by decide) (by decide)
  obtain ⟨c, hsc, hc44⟩ : ∃ c : Char, sep = String.mk [c] ∧ (c.toNat = 44 ∨ c.toNat = 59) := by
    rcases htag with ⟨_, h2⟩ | ⟨_, h2⟩
    · exact ⟨',', h2, Or.inl rfl⟩
    · exact ⟨';', h2, Or.inr rfl⟩
  constructor
  · intro w hw vs hne hr he
    obtain ⟨_, hw64⟩ := unsignedWidth_bounds elem w hw
    have hsplit : Split (env name) sep = vs.map FormatUint := by
      rw [he, hsc]
      apply Split_Join_char c _ (by simpa using hne)
      intro p hp hcp
      obtain ⟨v, _, rfl⟩ := List.mem_map.mp hp
      have := FormatUint_chars v c hcp
      omega
    rw [hres, convert_slice_unsigned lib elem w name _ _ hw, hsplit,
      parseElems_map_ok name _ FormatUint vs
        (fun v hv => ParseUint_FormatUint lib w v hw64 (hr v hv))]
    rfl
  · intro w hw vs hne hr he
    obtain ⟨hw2, hw64⟩ := signedWidth_bounds elem w hw
    have hsplit : Split (env name) sep = vs.map FormatInt := by
      rw [he, hsc]
      apply Split_Join_char c _ (by simpa using hne)
      intro p hp hcp
      obtain ⟨v, _, rfl⟩ := List.mem_map.mp hp
      rcases FormatInt_chars v c hcp with h | h
      · rw [h] at hc44
        revert hc44
        decide
      · omega
    rw [hres, convert_slice_signed lib elem w name _ _ hw, hsplit,
      parseElems_map_ok name _ FormatInt vs
        (fun v hv => ParseInt_FormatInt lib w v hw2 hw64 (hr v hv).1 (hr v hv).2)]
    rfl

/-- C23, at an `[]int8` field tagged `L,separator=;` and the list
-128, 0, 127. -/
theorem C23_integer_collection_round_trip_witness :
    Join ([-128, 0, 127].map FormatInt) ";" = "-128;0;127" ∧
    resolveField rejectingLib (envOf "L" (Join ([-128, 0, 127].map FormatInt) ";"))
        "L,separator=;" (.slice .int8) = .ok (.ints [-128, 0, 127]) :=
  ⟨by decide,
    (C23_integer_collection_round_trip rejectingLib
      (envOf "L" (Join ([-128, 0, 127].map FormatInt) ";")) "L" "L,separator=;" ";" .int8
      (by decide) (by decide) (Or.inr ⟨rfl, rfl⟩)).2 8 rfl [-128, 0, 127] (by decide)
      (by decide) rfl⟩

theorem cut_single_some (c : Char) (s a b : List Char) (h : cut [c] s = some (a, b)) :
    c ∉ a := by
  induction s generalizing a with
  | nil => simp [cut] at h
  | cons x xs ih =>
    rw [cut] at h
    by_cases hp : [c].isPrefixOf (x :: xs) = true
    · simp only [hp, if_true, Option.some.injEq, Prod.mk.injEq] at h
      rw [← h.1]
      simp
    · simp only [hp, Bool.false_eq_true, if_false] at h
      cases hc : cut [c] xs with
      | none => rw [hc] at h; simp at h
      | some p =>
        rw [hc] at h
        simp only [Option.map_some', Option.some.injEq, Prod.mk.injEq] at h
        have hx : c ≠ x := by
          intro e
          apply hp
          simp [List.isPrefixOf, e]
        have := ih p.1 (by rw [hc, ← h.2])
        rw [← h.1]
        simp [hx, this]

theorem splitLoop_single_free (c : Char) (n : Nat) (s : List Char) (hn : s.length ≤ n) :
    ∀ x ∈ splitLoop [c] n s, c ∉ x := by
  induction n generalizing s with
  | zero =>
    have : s = [] := List.length_eq_zero.mp (Nat.le_zero.mp hn)
    subst this
    simp [splitLoop]
  | succ m ih =>
    intro x hx
    rw [splitLoop] at hx
    cases hc : cut [c] s with
    | none =>
      rw [hc] at hx
      simp only [List.mem_singleton] at hx
      subst hx
      have := (cut_eq_none_iff [c] (by simp) x).mp hc
      intro hm
      obtain ⟨u, t, hut⟩ := List.append_of_mem hm
      exact this ⟨u, t, by rw [hut]; simp⟩
    | some p =>
      obtain ⟨a, b⟩ := p
      rw [hc] at hx
      simp only [List.mem_cons] at hx
      rcases hx with hx | hx
      · subst hx
        exact cut_single_some c s x b hc
      · have hl := cut_length [c] s a b hc
        simp only [List.length_singleton] at hl
        exact ih b (by omega) x hx

theorem Split_single_free (c : Char) (s : String) :
    ∀ p ∈ Split s (String.mk [c]), c ∉ p.data := by
  intro p hp
  unfold Split at hp
  simp only [List.isEmpty_cons, Bool.false_eq_true, if_false, List.mem_map] at hp
  obtain ⟨x, hx, rfl⟩ := hp
  exact splitLoop_single_free c _ s.data (Nat.le_refl _) x hx

/-- C24, as stated, fails: a string that holds the separator does not come
back.  The one-element list `a,b`, joined, is `a,b`, and a string collection
tagged `L` resolves it to the two elements `a` and `b`.  With a separator of
several characters no string needs to hold it: under `separator=aa` the two
strings `a` and `a`, joined to `aaaa`, resolve to three empty strings. -/
theorem C24_string_holding_separator_counterexample :
    Join ["a,b"] "," = "a,b" ∧
    resolveField rejectingLib (envOf "L" (Join ["a,b"] ",")) "L" (.slice .string) =
      .ok (.strings ["a", "b"]) ∧
    resolveField rejectingLib (envOf "L" (Join ["a,b"] ",")) "L" (.slice .string) ≠
      .ok (.strings ["a,b"]) ∧
    Join ["a", "a"] "aa" = "aaaa" ∧
    resolveField rejectingLib (envOf "L" (Join ["a", "a"] "aa")) "L,separator=aa"
        (.slice .string) = .ok (.strings ["", "", ""]) := by
  refine ⟨?_, ?_, ?_, ?_, ?_⟩ <;> decide

/-- C24 (amended): round trip for string collections split on a
one-character separator (the default `,` of the tag `NAME`, or the character
S of `NAME,separator=S`): for every list of N >= 1 strings, resolving the
strings joined by the separator yields back the same list if and only if none
of the strings holds that character; the field resolves to the parts of the
joined text, none of which holds the separator. -/
theorem C24_string_collection_round_trip
    (lib : StdLib) (env : Environ) (name tag : String) (c : Char) (parts : List String)
    (hname : name ≠ "") (hcn : commaFree name)
    (htag : (tag = tagOf [name] ∧ c = ',') ∨
      (tag = tagOf [name, "separator=" ++ String.mk [c]] ∧ c ≠ ','))
    (hne : parts ≠ [])
    (henv : env name = Join parts (String.mk [c])) :
    (resolveField lib env tag (.slice .string) = .ok (.strings parts) ↔
      ∀ p ∈ parts, c ∉ p.data) ∧
    resolveField lib env tag (.slice .string) =
      .ok (.strings (Split (Join parts (String.mk [c])) (String.mk [c]))) ∧
    (∀ p ∈ Split (Join parts (String.mk [c])) (String.mk [c]), c ∉ p.data) := by
  have hres : resolveField lib env tag (.slice .string) =
      convert lib (.slice .string) ⟨name, env name, String.mk [c], ""⟩ := by
    rcases htag with ⟨h1, h2⟩ | ⟨h1, h2⟩
    · rw [h1, h2]; exact resolveField_bare lib env name _ hname hcn
    · rw [h1]
      refine resolveField_separator lib env name _ _ hname hcn ?_ ?_
      · intro e
        have := congrArg String.data e
        simp at this
      · unfold commaFree
        simpa using fun e => h2 e.symm
  rw [hres, convert_slice_string, henv]
  refine ⟨⟨?_, ?_⟩, rfl, Split_single_free c _⟩
  · intro h p hp
    simp only [Except.ok.injEq, Value.strings.injEq] at h
    have hs := Split_single_free c (Join parts (String.mk [c])) p
    rw [h] at hs
    exact hs hp
  · intro hfree
    rw [Split_Join_char c parts hne hfree]

/-- C24 (amended), at the tag `NAMES,separator=:` and the list n1, n2, n3. -/
theorem C24_string_collection_round_trip_witness :
    resolveField rejectingLib (envOf "NAMES" "n1:n2:n3") "NAMES,separator=:" (.slice .string) =
      .ok (.strings ["n1", "n2", "n3"]) :=
  (C24_string_collection_round_trip rejectingLib (envOf "NAMES" "n1:n2:n3") "NAMES"
    "NAMES,separator=:" ':' ["n1", "n2", "n3"] (by decide) (by decide)
    (Or.inr ⟨rfl, by decide⟩) (by decide) rfl).1.mpr (by decide)

theorem applyOption_separator_effect (o o1 : Options) (t : String)
    (h : applyOption o t = .ok o1) :
    o1.separator =
      if HasPrefix t "separator" = true ∧ namedOptionValue t ≠ "" then namedOptionValue t
      else o.separator := by
  obtain ⟨hty, hsep, hdef⟩ := hasPrefix_excl t
  obtain ⟨r1, r2, r3⟩ := required_facts
  by_cases hs : HasPrefix t "separator" = true
  · obtain ⟨hd, ht, hr⟩ := hsep hs
    by_cases hm : namedOptionValue t = ""
    · simp [applyOption, hr, hd, ht, hs, hm] at h
      simp [hs, hm, ← h]
    · simp [applyOption, hr, hd, ht, hs, hm] at h
      simp [hs, hm, ← h]
  · simp only [hs, Bool.false_eq_true, false_and, if_false]
    unfold applyOption at h
    simp only at h
    repeat' split at h
    all_goals first
      | (cases h; rfl)
      | cases h

theorem applyOptions_separator_fold (o o1 : Options) (ts : List String)
    (h : applyOptions o ts = .ok o1) :
    o1.separator = ts.foldl (fun s t =>
      if HasPrefix t "separator" = true ∧ namedOptionValue t ≠ "" then namedOptionValue t
      else s) o.separator := by
  induction ts generalizing o with
  | nil => cases h; rfl
  | cons t ts ih =>
    cases ha : applyOption o t with
    | error e => rw [applyOptions_cons_error _ _ _ _ ha] at h; cases h
    | ok o2 =>
      rw [applyOptions_cons_ok _ _ _ _ ha] at h
      rw [ih o2 h, applyOption_separator_effect o o2 t ha]
      rfl

theorem separator_fold_ne_empty (ts : List String) (s : String) (hs : s ≠ "") :
    ts.foldl (fun s t =>
      if HasPrefix t "separator" = true ∧ namedOptionValue t ≠ "" then namedOptionValue t
      else s) s ≠ "" := by
  induction ts generalizing s with
  | nil => exact hs
  | cons t ts ih =>
    simp only [List.foldl_cons]
    apply ih
    split
    · rename_i h; exact h.2
    · exact hs

theorem DefaultSeparator_ne_empty : DefaultSeparator ≠ "" := by decide

/-- The separator left by the options of any tag is not empty. -/
theorem parseTag_separator_ne_empty (env : Environ) (tag : String) (o : Options)
    (h : parseTag env tag = .ok o) : o.separator ≠ "" := by
  unfold parseTag at h
  split at h
  · cases h
  · split at h
    · cases h
    · rw [applyOptions_separator_fold _ _ _ h]
      exact separator_fold_ne_empty _ DefaultSeparator DefaultSeparator_ne_empty

theorem Split_ne_nil (raw sep : String) (hsep : sep ≠ "") : Split raw sep ≠ [] := by
  have hs : sep.data ≠ [] := fun e => hsep (String.ext e)
  have he : sep.data.isEmpty = false := by
    cases hd : sep.data with
    | nil => exact absurd hd hs
    | cons a as => rfl
  unfold Split
  rw [he]
  simp only [Bool.false_eq_true, if_false, ne_eq, List.map_eq_nil_iff]
  exact splitLoop_ne_nil _ _ _

theorem Split_empty (sep : String) (hsep : sep ≠ "") : Split "" sep = [""] := by
  apply Split_absent "" sep hsep
  intro h
  have hs : sep.data ≠ [] := fun e => hsep (String.ext e)
  have : sep.data = [] := by simpa using h
  exact hs this

/-- C25: a string collection tagged `NAME` whose variable is unset or empty
resolves to the one-element list holding the empty string; so does a string
collection under any tag whose options leave the value empty; and the list a
string collection resolves to, under any tag, always has at least one
element. -/
theorem C25_string_collection_never_empty
    (lib : StdLib) (env : Environ) (name : String)
    (hname : name ≠ "") (hcn : commaFree name) :
    (env name = "" →
      resolveField lib env (tagOf [name]) (.slice .string) = .ok (.strings [""])) ∧
    (∀ tag o, parseTag env tag = .ok o → o.value = "" →
      resolveField lib env tag (.slice .string) = .ok (.strings [""])) ∧
    (∀ tag v, resolveField lib env tag (.slice .string) = .ok v →
      ∃ xs, v = .strings xs ∧ xs ≠ []) := by
  refine ⟨?_, ?_, ?_⟩
  · intro hraw
    rw [resolveField_bare lib env name _ hname hcn, convert_slice_string, hraw,
      Split_empty _ (by decide)]
  · intro tag o hp hv
    unfold resolveField
    rw [hp]
    simp only
    rw [convert_slice_string, hv, Split_empty _ (parseTag_separator_ne_empty env tag o hp)]
  · intro tag v h
    unfold resolveField at h
    cases hp : parseTag env tag with
    | error e => rw [hp] at h; cases h
    | ok o =>
      rw [hp] at h
      simp only at h
      rw [convert_slice_string] at h
      simp only [Except.ok.injEq] at h
      exact ⟨_, h.symm, Split_ne_nil _ _ (parseTag_separator_ne_empty env tag o hp)⟩

/-- C25, at a string collection tagged `NAMES` with `NAMES` unset. -/
theorem C25_string_collection_never_empty_witness :
    resolveField rejectingLib emptyEnv "NAMES" (.slice .string) = .ok (.strings [""]) :=
  (C25_string_collection_never_empty rejectingLib emptyEnv "NAMES" (by decide)
    (by decide)).1 rfl

/-- C26: with the variable unset, a default literal X is split on the
separator S of the tag whether `separator=S` stands after or before
`default=X`: for every field type both tags resolve as the raw value X with
separator S, and a string collection resolves to the parts of X. -/
theorem C26_default_split_on_separator_either_order
    (lib : StdLib) (env : Environ) (name x sep : String) (ty : GoType)
    (hname : name ≠ "") (hcn : commaFree name) (hcx : commaFree x)
    (hsep : sep ≠ "") (hcs : commaFree sep) (hraw : env name = "") :
    resolveField lib env (tagOf [name, "default=" ++ x, "separator=" ++ sep]) ty =
      convert lib ty ⟨name, x, sep, ""⟩ ∧
    resolveField lib env (tagOf [name, "separator=" ++ sep, "default=" ++ x]) ty =
      convert lib ty ⟨name, x, sep, ""⟩ ∧
    convert lib (.slice .string) ⟨name, x, sep, ""⟩ = .ok (.strings (Split x sep)) := by
  have hd := commaFree_default x hcx
  have hs := commaFree_separator sep hcs
  refine ⟨?_, ?_, convert_slice_string lib name x sep ""⟩
  · rw [resolveField_tagOf lib env name _ ty hname hcn (commaFree_mem_two _ _ hd hs),
      applyOptions_cons_ok _ _ _ _ (applyOption_default_empty _ x hraw),
      applyOptions_cons_ok _ _ _ _ (applyOption_separator _ sep hsep)]
    rfl
  · rw [resolveField_tagOf lib env name _ ty hname hcn (commaFree_mem_two _ _ hs hd),
      applyOptions_cons_ok _ _ _ _ (applyOption_separator _ sep hsep),
      applyOptions_cons_ok _ _ _ _ (applyOption_default_empty _ x hraw)]
    rfl

/-- C26, at the two tags of the claim with `NAMES` unset. -/
theorem C26_default_split_on_separator_either_order_witness :
    resolveField rejectingLib emptyEnv "NAMES,default=n1:n2:n3,separator=:" (.slice .string) =
      .ok (.strings ["n1", "n2", "n3"]) ∧
    resolveField rejectingLib emptyEnv "NAMES,separator=:,default=n1:n2:n3" (.slice .string) =
      .ok (.strings ["n1", "n2", "n3"]) :=
  ⟨(C26_default_split_on_separator_either_order rejectingLib emptyEnv "NAMES" "n1:n2:n3" ":"
      (.slice .string) (by decide) (by decide) (by decide) (by decide) (by decide) rfl).1.trans
      (by decide),
    (C26_default_split_on_separator_either_order rejectingLib emptyEnv "NAMES" "n1:n2:n3" ":"
      (.slice .string) (by decide) (by decide) (by decide) (by decide) (by decide) rfl).2.1.trans
      (by decide)⟩

/-- C27: the separator a collection field is split with is the literal of the
last option that begins with `separator` and has a non-empty literal, and `,`
when there is none; it is never the empty string; a tag whose only separator
option is the bare `separator` or `separator=` splits on `,`. -/
theorem C27_effective_separator
    (lib : StdLib) (env : Environ) (name : String) (opts : List String) (o : Options)
    (hname : name ≠ "") (hcn : commaFree name) (hco : ∀ t ∈ opts, commaFree t)
    (hp : parseTag env (tagOf (name :: opts)) = .ok o) :
    o.separator = separatorOf opts ∧ separatorOf opts ≠ "" ∧
    resolveField lib env (tagOf (name :: opts)) (.slice .string) =
      .ok (.strings (Split o.value (separatorOf opts))) ∧
    separatorOf ["separator"] = "," ∧ separatorOf ["separator="] = "," := by
  have hsep : o.separator = separatorOf opts := by
    rw [parseTag_tagOf env name opts hname hcn hco] at hp
    exact applyOptions_separator_fold _ _ _ hp
  refine ⟨hsep, ?_, ?_, by decide, by decide⟩
  · rw [← hsep]
    exact parseTag_separator_ne_empty env _ o hp
  · unfold resolveField
    rw [hp]
    simp only
    rw [convert_slice_string, hsep]

/-- C27, at the tag `L,separator=;,separator` with `L=a;b,c`: the bare
`separator` that comes last has no literal and the value is split on `;`. -/
theorem C27_effective_separator_witness :
    resolveField rejectingLib (envOf "L" "a;b,c") "L,separator=;,separator" (.slice .string) =
      .ok (.strings ["a", "b,c"]) :=
  (C27_effective_separator rejectingLib (envOf "L" "a;b,c") "L" ["separator=;", "separator"]
    ⟨"L", "a;b,c", ";", ""⟩ (by decide) (by decide) (by decide) (by decide)).2.2.1.trans
    (by decide)

/-! ## Booleans, failing parts of a collection, `required` and zero values -/

theorem convert_bool (lib : StdLib) (name raw sep al : String) :
    convert lib .bool ⟨name, raw, sep, al⟩ =
      match ParseBool lib raw with
      | .error e => .error (asParseError name e)
      | .ok b => .ok (.bool b) := by
  cases h : ParseBool lib raw <;>
    simp [convert, GoType.kind, GoType.typeString, parseSingle, h]

theorem ParseBool_cases (lib : StdLib) (raw : String) :
    (raw ∈ trueLiterals ∧ ParseBool lib raw = .ok true) ∨
    (raw ∉ trueLiterals ∧ raw ∈ falseLiterals ∧ ParseBool lib raw = .ok false) ∨
    (raw ∉ trueLiterals ∧ raw ∉ falseLiterals ∧
      ParseBool lib raw = .error (numError lib "ParseBool" raw .ErrSyntax)) := by
  unfold ParseBool
  by_cases ht : raw ∈ trueLiterals
  · left
    refine ⟨ht, ?_⟩
    simp only [trueLiterals, List.mem_cons, List.mem_singleton, List.not_mem_nil, or_false] at ht
    rw [if_pos (by tauto)]
  · right
    have ht2 := ht
    simp only [trueLiterals, List.mem_cons, List.mem_singleton, List.not_mem_nil, or_false] at ht2
    rw [if_neg (by tauto)]
    by_cases hf : raw ∈ falseLiterals
    · left
      refine ⟨ht, hf, ?_⟩
      simp only [falseLiterals, List.mem_cons, List.mem_singleton, List.not_mem_nil,
        or_false] at hf
      rw [if_pos (by tauto)]
    · right
      refine ⟨ht, hf, ?_⟩
      simp only [falseLiterals, List.mem_cons, List.mem_singleton, List.not_mem_nil,
        or_false] at hf
      rw [if_neg (by tauto)]

theorem numError_syntax_text (lib : StdLib) (name fn raw : String) :
    asParseError name (numError lib fn raw .ErrSyntax) =
      name ++ ": strconv." ++ fn ++ ": parsing " ++ Quote lib raw ++ ": invalid syntax" := by
  simp only [asParseError, numError, NumErr.text]
  apply String.ext
  simp [String.data_append]

/-- C28, the claim as written fails: the raw value `"true"`, written with its
double quotes, is reported with the quotes escaped, not as the raw value
between two double quotes. -/
theorem C28_quoted_raw_value_counterexample :
    resolveField rejectingLib (envOf "B" "\"true\"") "B" .bool =
      .error "B: strconv.ParseBool: parsing \"\\\"true\\\"\": invalid syntax" ∧
    "B: strconv.ParseBool: parsing \"\\\"true\\\"\": invalid syntax" ≠
      "B: strconv.ParseBool: parsing \"" ++ "\"true\"" ++ "\": invalid syntax" := by
  decide

/-- C28 (amended): a boolean field tagged `NAME` resolves to true exactly for
the raw values `1`, `t`, `T`, `TRUE`, `true`, `True`, to false exactly for
`0`, `f`, `F`, `FALSE`, `false`, `False`; for every other raw value the error
is `NAME: strconv.ParseBool: parsing Q: invalid syntax` where Q is the raw
value as quoted by `strconv.Quote`, which is the raw value between two double
quotes when the raw value is printable ASCII without double quote and
backslash. -/
theorem C28_boolean_scalar
    (lib : StdLib) (env : Environ) (name : String)
    (hname : name ≠ "") (hcn : commaFree name) :
    (resolveField lib env (tagOf [name]) .bool = .ok (.bool true) ↔
      env name ∈ trueLiterals) ∧
    (resolveField lib env (tagOf [name]) .bool = .ok (.bool false) ↔
      env name ∈ falseLiterals) ∧
    (env name ∉ trueLiterals → env name ∉ falseLiterals →
      resolveField lib env (tagOf [name]) .bool =
        .error (name ++ ": strconv.ParseBool: parsing " ++ Quote lib (env name) ++
          ": invalid syntax")) ∧
    (plainText (env name) → Quote lib (env name) = "\"" ++ env name ++ "\"") := by
  rw [resolveField_bare lib env name _ hname hcn, convert_bool]
  have hdisj : ∀ s, s ∈ trueLiterals → s ∉ falseLiterals := by
    intro s hs
    simp only [trueLiterals, List.mem_cons, List.mem_singleton, List.not_mem_nil,
      or_false] at hs
    rcases hs with h | h | h | h | h | h <;> subst h <;> decide
  refine ⟨?_, ?_, ?_, Quote_plain lib (env name)⟩
  · rcases ParseBool_cases lib (env name) with ⟨ht, h⟩ | ⟨ht, _, h⟩ | ⟨ht, _, h⟩ <;>
      rw [h] <;> simp [ht]
  · rcases ParseBool_cases lib (env name) with ⟨ht, h⟩ | ⟨_, hf, h⟩ | ⟨_, hf, h⟩
    · rw [h]
      simp [hdisj _ ht]
    · rw [h]
      simp [hf]
    · rw [h]
      simp [hf]
  · intro ht hf
    rcases ParseBool_cases lib (env name) with ⟨ht1, _⟩ | ⟨_, hf1, _⟩ | ⟨_, _, h⟩
    · exact absurd ht1 ht
    · exact absurd hf1 hf
    · rw [h]
      simp only
      rw [numError_syntax_text]
      simp only [Except.error.injEq]
      apply String.ext
      simp [String.data_append]

/-- C28 (amended), at a boolean field tagged `B` with `B` set to ` true `,
the literal between two spaces. -/
theorem C28_boolean_scalar_witness :
    resolveField rejectingLib (envOf "B" " true ") "B" .bool =
      .error "B: strconv.ParseBool: parsing \" true \": invalid syntax" :=
  ((C28_boolean_scalar rejectingLib (envOf "B" " true ") "B" (by decide) (by decide)).2.2.1
    (by decide) (by decide)).trans (by decide)

theorem parseElems_first_error {α : Type} (name : String) (conv : String → Except String α)
    (pre post : List String) (d e : String)
    (hpre : ∀ p ∈ pre, errorOf (conv p) = none) (hd : errorOf (conv d) = some e) :
    parseElems name conv (pre ++ d :: post) = .error (asParseError name e) := by
  induction pre with
  | nil =>
    cases hc : conv d with
    | ok v => rw [hc] at hd; cases hd
    | error e1 =>
      rw [hc] at hd
      simp only [errorOf, Option.some.injEq] at hd
      simp [parseElems, hc, hd]
  | cons p ps ih =>
    have hp := hpre p (by simp)
    cases hc : conv p with
    | error e1 => rw [hc] at hp; cases hp
    | ok v =>
      have ih1 := ih (fun x hx => hpre x (by simp [hx]))
      show parseElems name conv (p :: (ps ++ d :: post)) = _
      simp only [parseElems, hc, ih1]

theorem errorOf_map {α : Type} (r : Except String α) (s : String) :
    errorOf (r.map (fun _ => s)) = errorOf r := by
  cases r <;> rfl

/-- C29: for a collection field of numeric or boolean elements (no alias in
force), if the parts of the split raw value before the part d all convert and
d does not, the error is `<name>: <message of the parser on d>`, whatever the
parts after d are. -/
theorem C29_first_failing_part
    (lib : StdLib) (env : Environ) (tag : String) (elem : GoType) (o : Options)
    (pre post : List String) (d e : String)
    (hp : parseTag env tag = .ok o) (hal : o.aliasType = "")
    (hnb : numericOrBool elem = true)
    (hsplit : Split o.value o.separator = pre ++ d :: post)
    (hpre : ∀ p ∈ pre, partMessage lib elem p = none)
    (hd : partMessage lib elem d = some e) :
    resolveField lib env tag (.slice elem) = .error (o.envVariableName ++ ": " ++ e) := by
  unfold resolveField
  rw [hp]
  simp only
  cases elem <;> simp [numericOrBool] at hnb <;>
    simp only [partMessage] at hpre hd <;>
    simp [convert, GoType.kind, parseSlice, hal, constAliasTypeByte, constAliasTypeRune,
      hsplit, parseElems_first_error _ _ pre post d e hpre hd, Except.map, asParseError]

/-- C29, at an `[]int` field tagged `NAME` with `NAME=1,abc,zzz`. -/
theorem C29_first_failing_part_witness :
    resolveField rejectingLib (envOf "NAME" "1,abc,zzz") "NAME" (.slice .int) =
      .error "NAME: strconv.ParseInt: parsing \"abc\": invalid syntax" :=
  (C29_first_failing_part rejectingLib (envOf "NAME" "1,abc,zzz") "NAME" .int
    ⟨"NAME", "1,abc,zzz", ",", ""⟩ ["1"] ["zzz"] "abc"
    "strconv.ParseInt: parsing \"abc\": invalid syntax"
    (by decide) rfl rfl (by decide) (by decide) (by decide)).trans (by decide)

/-- C30: a field tagged `NAME,required` is resolved whenever the raw value is
not empty, also to the zero value of its type: with `NAME=0` an `int` field is
set to 0 and with `NAME=false` a `bool` field is set to false, and Parse
returns no error. -/
theorem C30_required_accepts_zero_value
    (lib : StdLib) (env : Environ) (name : String) (old : Value)
    (hname : name ≠ "") (hcn : commaFree name) :
    (env name = "0" →
      Parse lib env (.pointerToStruct [.plain (tagOf [name, "required"]) .int old]) =
        ⟨.pointerToStruct [.plain (tagOf [name, "required"]) .int (.int 0)], none⟩) ∧
    (env name = "false" →
      Parse lib env (.pointerToStruct [.plain (tagOf [name, "required"]) .bool old]) =
        ⟨.pointerToStruct [.plain (tagOf [name, "required"]) .bool (.bool false)], none⟩) := by
  have hreq : ∀ t ∈ ["required"], commaFree t := commaFree_mem_one _ (by decide)
  have htag : tagOf [name, "required"] ≠ "" := tagOf_ne_empty name _ hname
  constructor
  · intro h0
    have hv : (⟨name, env name, DefaultSeparator, ""⟩ : Options).value ≠ "" := by
      simp [h0]
    have hr : resolveField lib env (tagOf [name, "required"]) .int = .ok (.int 0) := by
      rw [resolveField_tagOf lib env name _ _ hname hcn hreq,
        applyOptions_cons_ok _ _ _ _ (applyOption_required_nonempty _ hv), applyOptions_nil]
      simp only [h0]
      rfl
    have hf := parseFieldAt_plain_ok lib env _ .int old _ htag hr
    have := Parse_ok_at lib env [] [] _ rfl (by rw [hf])
    simpa [hf, parseEnv] using this
  · intro h0
    have hv : (⟨name, env name, DefaultSeparator, ""⟩ : Options).value ≠ "" := by
      simp [h0]
    have hr : resolveField lib env (tagOf [name, "required"]) .bool = .ok (.bool false) := by
      rw [resolveField_tagOf lib env name _ _ hname hcn hreq,
        applyOptions_cons_ok _ _ _ _ (applyOption_required_nonempty _ hv), applyOptions_nil]
      simp only [h0]
      rfl
    have hf := parseFieldAt_plain_ok lib env _ .bool old _ htag hr
    have := Parse_ok_at lib env [] [] _ rfl (by rw [hf])
    simpa [hf, parseEnv] using this

/-- C30, at the field `N int` tagged `N,required` with `N=0`, holding 5
before the call. -/
theorem C30_required_accepts_zero_value_witness :
    Parse rejectingLib (envOf "N" "0")
        (.pointerToStruct [.plain "N,required" .int (.int 5)]) =
      ⟨.pointerToStruct [.plain "N,required" .int (.int 0)], none⟩ :=
  (C30_required_accepts_zero_value rejectingLib (envOf "N" "0") "N" (.int 5) (by decide)
    (by decide)).1 rfl

/-! ## Fields without annotation -/

theorem parseEnv_length (lib : StdLib) (env : Environ) (fs : List SField) :
    (parseEnv lib env fs).fields.length = fs.length := by
  induction fs with
  | nil => simp [parseEnv]
  | cons f rest ih =>
    cases hf : (parseFieldAt lib env f).2 with
    | some e => rw [parseEnv_cons_err lib env f rest e hf]; simp
    | none => rw [parseEnv_cons_ok lib env f rest hf]; simp [ih]

theorem parseEnv_untagged_at (lib : StdLib) (env : Environ) (ty : GoType) (v : Value)
    (before after : List SField) :
    (parseEnv lib env (before ++ .plain "" ty v :: after)).fields[before.length]? =
      some (.plain "" ty v) := by
  induction before with
  | nil =>
    have hf := parseFieldAt_plain_untagged lib env ty v
    rw [List.nil_append, parseEnv_cons_ok lib env _ after (by rw [hf]), hf]
    simp
  | cons f rest ih =>
    cases hf : (parseFieldAt lib env f).2 with
    | some e =>
      rw [List.cons_append, parseEnv_cons_err lib env f _ e hf]
      simp [List.getElem_append_right]
    | none =>
      rw [List.cons_append, parseEnv_cons_ok lib env f _ hf]
      simpa using ih

theorem parseEnv_skip_untagged (lib : StdLib) (env : Environ) (ty : GoType) (v : Value)
    (before after : List SField) :
    (parseEnv lib env (before ++ .plain "" ty v :: after)).err =
      (parseEnv lib env (before ++ after)).err := by
  induction before with
  | nil =>
    have hf := parseFieldAt_plain_untagged lib env ty v
    rw [List.nil_append, parseEnv_cons_ok lib env _ after (by rw [hf])]
    rfl
  | cons f rest ih =>
    cases hf : (parseFieldAt lib env f).2 with
    | some e =>
      rw [List.cons_append, List.cons_append, parseEnv_cons_err lib env f _ e hf,
        parseEnv_cons_err lib env f _ e hf]
    | none =>
      rw [List.cons_append, List.cons_append, parseEnv_cons_ok lib env f _ hf,
        parseEnv_cons_ok lib env f _ hf]
      exact ih

/-- C31: a field without annotation that is not a struct, of any type and
holding any value, is left as it is and raises no error; at any position of
the target it holds the same value after `Parse`, whether `Parse` succeeds or
fails; the error of `Parse` is the one of the target without this field; and
the same field inside nested structs, at any depth, is still there after
`Parse`. -/
theorem C31_untagged_fields_kept
    (lib : StdLib) (env : Environ) (ty : GoType) (v : Value)
    (before after fields : List SField) :
    parseFieldAt lib env (.plain "" ty v) = (.plain "" ty v, none) ∧
    (Parse lib env (.pointerToStruct (before ++ .plain "" ty v :: after))).target.fields.length =
      (before ++ .plain "" ty v :: after).length ∧
    (Parse lib env (.pointerToStruct
        (before ++ .plain "" ty v :: after))).target.fields[before.length]? =
      some (.plain "" ty v) ∧
    (Parse lib env (.pointerToStruct (before ++ .plain "" ty v :: after))).err =
      (Parse lib env (.pointerToStruct (before ++ after))).err ∧
    (Contains (.plain "" ty v) fields →
      Contains (.plain "" ty v) (Parse lib env (.pointerToStruct fields)).target.fields) := by
  refine ⟨parseFieldAt_plain_untagged lib env ty v, ?_, ?_, ?_, ?_⟩
  · rw [Parse_struct]
    exact parseEnv_length lib env _
  · rw [Parse_struct]
    exact parseEnv_untagged_at lib env ty v before after
  · rw [Parse_struct, Parse_struct]
    exact parseEnv_skip_untagged lib env ty v before after
  · intro hc
    rw [Parse_struct]
    exact Contains_kept lib env _ (by rw [parseFieldAt_plain_untagged]) fields hc

/-- C31, at the struct of `TestParseStructWithNonEnvValues` with the variable
unset: `Parse` fails on the second field and `Skipped` still holds 7. -/
theorem C31_untagged_fields_kept_witness :
    (Parse rejectingLib emptyEnv (.pointerToStruct
        [.plain "" .int (.int 7),
          .plain "GO_ENV_TEST_STRING_VALUE,required" .string (.string "")])).target.fields[0]? =
      some (.plain "" .int (.int 7)) ∧
    (Parse rejectingLib emptyEnv (.pointerToStruct
        [.plain "" .int (.int 7),
          .plain "GO_ENV_TEST_STRING_VALUE,required" .string (.string "")])).err =
      some "GO_ENV_TEST_STRING_VALUE: value is required but was empty" :=
  ⟨(C31_untagged_fields_kept rejectingLib emptyEnv .int (.int 7) []
      [.plain "GO_ENV_TEST_STRING_VALUE,required" .string (.string "")] []).2.2.1,
    by decide⟩

/-! ## Eight-bit integers with and without alias, empty values -/

theorem parseElems_all_ok {α : Type} (name : String) (conv : String → Except String α)
    (f : String → α) (ds : List String) (h : ∀ d ∈ ds, conv d = .ok (f d)) :
    parseElems name conv ds = .ok (ds.map f) := by
  induction ds with
  | nil => rfl
  | cons d ds ih =>
    simp only [parseElems, h d (by simp), ih (fun x hx => h x (by simp [hx])), List.map_cons]

theorem parseElems_some_error {α : Type} (name : String) (conv : String → Except String α)
    (ds : List String) (h : ∃ d ∈ ds, ∃ e, conv d = .error e) :
    ∃ e, parseElems name conv ds = .error e := by
  induction ds with
  | nil =>
    obtain ⟨d, hd, _⟩ := h
    cases hd
  | cons d ds ih =>
    cases hc : conv d with
    | error e => exact ⟨asParseError name e, by simp only [parseElems, hc]⟩
    | ok v =>
      obtain ⟨x, hx, e, he⟩ := h
      have hx1 : x ∈ ds := by
        rcases List.mem_cons.mp hx with h1 | h1
        · subst h1
          rw [hc] at he
          cases he
        · exact h1
      obtain ⟨e1, he1⟩ := ih ⟨x, hx1, e, he⟩
      exact ⟨e1, by simp only [parseElems, hc, he1]⟩

/-- C32, the claim as written fails at its own value `104,105`: without alias
the field holds the two numbers, with `type=byte` it does not take the bytes
of the raw value, the call fails. -/
theorem C32_alias_on_separated_value_counterexample :
    resolveField rejectingLib (envOf "B" "104,105") "B" (.slice .uint8) =
      .ok (.uints [104, 105]) ∧
    resolveField rejectingLib (envOf "B" "104,105") "B,type=byte" (.slice .uint8) =
      .error "B: byte slice cannot have multiple values" := by
  decide

/-- C32 (amended): a `[]uint8` field tagged `NAME` resolves, when every part
of the raw value split on `,` is a run of decimal digits with value below 256,
to the list of these values, and fails when some part is not; the same field
tagged `NAME,type=byte` takes the bytes of the raw value when the raw value
holds no `,` and fails with `NAME: byte slice cannot have multiple values`
when it does; a `uint8` field tagged `NAME` resolves to the value of a run of
decimal digits below 256 and fails on every other raw value. -/
theorem C32_uint8_with_and_without_alias
    (lib : StdLib) (env : Environ) (name : String)
    (hname : name ≠ "") (hcn : commaFree name) :
    ((∀ p ∈ Split (env name) DefaultSeparator, isDecimal p.data ∧ decimalValue p.data < 256) →
      resolveField lib env (tagOf [name]) (.slice .uint8) =
        .ok (.uints ((Split (env name) DefaultSeparator).map (fun p => decimalValue p.data)))) ∧
    ((∃ p ∈ Split (env name) DefaultSeparator,
        ¬ (isDecimal p.data ∧ decimalValue p.data < 256)) →
      ∃ e, resolveField lib env (tagOf [name]) (.slice .uint8) = .error e) ∧
    (¬ DefaultSeparator.data <:+: (env name).data →
      resolveField lib env (tagOf [name, "type=byte"]) (.slice .uint8) =
        .ok (.uints (goBytes (env name)))) ∧
    (DefaultSeparator.data <:+: (env name).data →
      resolveField lib env (tagOf [name, "type=byte"]) (.slice .uint8) =
        .error (name ++ ": byte slice cannot have multiple values")) ∧
    (isDecimal (env name).data ∧ decimalValue (env name).data < 256 →
      resolveField lib env (tagOf [name]) .uint8 =
        .ok (.uint (decimalValue (env name).data))) ∧
    (¬ (isDecimal (env name).data ∧ decimalValue (env name).data < 256) →
      ∃ e, resolveField lib env (tagOf [name]) .uint8 = .error e) := by
  have h256 : (2 : Nat) ^ 8 = 256 := by norm_num
  rw [resolveField_bare lib env name _ hname hcn, resolveField_bare lib env name _ hname hcn,
    resolveField_type_byte lib env name _ hname hcn,
    convert_slice_unsigned lib .uint8 8 name _ _ rfl, convert_unsigned lib .uint8 8 name _ _ rfl,
    convert_byte_slice lib name _ _ DefaultSeparator_ne_empty]
  refine ⟨?_, ?_, ?_, ?_, ?_, ?_⟩
  · intro h
    rw [parseElems_all_ok name _ (fun p => decimalValue p.data) _
      (fun d hd => ParseUint_decimal lib d 8 (by decide) (h d hd).1 (h256 ▸ (h d hd).2))]
    rfl
  · rintro ⟨p, hp, hn⟩
    obtain ⟨e, he⟩ := parseElems_some_error name (fun d => ParseUint lib d 8) _
      ⟨p, hp, ParseUint_not_decimal lib p 8 (by decide) (h256 ▸ hn)⟩
    rw [he]
    exact ⟨_, rfl⟩
  · intro h
    rw [if_neg h]
  · intro h
    rw [if_pos h]
  · rintro ⟨hd, hv⟩
    rw [ParseUint_decimal lib _ 8 (by decide) hd (h256 ▸ hv)]
  · intro hn
    obtain ⟨e, he⟩ := ParseUint_not_decimal lib (env name) 8 (by decide) (h256 ▸ hn)
    rw [he]
    exact ⟨_, rfl⟩

/-- C32 (amended), at a `[]uint8` field with the raw value `hello`: under
`B,type=byte` it takes the five bytes, under `B` it fails. -/
theorem C32_uint8_with_and_without_alias_witness :
    resolveField rejectingLib (envOf "B" "hello") "B,type=byte" (.slice .uint8) =
      .ok (.uints [104, 101, 108, 108, 111]) ∧
    (∃ e, resolveField rejectingLib (envOf "B" "hello") "B" (.slice .uint8) = .error e) :=
  ⟨((C32_uint8_with_and_without_alias rejectingLib (envOf "B" "hello") "B" (by decide)
      (by decide)).2.2.1 (by decide)).trans (by decide),
    (C32_uint8_with_and_without_alias rejectingLib (envOf "B" "hello") "B" (by decide)
      (by decide)).2.1 ⟨"hello", by decide, by decide⟩⟩

theorem Quote_empty (lib : StdLib) : Quote lib "" = "\"\"" := rfl

theorem empty_value_message (lib : StdLib) (name fn : String) :
    asParseError name (numError lib fn "" .ErrSyntax) =
      name ++ ": strconv." ++ fn ++ ": parsing \"\": invalid syntax" := by
  rw [numError_syntax_text, Quote_empty]
  apply String.ext
  simp [String.data_append]

theorem ParseUint_empty (lib : StdLib) (w : Nat) :
    ParseUint lib "" w = .error (numError lib "ParseUint" "" .ErrSyntax) := rfl

theorem ParseInt_empty (lib : StdLib) (w : Nat) :
    ParseInt lib "" w = .error (numError lib "ParseInt" "" .ErrSyntax) := rfl

theorem ParseBool_empty (lib : StdLib) :
    ParseBool lib "" = .error (numError lib "ParseBool" "" .ErrSyntax) := by
  simp [ParseBool]

theorem parseTag_ne_empty (env : Environ) (tag : String) (o : Options)
    (h : parseTag env tag = .ok o) : tag ≠ "" := by
  intro ht
  subst ht
  have he : parseTag env "" = .error "env variable name cannot be empty" := by
    have hs : Split "" "," = [""] := by decide
    have hl : len "" = 0 := by decide
    simp [parseTag, hs, hl]
  rw [he] at h
  cases h

/-- C33, as stated, fails for the integer collections under an alias: with
the variable unset a `[]uint8` field tagged `B,type=byte` and a `[]int32`
field tagged `R,type=rune`, which have a name and no default, resolve to the
empty sequence and `Parse` returns no error. -/
theorem C33_aliased_collection_counterexample :
    Parse rejectingLib emptyEnv (.pointerToStruct
        [.plain "B,type=byte" (.slice .uint8) (.uints [1])]) =
      ⟨.pointerToStruct [.plain "B,type=byte" (.slice .uint8) (.uints [])], none⟩ ∧
    Parse rejectingLib emptyEnv (.pointerToStruct
        [.plain "R,type=rune" (.slice .int32) (.ints [1])]) =
      ⟨.pointerToStruct [.plain "R,type=rune" (.slice .int32) (.ints [])], none⟩ := by
  constructor <;> rfl

/-- C33 (amended): an integer or boolean field, scalar or collection, whose
tag has a variable name and options that leave the value empty (the tag `NAME`
with NAME unset among them), does not resolve unless the byte alias applies to
it (on `uint8`, `[]uint8`) or the rune alias (on `int32`, `[]int32`): the error
is `<name>: strconv.<parser>: parsing "": invalid syntax`, and it is the error
of `Parse` when the fields before it resolve.  Under the byte alias an
`[]uint8` field resolves to the empty sequence and a `uint8` field fails with
`<name>: byte must be a single character value`; likewise under the rune alias
for `[]int32` and `int32`. -/
theorem C33_empty_value_fails
    (lib : StdLib) (env : Environ) (tag fn : String) (elem ty : GoType) (o : Options)
    (v : Value) (before after : List SField)
    (hp : parseTag env tag = .ok o) (hv : o.value = "")
    (hfn : parserName elem = some fn) (hty : ty = elem ∨ ty = .slice elem)
    (hb : (parseEnv lib env before).err = none) :
    (¬ (elem = .uint8 ∧ o.aliasType = "byte") → ¬ (elem = .int32 ∧ o.aliasType = "rune") →
      resolveField lib env tag ty =
        .error (o.envVariableName ++ ": strconv." ++ fn ++ ": parsing \"\": invalid syntax") ∧
      (Parse lib env (.pointerToStruct (before ++ .plain tag ty v :: after))).err =
        some (o.envVariableName ++ ": strconv." ++ fn ++ ": parsing \"\": invalid syntax")) ∧
    (o.aliasType = "byte" →
      resolveField lib env tag (.slice .uint8) = .ok (.uints []) ∧
      resolveField lib env tag .uint8 =
        .error (o.envVariableName ++ ": byte must be a single character value")) ∧
    (o.aliasType = "rune" →
      resolveField lib env tag (.slice .int32) = .ok (.ints []) ∧
      resolveField lib env tag .int32 =
        .error (o.envVariableName ++ ": rune must be a single character value")) := by
  have hsplit := Split_empty o.separator (parseTag_separator_ne_empty env tag o hp)
  have hlen : len "" ≠ 1 := by decide
  have hgb : goBytes "" = [] := rfl
  have hgr : goRunes "" = [] := rfl
  refine ⟨?_, ?_, ?_⟩
  · intro hnb hnr
    have hr : resolveField lib env tag ty =
        .error (o.envVariableName ++ ": strconv." ++ fn ++ ": parsing \"\": invalid syntax") := by
      rw [← empty_value_message lib]
      unfold resolveField
      rw [hp]
      simp only
      cases elem <;> simp [parserName] at hfn <;> subst hfn <;>
        rcases hty with h | h <;> subst h <;>
        simp at hnb hnr <;>
        simp [convert, GoType.kind, GoType.typeString, parseSingle, parseSlice, bitSizeOf, hv,
          hnb, hnr, constAliasTypeByte, constAliasTypeRune, hsplit, parseElems, ParseUint_empty,
          ParseInt_empty, ParseBool_empty, Except.map]
    exact ⟨hr, Parse_err_at lib env before after _ _ hb
      (by rw [parseFieldAt_plain_error lib env tag ty v _ (parseTag_ne_empty env tag o hp) hr])⟩
  · intro hal
    unfold resolveField
    rw [hp]
    simp only
    constructor
    · simp [convert, GoType.kind, parseSlice, hv, hal, constAliasTypeByte, hsplit, hgb]
    · have hm : asParseError o.envVariableName "byte must be a single character value" =
          o.envVariableName ++ ": byte must be a single character value" := by
        rw [asParseError_eq]; rfl
      rw [← hm]
      simp [convert, GoType.kind, GoType.typeString, parseSingle, hv, hal, constAliasTypeByte,
        hlen]
  · intro hal
    unfold resolveField
    rw [hp]
    simp only
    constructor
    · simp [convert, GoType.kind, parseSlice, hv, hal, constAliasTypeRune, hsplit, hgr]
    · have hm : asParseError o.envVariableName "rune must be a single character value" =
          o.envVariableName ++ ": rune must be a single character value" := by
        rw [asParseError_eq]; rfl
      rw [← hm]
      simp [convert, GoType.kind, GoType.typeString, parseSingle, hv, hal, constAliasTypeRune,
        constAliasTypeByte, hlen]

/-- C33 (amended), at an `int` field tagged `PORT` with `PORT` unset. -/
theorem C33_empty_value_fails_witness :
    (Parse rejectingLib emptyEnv (.pointerToStruct [.plain "PORT" .int (.int 0)])).err =
      some "PORT: strconv.ParseInt: parsing \"\": invalid syntax" :=
  ((C33_empty_value_fails rejectingLib emptyEnv "PORT" "ParseInt" .int .int
    ⟨"PORT", "", ",", ""⟩ (.int 0) [] [] (by decide) rfl rfl (Or.inl rfl) rfl).1
    (by decide) (by decide)).2.trans (by decide)

/-! ## Independence of the values held before the call -/

theorem shape_plain_inv (tag : String) (ty : GoType) (v : Value) (g : SField)
    (h : shape (.plain tag ty v) = shape g) : ∃ w, g = .plain tag ty w := by
  cases g with
  | plain t2 ty2 w =>
    simp only [shape, SField.plain.injEq] at h
    obtain ⟨h1, h2, _⟩ := h
    subst h1; subst h2
    exact ⟨w, rfl⟩
  | nested t2 gs => simp [shape] at h

theorem shape_nested_inv (tag : String) (fs : List SField) (g : SField)
    (h : shape (.nested tag fs) = shape g) :
    ∃ gs, g = .nested tag gs ∧ shapes fs = shapes gs := by
  cases g with
  | plain t2 ty2 w => simp [shape] at h
  | nested t2 gs =>
    simp only [shape, SField.nested.injEq] at h
    obtain ⟨h1, h2⟩ := h
    subst h1
    exact ⟨gs, rfl, h2⟩

theorem shapes_cons_inv (f : SField) (rest gs : List SField)
    (h : shapes (f :: rest) = shapes gs) :
    ∃ g grest, gs = g :: grest ∧ shape f = shape g ∧ shapes rest = shapes grest := by
  cases gs with
  | nil => simp [shapes] at h
  | cons g grest =>
    simp only [shapes, List.cons.injEq] at h
    exact ⟨g, grest, rfl, h.1, h.2⟩

theorem shapes_nil_inv (gs : List SField) (h : shapes [] = shapes gs) : gs = [] := by
  cases gs with
  | nil => rfl
  | cons g grest => simp [shapes] at h

mutual
theorem parseFieldAt_shape (lib : StdLib) (env : Environ) :
    ∀ (f g : SField), shape f = shape g →
      (parseFieldAt lib env f).2 = (parseFieldAt lib env g).2 ∧
      shape (parseFieldAt lib env f).1 = shape (parseFieldAt lib env g).1 ∧
      ((parseFieldAt lib env f).2 = none →
        annotatedValuesOf (parseFieldAt lib env f).1 =
          annotatedValuesOf (parseFieldAt lib env g).1)
  | .plain tag ty v, g, h => by
    obtain ⟨w, hg⟩ := shape_plain_inv tag ty v g h
    subst hg
    by_cases ht : tag = ""
    · subst ht
      simp [parseFieldAt_plain_untagged, shape, annotatedValuesOf]
    · cases hr : resolveField lib env tag ty with
      | ok x =>
        rw [parseFieldAt_plain_ok lib env tag ty v x ht hr,
          parseFieldAt_plain_ok lib env tag ty w x ht hr]
        simp
      | error e =>
        rw [parseFieldAt_plain_error lib env tag ty v e ht hr,
          parseFieldAt_plain_error lib env tag ty w e ht hr]
        simp [shape]
  | .nested tag fs, g, h => by
    obtain ⟨gs, hg, hs⟩ := shape_nested_inv tag fs g h
    subst hg
    by_cases ht : tag = ""
    · subst ht
      obtain ⟨h1, h2, h3⟩ := parseEnv_shape lib env fs gs hs
      rw [parseFieldAt_nested_untagged, parseFieldAt_nested_untagged]
      exact ⟨h1, by simp only [shape, h2], fun hn => by
        simp only [annotatedValuesOf]; exact h3 hn⟩
    · have hf := parseFieldAt_nested_tagged_fails lib env tag fs ht
      refine ⟨?_, ?_, fun hn => absurd hn hf⟩
      · rw [parseFieldAt, parseFieldAt]
        simp only [ht, if_false]
        cases parseTag env tag with
        | error e => rfl
        | ok o =>
          simp only
          cases parseSingle lib userStructTypeString .Struct o.envVariableName o.value
            o.aliasType <;> rfl
      · rw [parseFieldAt, parseFieldAt]
        simp only [ht, if_false]
        cases parseTag env tag with
        | error e => simp only [shape, hs]
        | ok o =>
          simp only
          cases parseSingle lib userStructTypeString .Struct o.envVariableName o.value
            o.aliasType <;> simp only [shape, hs]
theorem parseEnv_shape (lib : StdLib) (env : Environ) :
    ∀ (fs gs : List SField), shapes fs = shapes gs →
      (parseEnv lib env fs).err = (parseEnv lib env gs).err ∧
      shapes (parseEnv lib env fs).fields = shapes (parseEnv lib env gs).fields ∧
      ((parseEnv lib env fs).err = none →
        annotatedValues (parseEnv lib env fs).fields =
          annotatedValues (parseEnv lib env gs).fields)
  | [], gs, h => by
    rw [shapes_nil_inv gs h]
    simp
  | f :: rest, gs, h => by
    obtain ⟨g, grest, hgs, hfg, hrest⟩ := shapes_cons_inv f rest gs h
    subst hgs
    obtain ⟨h1, h2, h3⟩ := parseFieldAt_shape lib env f g hfg
    cases hf : (parseFieldAt lib env f).2 with
    | some e =>
      rw [parseEnv_cons_err lib env f rest e hf,
        parseEnv_cons_err lib env g grest e (h1 ▸ hf)]
      simp [shapes, h2, hrest]
    | none =>
      obtain ⟨r1, r2, r3⟩ := parseEnv_shape lib env rest grest hrest
      rw [parseEnv_cons_ok lib env f rest hf,
        parseEnv_cons_ok lib env g grest (h1 ▸ hf)]
      refine ⟨r1, by simp only [shapes, h2, r2], fun hn => ?_⟩
      simp only [annotatedValues, h3 hf, r3 hn]
end

/-- C34: two targets with the same declaration (tags and types, at every
depth) and any contents get from `Parse`, under the same environment, the same
error or both none, and after a call without error the same values in all
annotated fields; an annotated field alone gets the same error or the same
value whatever it held; and a string field tagged `NAME`, NAME unset, is
overwritten with the empty string whatever it held. -/
theorem C34_outcome_independent_of_prior_value
    (lib : StdLib) (env : Environ) (fs gs : List SField)
    (tag name : String) (ty : GoType) (v w old : Value)
    (hs : shapes fs = shapes gs) (htag : tag ≠ "")
    (hname : name ≠ "") (hcn : commaFree name) (hraw : env name = "") :
    (Parse lib env (.pointerToStruct fs)).err = (Parse lib env (.pointerToStruct gs)).err ∧
    ((Parse lib env (.pointerToStruct fs)).err = none →
      annotatedValues (Parse lib env (.pointerToStruct fs)).target.fields =
        annotatedValues (Parse lib env (.pointerToStruct gs)).target.fields) ∧
    (parseFieldAt lib env (.plain tag ty v)).2 = (parseFieldAt lib env (.plain tag ty w)).2 ∧
    ((parseFieldAt lib env (.plain tag ty v)).2 = none →
      (parseFieldAt lib env (.plain tag ty v)).1 = (parseFieldAt lib env (.plain tag ty w)).1) ∧
    Parse lib env (.pointerToStruct [.plain (tagOf [name]) .string old]) =
      ⟨.pointerToStruct [.plain (tagOf [name]) .string (.string "")], none⟩ := by
  obtain ⟨h1, _, h3⟩ := parseEnv_shape lib env fs gs hs
  refine ⟨h1, h3, ?_, ?_, ?_⟩
  · cases hr : resolveField lib env tag ty with
    | ok x =>
      rw [parseFieldAt_plain_ok lib env tag ty v x htag hr,
        parseFieldAt_plain_ok lib env tag ty w x htag hr]
    | error e =>
      rw [parseFieldAt_plain_error lib env tag ty v e htag hr,
        parseFieldAt_plain_error lib env tag ty w e htag hr]
  · cases hr : resolveField lib env tag ty with
    | ok x =>
      rw [parseFieldAt_plain_ok lib env tag ty v x htag hr,
        parseFieldAt_plain_ok lib env tag ty w x htag hr]
      intro _; rfl
    | error e =>
      rw [parseFieldAt_plain_error lib env tag ty v e htag hr]
      intro hn; cases hn
  · have hr : resolveField lib env (tagOf [name]) .string = .ok (.string "") := by
      rw [resolveField_bare lib env name _ hname hcn, hraw]
      rfl
    have hf := parseFieldAt_plain_ok lib env _ .string old _ (tagOf_ne_empty name _ hname) hr
    have := Parse_ok_at lib env [] [] _ rfl (by rw [hf])
    simpa [hf, parseEnv] using this

/-- C34, at two targets of one struct type with different contents, one field
inside an embedded struct, under `HOST=h`, `PORT=80`: both end with the values
`h` and 80 in their annotated fields; and a string field holding `old` and
tagged `NAME`, NAME unset, ends empty. -/
theorem C34_outcome_independent_of_prior_value_witness :
    annotatedValues (Parse rejectingLib (fun n => if n = "HOST" then "h" else
        if n = "PORT" then "80" else "") (.pointerToStruct
        [.plain "HOST" .string (.string "a"), .plain "" .int (.int 1),
          .nested "" [.plain "PORT" .int (.int 2)]])).target.fields =
      [.string "h", .int 80] ∧
    annotatedValues (Parse rejectingLib (fun n => if n = "HOST" then "h" else
        if n = "PORT" then "80" else "") (.pointerToStruct
        [.plain "HOST" .string (.string "b"), .plain "" .int (.int 3),
          .nested "" [.plain "PORT" .int (.int 4)]])).target.fields =
      [.string "h", .int 80] ∧
    Parse rejectingLib (fun n => if n = "HOST" then "h" else
        if n = "PORT" then "80" else "")
        (.pointerToStruct [.plain "NAME" .string (.string "old")]) =
      ⟨.pointerToStruct [.plain "NAME" .string (.string "")], none⟩ :=
  ⟨by decide,
    ((C34_outcome_independent_of_prior_value rejectingLib (fun n => if n = "HOST" then "h" else
        if n = "PORT" then "80" else "")
      [.plain "HOST" .string (.string "a"), .plain "" .int (.int 1),
        .nested "" [.plain "PORT" .int (.int 2)]]
      [.plain "HOST" .string (.string "b"), .plain "" .int (.int 3),
        .nested "" [.plain "PORT" .int (.int 4)]]
      "HOST" "NAME" .string (.string "a") (.string "b") (.string "old")
      rfl (by decide) (by decide) (by decide) rfl).2.1 (by decide)).symm.trans (by decide),
    (C34_outcome_independent_of_prior_value rejectingLib (fun n => if n = "HOST" then "h" else
        if n = "PORT" then "80" else "")
      [.plain "HOST" .string (.string "a"), .plain "" .int (.int 1),
        .nested "" [.plain "PORT" .int (.int 2)]]
      [.plain "HOST" .string (.string "b"), .plain "" .int (.int 3),
        .nested "" [.plain "PORT" .int (.int 4)]]
      "HOST" "NAME" .string (.string "a") (.string "b") (.string "old")
      rfl (by decide) (by decide) (by decide) rfl).2.2.2.2⟩

/-! ## Literals of keyed options -/

theorem namedOptionValue_bare (t : String) (h : '=' ∉ t.data) : namedOptionValue t = "" := by
  have hd : ("=" : String).data = ['='] := rfl
  simp [namedOptionValue, SplitN2, hd, splitLoop, cut_single_absent _ _ h]

/-- C35: the literal of a token `key=lit`, the key holding no `=`, is all of
`lit`, whatever `=` signs it holds; the literal of a token without `=` is
empty; and with the variable unset a string field tagged `NAME,default=X`
resolves to X, also when X holds `=` signs. -/
theorem C35_option_literal
    (lib : StdLib) (env : Environ) (name x key lit t : String)
    (hname : name ≠ "") (hcn : commaFree name) (hcx : commaFree x) (hraw : env name = "")
    (hk : '=' ∉ key.data) (ht : '=' ∉ t.data) :
    namedOptionValue (key ++ "=" ++ lit) = lit ∧
    namedOptionValue t = "" ∧
    resolveField lib env (tagOf [name, "default=" ++ x]) .string = .ok (.string x) := by
  refine ⟨namedOptionValue_keyed key lit hk, namedOptionValue_bare t ht, ?_⟩
  rw [resolveField_tagOf lib env name _ _ hname hcn
      (commaFree_mem_one _ (commaFree_default x hcx)),
    applyOptions_cons_ok _ _ _ _ (applyOption_default_empty _ x hraw), applyOptions_nil]
  rfl

/-- C35, at the tag `NAME,default=a=b` with `NAME` unset, and at the tokens
`default=a=b` and `separator`. -/
theorem C35_option_literal_witness :
    namedOptionValue "default=a=b" = "a=b" ∧
    namedOptionValue "separator" = "" ∧
    resolveField rejectingLib emptyEnv "NAME,default=a=b" .string = .ok (.string "a=b") :=
  C35_option_literal rejectingLib emptyEnv "NAME" "a=b" "default" "a=b" "separator"
    (by decide) (by decide) (by decide) rfl (by decide) (by decide)

end GoEnv
